import Mathlib

/-!
# CoinDB Vault (mSIGNA) — shallow embedding and verification

This file embeds the stateful core of `src/deps/CoinDB/src/Vault.cpp` —
the persistent multisignature wallet ("vault") — as executable Lean
definitions, and proves or refutes the frozen specification claims
about it.

Modelling conventions:
* The relational store (ODB) is a record of lists of rows; queries are
  list searches in insertion order (`List.find?` models `r.begin()`).
* Machine integers are `Nat` with explicit `% 2^32` / `% 2^64` where the
  C++ arithmetic wraps.
* C++ exceptions become `Except VaultErr`.
* Public wrapper operations model the ODB transaction discipline: the
  `_unwrapped` body runs on a working state and the wrapper returns the
  durable state, which reflects the body's changes only when the source
  wrapper calls `t.commit()` (an ODB transaction destroyed without a
  commit rolls back).
* Code of the repository that is not under `src/` (the ODB schema
  methods such as `Tx::updateStatus`, the `CoinQ::Script` capability,
  cryptographic primitives, and the schema views) is modelled from the
  spec; each such definition carries a doc comment starting with
  `Modelled from the spec:`.
-/

namespace CoinDBVault

/-- Transaction status, in the order listed by the spec:
UNSIGNED, UNSENT, SENT, PROPAGATED, CONFIRMED, CONFLICTING. -/
inductive TxStatus where
  | UNSIGNED
  | UNSENT
  | SENT
  | PROPAGATED
  | CONFIRMED
  | CONFLICTING
deriving DecidableEq, Repr

/-- Modelled from the spec: numeric value of a transaction status, used
for the `>` / `>=` comparisons the source performs on the enum. -/
def TxStatus.toNat : TxStatus → Nat
  | .UNSIGNED => 0
  | .UNSENT => 1
  | .SENT => 2
  | .PROPAGATED => 3
  | .CONFIRMED => 4
  | .CONFLICTING => 5

/-- TxOut status: UNSPENT or SPENT. -/
inductive TxOutStatus where
  | UNSPENT
  | SPENT
deriving DecidableEq, Repr

/-- SigningScript status: UNUSED, ISSUED, USED, CHANGE. -/
inductive ScriptStatus where
  | UNUSED
  | ISSUED
  | USED
  | CHANGE
deriving DecidableEq, Repr

/-- Serialization form of a multisig input script (spec glossary:
SIGN / EDIT / BROADCAST). -/
inductive SForm where
  | SIGN
  | EDIT
  | BROADCAST
deriving DecidableEq, Repr

/-- Modelled from the spec: the `CoinQ::Script` capability (component D,
external to `src/`).  An input script carries its serialization form, the
required signature count, the ordered public keys, and the signatures
present (pubkey, signature) — enough structure for `sigsneeded`,
`missingsigs`, `mergesigs` and `addSig`. -/
structure InScript where
  form : SForm
  minsigs : Nat
  pubkeys : List Nat
  sigs : List (Nat × Nat)
deriving DecidableEq, Repr

/-- Modelled from the spec: number of signatures still needed
(`Script::sigsneeded`). -/
def InScript.sigsneeded (sc : InScript) : Nat :=
  sc.minsigs - sc.sigs.length

/-- Modelled from the spec: public keys of still-missing signers
(`Script::missingsigs`). -/
def InScript.missingsigs (sc : InScript) : List Nat :=
  sc.pubkeys.filter (fun pk => !(sc.sigs.any (fun p => p.1 == pk)))

/-- Modelled from the spec: reserialize the script in the given form
(`Script::txinscript(form)`); the signature content is unchanged. -/
def InScript.txinscript (sc : InScript) (f : SForm) : InScript :=
  { sc with form := f }

/-- Modelled from the spec: merge the signatures of `other` into `sc`
(`Script::mergesigs`): each signature of `other` for a pubkey of `sc`
that has no signature yet is added; returns the number of signatures
added together with the merged script. -/
def InScript.mergesigs (sc other : InScript) : Nat × InScript :=
  let added := other.sigs.filter (fun p =>
    sc.pubkeys.contains p.1 && !(sc.sigs.any (fun q => q.1 == p.1)))
  (added.length, { sc with sigs := sc.sigs ++ added })

/-- Modelled from the spec: add a signature for the given public key
(`Script::addSig`). -/
def InScript.addSig (sc : InScript) (pk sig : Nat) : InScript :=
  { sc with sigs := sc.sigs ++ [(pk, sig)] }

/-! ## In-memory transaction objects (the arguments of `insertTx` etc.) -/

/-- An in-memory `TxIn`: outpoint `(outhash, outindex)`, current input
script and sequence number. -/
structure TxInObj where
  outhash : Nat
  outindex : Nat
  script : InScript
  seq : Nat
deriving DecidableEq, Repr

/-- An in-memory `TxOut`: value and output script (opaque bytes). -/
structure TxOutObj where
  value : Nat
  script : Nat
deriving DecidableEq, Repr

/-- An in-memory `Tx` as submitted to the vault.  The txid (`hash`) and
the `unsigned_hash` are opaque attributes computed by external
serialization code. -/
structure TxObj where
  hash : Nat
  unsignedHash : Nat
  status : TxStatus
  txins : List TxInObj
  txouts : List TxOutObj
  fee : Nat
  timestamp : Nat
deriving DecidableEq, Repr

/-- Modelled from the spec: `Tx::updateStatus()` with no argument
recomputes the status from the current signatures — UNSIGNED if any
input is missing any required signature, otherwise UNSENT or higher if
the caller provided one. -/
def TxObj.updateStatus0 (tx : TxObj) : TxObj :=
  if tx.txins.any (fun i => i.script.sigsneeded != 0) then
    { tx with status := .UNSIGNED }
  else if tx.status = .UNSIGNED then
    { tx with status := .UNSENT }
  else
    tx

/-! ## Stored rows (the relational store) -/

/-- A persisted `Tx` row. -/
structure StoredTx where
  id : Nat
  hash : Nat
  unsignedHash : Nat
  status : TxStatus
  blockheaderId : Option Nat
  blockindex : Nat
  fee : Nat
  timestamp : Nat
deriving DecidableEq, Repr

/-- A persisted `TxIn` row; `txId` is the containing transaction. -/
structure StoredTxIn where
  id : Nat
  txId : Nat
  txindex : Nat
  outhash : Nat
  outindex : Nat
  script : InScript
  seq : Nat
deriving DecidableEq, Repr

/-- A persisted `TxOut` row; `spent` is the back-link to the spending
`TxIn`'s id. -/
structure StoredTxOut where
  id : Nat
  txId : Nat
  txindex : Nat
  value : Nat
  script : Nat
  signingscriptId : Option Nat
  sendingAccountId : Option Nat
  spent : Option Nat
  status : TxOutStatus
deriving DecidableEq, Repr

/-- Modelled from the spec: the `TxOut::spent` setter maintains the §3
invariant `status == SPENT ⇔ spent is non-null`. -/
def StoredTxOut.setSpent (o : StoredTxOut) (v : Option Nat) : StoredTxOut :=
  { o with spent := v, status := if v.isSome then .SPENT else .UNSPENT }

/-- A persisted `SigningScript` row. -/
structure StoredScript where
  id : Nat
  accountId : Nat
  binId : Nat
  index : Nat
  label : String
  txoutscript : Nat
  txinscriptTemplate : InScript
  status : ScriptStatus
deriving DecidableEq, Repr

/-- A persisted `AccountBin` row. -/
structure StoredBin where
  id : Nat
  accountId : Nat
  accountName : String
  name : String
  nextScriptIndex : Nat
deriving DecidableEq, Repr

/-- Modelled from the spec: the reserved change-bin sentinel name (a
name beginning with `@`). -/
def CHANGE_BIN_NAME : String := "@change"

/-- Modelled from the spec: `AccountBin::isChange()` is true iff the
bin's name equals the reserved change-bin sentinel. -/
def StoredBin.isChange (b : StoredBin) : Bool :=
  b.name == CHANGE_BIN_NAME

/-- A persisted `Account` row. -/
structure StoredAccount where
  id : Nat
  name : String
  minsigs : Nat
  keychainNames : List String
  unusedPoolSize : Nat
deriving DecidableEq, Repr

/-- A persisted `Keychain` row.  Modelled from the spec: the encrypted
chain code and private key verify against their respective lock keys;
`unlockChainCode k` / `unlockPrivateKey k` succeed iff `k` matches. -/
structure StoredKeychain where
  name : String
  hash : Nat
  chainCodeLockKey : Nat
  privateKeyLockKey : Nat
deriving DecidableEq, Repr

/-- Modelled from the spec: unlock verifies by attempting decryption of
the chain code. -/
def StoredKeychain.unlockChainCode (k : StoredKeychain) (key : Nat) : Bool :=
  k.chainCodeLockKey == key

/-- Modelled from the spec: unlock verifies by attempting decryption of
the private key. -/
def StoredKeychain.unlockPrivateKey (k : StoredKeychain) (key : Nat) : Bool :=
  k.privateKeyLockKey == key

/-- A persisted `Key` row (a derived child key). -/
structure StoredKey where
  id : Nat
  pubkey : Nat
  privkey : Nat
  isPrivate : Bool
  rootKeychainName : String
deriving DecidableEq, Repr

/-- A persisted `BlockHeader` row. -/
structure StoredHeader where
  id : Nat
  hash : Nat
  prevhash : Nat
  height : Nat
  timestamp : Nat
deriving DecidableEq, Repr

/-- A persisted `MerkleBlock` row: the header it annotates plus the
included transaction hashes. -/
structure StoredMerkleBlock where
  id : Nat
  headerId : Nat
  txhashes : List Nat
deriving DecidableEq, Repr

/-- An in-memory merkle block as submitted to `insertMerkleBlock`
(its `BlockHeader` fields plus the included transaction hashes). -/
structure MBObj where
  hash : Nat
  prevhash : Nat
  height : Nat
  timestamp : Nat
  txhashes : List Nat
deriving DecidableEq, Repr

/-- The vault state: the relational store plus the process-wide runtime
unlock maps. -/
structure VaultState where
  txs : List StoredTx
  txins : List StoredTxIn
  txouts : List StoredTxOut
  scripts : List StoredScript
  bins : List StoredBin
  accounts : List StoredAccount
  keychains : List StoredKeychain
  keys : List StoredKey
  headers : List StoredHeader
  merkleblocks : List StoredMerkleBlock
  nextId : Nat
  mapChainCodeUnlock : List (String × Nat)
  mapPrivateKeyUnlock : List (String × Nat)
deriving DecidableEq, Repr

/-- The empty vault. -/
def emptyVault : VaultState :=
  { txs := [], txins := [], txouts := [], scripts := [], bins := []
    accounts := [], keychains := [], keys := [], headers := []
    merkleblocks := [], nextId := 1
    mapChainCodeUnlock := [], mapPrivateKeyUnlock := [] }

/-- The closed error taxonomy of §7. -/
inductive VaultErr where
  | keychainNotFound (name : String)
  | keychainChainCodeUnlockFailed (name : String)
  | keychainPrivateKeyUnlockFailed (name : String)
  | keychainInvalidPrivateKey (name : String)
  | accountNotFound (name : String)
  | accountChainCodeLocked (name : String) (locked : List String)
  | accountBinNotFound (account bin : String)
  | accountBinOutOfScripts (account bin : String)
  | accountCannotIssueChangeScript (name : String)
  | accountInsufficientFunds (name : String)
  | txNotFound (hash : Nat)
  | outpointOutOfRange
deriving DecidableEq, Repr

/-! ## Global queries and keychain locking -/

/-- Modelled from the spec: the rows of `HorizonTimestampView` — the
block timestamps of the persisted transactions (empty when no persisted
transaction has one). -/
def horizonRows (s : VaultState) : List Nat :=
  s.txs.filterMap (fun t => t.blockheaderId.bind (fun hid =>
    (s.headers.find? (fun h => h.id == hid)).map (fun h => h.timestamp)))

/-- `Vault::getHorizonTimestamp_unwrapped` (Vault.cpp:72): returns the
sentinel `0xffffffff` when the view is empty, else the earliest
timestamp. -/
def getHorizonTimestamp_unwrapped (s : VaultState) : Nat :=
  match horizonRows s with
  | [] => 0xffffffff
  | x :: xs => xs.foldl Nat.min x

/-- `Vault::getTx_unwrapped` (Vault.cpp:924): looks a transaction up by
signed hash OR unsigned hash; `TxNotFound` when neither matches. -/
def getTx_unwrapped (s : VaultState) (h : Nat) : Except VaultErr StoredTx :=
  match s.txs.find? (fun t => t.hash == h || t.unsignedHash == h) with
  | none => .error (.txNotFound h)
  | some t => .ok t

/-- `Vault::getKeychain_unwrapped` (Vault.cpp:465). -/
def getKeychain_unwrapped (s : VaultState) (name : String) :
    Except VaultErr StoredKeychain :=
  match s.keychains.find? (fun k => k.name == name) with
  | none => .error (.keychainNotFound name)
  | some k => .ok k

/-- Lookup in a runtime unlock map. -/
def mapLookup (m : List (String × Nat)) (name : String) : Option Nat :=
  (m.find? (fun p => p.1 == name)).map (fun p => p.2)

/-- Store a key in a runtime unlock map (`map[name] = key`). -/
def mapStore (m : List (String × Nat)) (name : String) (key : Nat) :
    List (String × Nat) :=
  m.filter (fun p => p.1 != name) ++ [(name, key)]

/-- `Vault::unlockKeychainChainCode` (Vault.cpp:507): fetches the
keychain, and caches the unlock key in the runtime map only when
decryption verification succeeds.  A failing key is silently ignored. -/
def unlockKeychainChainCode (s : VaultState) (name : String) (key : Nat) :
    Except VaultErr VaultState :=
  match getKeychain_unwrapped s name with
  | .error e => .error e
  | .ok kc =>
    if kc.unlockChainCode key then
      .ok { s with mapChainCodeUnlock := mapStore s.mapChainCodeUnlock name key }
    else
      .ok s

/-- `Vault::unlockKeychainPrivateKey` (Vault.cpp:545): same discipline
for the private-key unlock map. -/
def unlockKeychainPrivateKey (s : VaultState) (name : String) (key : Nat) :
    Except VaultErr VaultState :=
  match getKeychain_unwrapped s name with
  | .error e => .error e
  | .ok kc =>
    if kc.unlockPrivateKey key then
      .ok { s with mapPrivateKeyUnlock := mapStore s.mapPrivateKeyUnlock name key }
    else
      .ok s

/-- `Vault::tryUnlockKeychainChainCode_unwrapped` (Vault.cpp:519):
returns false when no key is cached; throws
`KeychainChainCodeUnlockFailed` when a cached key fails decryption. -/
def tryUnlockKeychainChainCode_unwrapped (s : VaultState)
    (kc : StoredKeychain) : Except VaultErr Bool :=
  match mapLookup s.mapChainCodeUnlock kc.name with
  | none => .ok false
  | some key =>
    if kc.unlockChainCode key then .ok true
    else .error (.keychainChainCodeUnlockFailed kc.name)

/-- `Vault::tryUnlockKeychainPrivateKey_unwrapped` (Vault.cpp:557). -/
def tryUnlockKeychainPrivateKey_unwrapped (s : VaultState)
    (kc : StoredKeychain) : Except VaultErr Bool :=
  match mapLookup s.mapPrivateKeyUnlock kc.name with
  | none => .ok false
  | some key =>
    if kc.unlockPrivateKey key then .ok true
    else .error (.keychainPrivateKeyUnlockFailed kc.name)

/-! ## Account / bin / pool operations -/

/-- `Vault::getAccount_unwrapped` (Vault.cpp:662). -/
def getAccount_unwrapped (s : VaultState) (name : String) :
    Except VaultErr StoredAccount :=
  match s.accounts.find? (fun a => a.name == name) with
  | none => .error (.accountNotFound name)
  | some a => .ok a

/-- `Vault::getAccountBin_unwrapped` (Vault.cpp:899), through
`AccountBinView` (joins the account and bin names). -/
def getAccountBin_unwrapped (s : VaultState) (accountName binName : String) :
    Except VaultErr StoredBin :=
  match s.bins.find? (fun b =>
      b.accountName == accountName && b.name == binName) with
  | none => .error (.accountBinNotFound accountName binName)
  | some b => .ok b

/-- `Vault::tryUnlockAccountChainCodes_unwrapped` (Vault.cpp:429):
collects the keychains of the account that are absent from the runtime
chain-code unlock map or whose cached key fails decryption (erasing the
latter from the map).  The caller raises `AccountChainCodeLocked` when
the collection is not empty.  Only the runtime map is mutated. -/
def tryUnlockAccountChainCodes_unwrapped (s : VaultState)
    (acct : StoredAccount) : List String × VaultState :=
  let step := fun (acc : List String × List (String × Nat)) (name : String) =>
    match mapLookup acc.2 name with
    | none => (acc.1 ++ [name], acc.2)
    | some key =>
      match s.keychains.find? (fun k => k.name == name) with
      | none => (acc.1 ++ [name], acc.2)
      | some kc =>
        if kc.unlockChainCode key then acc
        else (acc.1 ++ [name], acc.2.filter (fun p => p.1 != name))
  let r := acct.keychainNames.foldl step ([], s.mapChainCodeUnlock)
  (r.1, { s with mapChainCodeUnlock := r.2 })

/-- Modelled from the spec: `AccountBin::newSigningScript` (schema code
outside `src/`) — creates the pool entry at `next_script_index` with
status UNUSED, one child key per account keychain derived at that index
(derivation digests are opaque, represented by `Nat.pair`), persists the
keys then the script, and advances the index. -/
def newSigningScript (s : VaultState) (acct : StoredAccount)
    (bin : StoredBin) : VaultState × StoredBin :=
  let idx := bin.nextScriptIndex
  let infos := acct.keychainNames.map (fun n =>
    (n, match s.keychains.find? (fun k => k.name == n) with
        | some kc => kc.hash
        | none => 0))
  let pubkeys := infos.map (fun p => Nat.pair p.2 idx)
  let newKeys := infos.enum.map (fun p =>
    ({ id := s.nextId + p.1, pubkey := Nat.pair p.2.2 idx, privkey := 0
       isPrivate := false, rootKeychainName := p.2.1 } : StoredKey))
  let scriptId := s.nextId + infos.length
  let newScript : StoredScript :=
    { id := scriptId, accountId := acct.id, binId := bin.id, index := idx
      label := "", txoutscript := Nat.pair bin.id idx
      txinscriptTemplate :=
        { form := .EDIT, minsigs := acct.minsigs, pubkeys := pubkeys, sigs := [] }
      status := .UNUSED }
  ({ s with keys := s.keys ++ newKeys,
            scripts := s.scripts ++ [newScript],
            nextId := scriptId + 1 },
   { bin with nextScriptIndex := idx + 1 })

/-- The pool generation loop of `refillAccountBinPool_unwrapped`. -/
def refillLoop (acct : StoredAccount) :
    Nat → VaultState → StoredBin → VaultState × StoredBin
  | 0, s, bin => (s, bin)
  | n + 1, s, bin =>
    let r := newSigningScript s acct bin
    refillLoop acct n r.1 r.2

/-- `Vault::refillAccountBinPool_unwrapped` (Vault.cpp:819): requires
the account chain codes to be unlockable (returning
`AccountChainCodeLocked` otherwise), counts the UNUSED scripts of the
bin (`ScriptCountView`), generates scripts until the pool size is
reached and updates the bin.  The error, when any, is returned together
with the state (the runtime-map erasures survive the error, and the
callers in the insertion paths absorb it). -/
def refillAccountBinPool_unwrapped (s : VaultState) (binId : Nat) :
    Option VaultErr × VaultState :=
  match s.bins.find? (fun b => b.id == binId) with
  | none => (none, s)
  | some bin =>
    match s.accounts.find? (fun a => a.id == bin.accountId) with
    | none => (none, s)
    | some acct =>
      let r := tryUnlockAccountChainCodes_unwrapped s acct
      if r.1.isEmpty then
        let count := (r.2.scripts.filter (fun sc =>
          sc.binId == binId && sc.status == ScriptStatus.UNUSED)).length
        let g := refillLoop acct (acct.unusedPoolSize - count) r.2 bin
        (none, { g.1 with bins := g.1.bins.map (fun b =>
          if b.id == binId then g.2 else b) })
      else
        (some (.accountChainCodeLocked acct.name r.1), r.2)

/-- `Vault::issueAccountBinSigningScript_unwrapped` (Vault.cpp:770):
fails with `AccountCannotIssueChangeScript` on the change bin, attempts
a best-effort pool refill (absorbing `AccountChainCodeLocked`), selects
the smallest-index UNUSED script (`SigningScriptView` ordered by index,
limit 1), fails with `AccountBinOutOfScripts` if there is none, and
issues it (label set, status UNUSED → ISSUED). -/
def issueAccountBinSigningScript_unwrapped (s : VaultState)
    (bin : StoredBin) (label : String) :
    Except VaultErr (VaultState × StoredScript) :=
  if bin.isChange then .error (.accountCannotIssueChangeScript bin.accountName)
  else
    let s1 : VaultState := (refillAccountBinPool_unwrapped s bin.id).2
    match s1.scripts.filter (fun sc =>
        sc.binId == bin.id && sc.status == ScriptStatus.UNUSED) with
    | [] => .error (.accountBinOutOfScripts bin.accountName bin.name)
    | x :: xs =>
      let best := xs.foldl (fun b c => if c.index < b.index then c else b) x
      let issued := { best with label := label, status := ScriptStatus.ISSUED }
      .ok ({ s1 with scripts := s1.scripts.map (fun sc =>
        if sc.id == best.id then issued else sc) }, issued)

/-! ## Transaction insertion -/

/-- Modelled from the spec: `updateConfirmations_unwrapped`
(Vault.cpp:1510) through `ConfirmedTxView`: every transaction whose
`blockheader` is null (restricted to one hash when scoped) is joined
against the stored merkle blocks; when some stored merkle block lists
its hash, the transaction is linked to that block's header (per-row
function below). -/
def confirmFn (merkleblocks : List StoredMerkleBlock) (only : Option Nat)
    (t : StoredTx) : StoredTx :=
  if t.blockheaderId.isNone &&
     (match only with | none => true | some h => t.hash == h) then
    match merkleblocks.find? (fun mb => mb.txhashes.contains t.hash) with
    | some mb => { t with blockheaderId := some mb.headerId }
    | none => t
  else t

/-- The table update of `updateConfirmations_unwrapped`. -/
def updateConfirmations_unwrapped (s : VaultState) (only : Option Nat) :
    VaultState :=
  { s with txs := s.txs.map (confirmFn s.merkleblocks only) }

/-- Accumulator of the input scan of `insertTx_unwrapped`
(Vault.cpp:1031-1081). -/
structure InScanAcc where
  st : VaultState
  sentFromVault : Bool
  haveAllOutpoints : Bool
  inputTotal : Nat
  sendingAccount : Option Nat
  conflicts : List Nat
  spentUpdates : List Nat
deriving Repr

/-- The input scan of `insertTx_unwrapped` (Vault.cpp:1037-1081): for
each input (paired with its future row id), resolve the outpoint; a
missing outpoint clears `have_all_outpoints`; an out-of-range outpoint
index throws; a non-null `spent` back-link records the spending
transaction as a conflict; a signing-script match marks the outpoint
spent by this input and fixes the sending account. -/
def insertTxInScan (newTxId : Nat) :
    List (TxInObj × Nat) → InScanAcc → Except VaultErr InScanAcc
  | [], acc => .ok acc
  | (txin, iid) :: rest, acc =>
    match acc.st.txs.find? (fun t => t.hash == txin.outhash) with
    | none => insertTxInScan newTxId rest { acc with haveAllOutpoints := false }
    | some spentTx =>
      let outpoints := acc.st.txouts.filter (fun o => o.txId == spentTx.id)
      match outpoints.get? txin.outindex with
      | none => .error .outpointOutOfRange
      | some outpoint =>
        let acc1 : InScanAcc :=
          match outpoint.spent with
          | some ctid =>
            let ctxId : Nat :=
              match acc.st.txins.find? (fun i => i.id == ctid) with
              | some ci => ci.txId
              | none => newTxId
            if acc.conflicts.contains ctxId then acc
            else { acc with conflicts := acc.conflicts ++ [ctxId] }
          | none => acc
        let acc2 : InScanAcc := { acc1 with
          inputTotal := (acc1.inputTotal + outpoint.value) % 2 ^ 64 }
        match acc2.st.scripts.find? (fun sc =>
            sc.txoutscript == outpoint.script) with
        | none => insertTxInScan newTxId rest acc2
        | some sc =>
          let acc3 : InScanAcc := { acc2 with
            sentFromVault := true
            st := { acc2.st with txouts := acc2.st.txouts.map (fun o =>
              if o.id == outpoint.id then o.setSpent (some iid) else o) }
            spentUpdates :=
              if acc2.spentUpdates.contains outpoint.id then acc2.spentUpdates
              else acc2.spentUpdates ++ [outpoint.id]
            sendingAccount :=
              match acc2.sendingAccount with
              | none => some sc.accountId
              | some a => some a }
          insertTxInScan newTxId rest acc3

/-- Accumulator of the output scan of `insertTx_unwrapped`
(Vault.cpp:1087-1149). -/
structure OutScanAcc where
  st : VaultState
  sentToVault : Bool
  outputTotal : Nat
  newOuts : List StoredTxOut
deriving Repr

/-- The output scan of `insertTx_unwrapped` (Vault.cpp:1091-1149): for
each output (paired with its future row id and index), a signing-script
match marks the output as vault-bound, advances the script status
(UNUSED → CHANGE when sent from the vault into a change bin, else
UNUSED/ISSUED → USED, refilling the pool best-effort in the UNUSED
case), and links an already-stored spending input (out-of-order
arrival); otherwise the output records the sending account. -/
def insertTxOutScan (txHash newTxId : Nat) (sentFromVault : Bool)
    (sendingAccount : Option Nat) :
    List (TxOutObj × Nat × Nat) → OutScanAcc → OutScanAcc
  | [], acc => acc
  | (txout, oid, j) :: rest, acc =>
    let acc0 := { acc with
      outputTotal := (acc.outputTotal + txout.value) % 2 ^ 64 }
    match acc0.st.scripts.find? (fun sc => sc.txoutscript == txout.script) with
    | some sc =>
      let st1 : VaultState :=
        match sc.status with
        | .UNUSED =>
          let newStatus :=
            match acc0.st.bins.find? (fun b => b.id == sc.binId) with
            | some bin =>
              if sentFromVault && bin.isChange then ScriptStatus.CHANGE
              else ScriptStatus.USED
            | none => ScriptStatus.USED
          let stA : VaultState := { acc0.st with scripts := acc0.st.scripts.map (fun x =>
            if x.id == sc.id then { x with status := newStatus } else x) }
          (refillAccountBinPool_unwrapped stA sc.binId).2
        | .ISSUED =>
          { acc0.st with scripts := acc0.st.scripts.map (fun x =>
            if x.id == sc.id then { x with status := ScriptStatus.USED } else x) }
        | _ => acc0.st
      let spentLink := acc0.st.txins.find? (fun i =>
        i.outhash == txHash && i.outindex == j)
      let newOut : StoredTxOut :=
        { id := oid, txId := newTxId, txindex := j, value := txout.value
          script := txout.script, signingscriptId := some sc.id
          sendingAccountId := none, spent := none, status := .UNSPENT }
      let newOut1 :=
        match spentLink with
        | some i => newOut.setSpent (some i.id)
        | none => newOut
      insertTxOutScan txHash newTxId sentFromVault sendingAccount rest
        { st := st1, sentToVault := true, outputTotal := acc0.outputTotal
          newOuts := acc0.newOuts ++ [newOut1] }
    | none =>
      let newOut : StoredTxOut :=
        { id := oid, txId := newTxId, txindex := j, value := txout.value
          script := txout.script, signingscriptId := none
          sendingAccountId := sendingAccount, spent := none
          status := .UNSPENT }
      insertTxOutScan txHash newTxId sentFromVault sendingAccount rest
        { acc0 with newOuts := acc0.newOuts ++ [newOut] }

/-- `Vault::insertTx_unwrapped` (Vault.cpp:945): recompute the status
from the signatures, reconcile by unsigned hash against a stored
duplicate, otherwise scan inputs and outputs, handle conflicts, and
persist when the transaction touches the vault.  Returns the id of the
stored transaction the call returned, if any, together with the
transaction-local state. -/
def insertTx_unwrapped (s : VaultState) (tx0 : TxObj) :
    Except VaultErr (Option Nat × VaultState) :=
  let tx := tx0.updateStatus0
  match s.txs.find? (fun t => t.unsignedHash == tx.unsignedHash) with
  | some stored =>
    if stored.status = .UNSIGNED then
      if tx.status ≠ .UNSIGNED then
        -- replace the unsigned stored inputs with the signed incoming ones
        let storedIns := s.txins.filter (fun i => i.txId == stored.id)
        let pairs : List (Nat × InScript) := List.zipWith (fun (st : StoredTxIn) (inc : TxInObj) =>
          (st.id, inc.script)) storedIns tx.txins
        let s1 : VaultState := { s with txins := s.txins.map (fun i =>
          match pairs.lookup i.id with
          | some sc => { i with script := sc }
          | none => i) }
        let s2 : VaultState := { s1 with txs := s1.txs.map (fun t =>
          if t.id == stored.id then { t with status := tx.status } else t) }
        .ok (some stored.id, s2)
      else
        -- both unsigned: merge signatures input by input
        let storedIns := s.txins.filter (fun i => i.txId == stored.id)
        let merges : List (Nat × Nat × InScript) := List.zipWith (fun (st : StoredTxIn) (inc : TxInObj) =>
          let m := st.script.mergesigs inc.script
          (st.id, m.1, m.2.txinscript .EDIT)) storedIns tx.txins
        let updatedPairs := merges.filter (fun p => decide (0 < p.2.1))
        if updatedPairs.isEmpty then .ok (none, s)
        else
          let s1 : VaultState := { s with txins := s.txins.map (fun i =>
            match updatedPairs.lookup i.id with
            | some p => { i with script := p.2 }
            | none => i) }
          .ok (some stored.id, s1)
    else
      if tx.status ≠ .UNSIGNED then
        if stored.status.toNat < tx.status.toNat then
          .ok (some stored.id, { s with txs := s.txs.map (fun t =>
            if t.id == stored.id then { t with status := tx.status } else t) })
        else .ok (none, s)
      else .ok (none, s)
  | none =>
    let txId := s.nextId
    let nIns := tx.txins.length
    let nOuts := tx.txouts.length
    let pins := tx.txins.enum.map (fun p => (p.2, txId + 1 + p.1))
    let pouts := tx.txouts.enum.map (fun p => (p.2, txId + 1 + nIns + p.1, p.1))
    match insertTxInScan txId pins
        { st := s, sentFromVault := false, haveAllOutpoints := true
          inputTotal := 0, sendingAccount := none, conflicts := []
          spentUpdates := [] } with
    | .error e => .error e
    | .ok iacc =>
      let oacc := insertTxOutScan tx.hash txId iacc.sentFromVault
        iacc.sendingAccount pouts
        { st := iacc.st, sentToVault := false, outputTotal := 0, newOuts := [] }
      let tx1 : TxObj := if iacc.conflicts.isEmpty then tx
                 else { tx with status := .CONFLICTING }
      let st1 : VaultState :=
        if iacc.conflicts.isEmpty then oacc.st
        else { oacc.st with txs := oacc.st.txs.map (fun t =>
          if iacc.conflicts.contains t.id && !(t.status == TxStatus.CONFIRMED)
          then { t with status := .CONFLICTING } else t) }
      if iacc.sentFromVault || oacc.sentToVault then
        let fee := if iacc.haveAllOutpoints then
            (iacc.inputTotal + 2 ^ 64 - oacc.outputTotal) % 2 ^ 64
          else tx.fee
        let newTx : StoredTx :=
          { id := txId, hash := tx.hash, unsignedHash := tx.unsignedHash
            status := tx1.status, blockheaderId := none, blockindex := 0
            fee := fee, timestamp := tx.timestamp }
        let newIns := tx.txins.enum.map (fun p =>
          ({ id := txId + 1 + p.1, txId := txId, txindex := p.1
             outhash := p.2.outhash, outindex := p.2.outindex
             script := p.2.script, seq := p.2.seq } : StoredTxIn))
        let st2 : VaultState := { st1 with
          txs := st1.txs ++ [newTx]
          txins := st1.txins ++ newIns
          txouts := st1.txouts ++ oacc.newOuts
          nextId := txId + 1 + nIns + nOuts }
        let st3 : VaultState :=
          if decide (TxStatus.toNat .SENT ≤ tx1.status.toNat) then
            updateConfirmations_unwrapped st2 (some tx.hash)
          else st2
        .ok (some txId, st3)
      else
        .ok (none, st1)

/-- Public `Vault::insertTx` (Vault.cpp:933): commits the persistence
transaction only when the unwrapped operation returns a transaction
(`if (tx) t.commit()`); otherwise the transaction rolls back and the
durable state is unchanged. -/
def insertTx (s : VaultState) (tx0 : TxObj) :
    Except VaultErr (Option Nat × VaultState) :=
  match insertTx_unwrapped s tx0 with
  | .error e => .error e
  | .ok (some tid, s1) => .ok (some tid, s1)
  | .ok (none, _) => .ok (none, s)

/-! ## Transaction deletion -/

mutual

/-- `Vault::deleteTx_unwrapped` (Vault.cpp:1276), with explicit fuel
bounding the recursive deletion of dependent transactions (the C++
recursion terminates because spend links are acyclic; exhausted fuel
returns the state unchanged).  Signing-script statuses are deliberately
not reverted.  For each input of the transaction: unspend the outpoint
it spends, then erase the input.  For each output: recursively delete
the spending transaction first, then erase the output.  Finally erase
the transaction row. -/
def deleteTxAux : Nat → VaultState → Nat → VaultState
  | 0, s, _ => s
  | fuel + 1, s, txId =>
    let insIds := (s.txins.filter (fun i => i.txId == txId)).map (fun i => i.id)
    let s1 := insIds.foldl (fun (acc : VaultState) iid =>
      { acc with
        txouts := acc.txouts.map (fun o =>
          if o.spent == some iid then o.setSpent none else o),
        txins := acc.txins.filter (fun i => !(i.id == iid)) }) s
    let outIds := (s1.txouts.filter (fun o => o.txId == txId)).map (fun o => o.id)
    let s2 := deleteTxOuts fuel s1 outIds
    { s2 with txs := s2.txs.filter (fun t => !(t.id == txId)) }
termination_by fuel _ _ => (fuel, 0)

/-- The per-output loop of `deleteTx_unwrapped` (Vault.cpp:1294-1300):
recursively delete the transaction spending the output, if any, then
erase the output. -/
def deleteTxOuts : Nat → VaultState → List Nat → VaultState
  | _, s, [] => s
  | fuel, s, oid :: rest =>
    let s1 : VaultState :=
      match s.txouts.find? (fun o => o.id == oid) with
      | none => s
      | some o =>
        match o.spent with
        | none => s
        | some iid =>
          match s.txins.find? (fun i => i.id == iid) with
          | none => s
          | some spendingIn => deleteTxAux fuel s spendingIn.txId
    let s2 := { s1 with txouts := s1.txouts.filter (fun o => !(o.id == oid)) }
    deleteTxOuts fuel s2 rest
termination_by fuel _ l => (fuel, l.length + 1)

end

/-- Public `Vault::deleteTx` (Vault.cpp:1261): resolves the hash against
both the signed hash and the unsigned hash, throws `TxNotFound` when
neither matches, deletes recursively, and commits. -/
def deleteTx (s : VaultState) (h : Nat) : Except VaultErr VaultState :=
  match s.txs.find? (fun t => t.hash == h || t.unsignedHash == h) with
  | none => .error (.txNotFound h)
  | some t => .ok (deleteTxAux s.txs.length s t.id)

/-! ## Transaction signing -/

/-- Modelled from the spec: the `SIGHASH_ALL` signing digest of one
input — computed by external serialization and hash code from the
canonical form in which only that input carries its SIGN-form script; an
opaque injective pairing stands in for the digest. -/
def signingHashFor (tx : TxObj) (idx : Nat) : Nat :=
  Nat.pair tx.unsignedHash idx

/-- Modelled from the spec: the external secp256k1 capability's public
key derivation; an arbitrary injective map stands in for EC point
multiplication. -/
def getPubKeyOf (priv : Nat) : Nat := priv + 1

/-- Modelled from the spec: external secp256k1 ECDSA signing with the
SIGHASH byte appended; an opaque injective pairing stands in. -/
def makeSignature (priv h : Nat) : Nat := Nat.pair priv h

/-- The per-key inner loop of `signTx_unwrapped` (Vault.cpp:1388-1416):
for each candidate private key, try to unlock its root keychain's
private key and chain code from the cached unlock keys (skipping the
key when either is not cached, and failing when a cached key no longer
decrypts), verify the recovered private key against the stored public
key (`KeychainInvalidPrivateKey` otherwise), sign and add the
signature; stop when no more signatures are needed.  Returns the script,
the remaining `sigsneeded` and the number of signatures added. -/
def signTxKeyLoop (s : VaultState) (h : Nat) :
    List StoredKey → InScript → Nat → Nat →
    Except VaultErr (InScript × Nat × Nat)
  | [], script, sigsneeded, sigsadded => .ok (script, sigsneeded, sigsadded)
  | key :: rest, script, sigsneeded, sigsadded =>
    match s.keychains.find? (fun k => k.name == key.rootKeychainName) with
    | none => signTxKeyLoop s h rest script sigsneeded sigsadded
    | some kc =>
      match tryUnlockKeychainPrivateKey_unwrapped s kc with
      | .error e => .error e
      | .ok false => signTxKeyLoop s h rest script sigsneeded sigsadded
      | .ok true =>
        match tryUnlockKeychainChainCode_unwrapped s kc with
        | .error e => .error e
        | .ok false => signTxKeyLoop s h rest script sigsneeded sigsadded
        | .ok true =>
          if getPubKeyOf key.privkey != key.pubkey then
            .error (.keychainInvalidPrivateKey key.rootKeychainName)
          else
            let script1 := script.addSig key.pubkey (makeSignature key.privkey h)
            if sigsneeded - 1 == 0 then .ok (script1, 0, sigsadded + 1)
            else signTxKeyLoop s h rest script1 (sigsneeded - 1) (sigsadded + 1)

/-- The per-input loop of `signTx_unwrapped` (Vault.cpp:1363-1419):
inputs that need no signature, have no missing-signer public keys, or
match no stored private key are skipped unchanged (`continue`); for the
others the key loop runs and the input's script is rewritten in EDIT
form when signatures are still missing, BROADCAST form otherwise.
Returns the processed inputs and the total number of signatures
added. -/
def signTxInLoop (s : VaultState) (tx : TxObj) :
    List TxInObj → Nat → Except VaultErr (List TxInObj × Nat)
  | [], _ => .ok ([], 0)
  | txin :: rest, idx =>
    let script := txin.script
    let sigsneeded := script.sigsneeded
    if sigsneeded == 0 then
      match signTxInLoop s tx rest (idx + 1) with
      | .error e => .error e
      | .ok (ins, total) => .ok (txin :: ins, total)
    else
      let pubkeys := script.missingsigs
      if pubkeys.isEmpty then
        match signTxInLoop s tx rest (idx + 1) with
        | .error e => .error e
        | .ok (ins, total) => .ok (txin :: ins, total)
      else
        let keys := s.keys.filter (fun k =>
          k.isPrivate && pubkeys.contains k.pubkey)
        if keys.isEmpty then
          match signTxInLoop s tx rest (idx + 1) with
          | .error e => .error e
          | .ok (ins, total) => .ok (txin :: ins, total)
        else
          match signTxKeyLoop s (signingHashFor tx idx) keys script
              sigsneeded 0 with
          | .error e => .error e
          | .ok (script1, sigsneeded1, added) =>
            let f := if sigsneeded1 != 0 then SForm.EDIT else SForm.BROADCAST
            let txin1 : TxInObj := { txin with script := script1.txinscript f }
            match signTxInLoop s tx rest (idx + 1) with
            | .error e => .error e
            | .ok (ins, total) => .ok (txin1 :: ins, added + total)

/-- `Vault::signTx_unwrapped` (Vault.cpp:1358): sign every input for
which cached-unlocked private keys are available; return false iff no
signature was added, otherwise recompute the status and return true. -/
def signTx_unwrapped (s : VaultState) (tx : TxObj) :
    Except VaultErr (Bool × TxObj) :=
  match signTxInLoop s tx tx.txins 0 with
  | .error e => .error e
  | .ok (ins, sigsadded) =>
    let tx1 := { tx with txins := ins }
    if sigsadded == 0 then .ok (false, tx1)
    else .ok (true, tx1.updateStatus0)

/-! ## Transaction creation -/

/-- One row of `TxOutView` as used by the coin selection of
`createTx_unwrapped`: an UNSPENT output received by the account,
carrying its value, outpoint and the signing script's input-script
template. -/
structure UtxoView where
  value : Nat
  txHash : Nat
  txIndex : Nat
  txinscriptTemplate : InScript
deriving DecidableEq, Repr

/-- The greedy accumulation loop of `createTx_unwrapped`
(Vault.cpp:1225-1232): accumulate shuffled UTXOs until the running
total reaches the desired total. -/
def selectUtxos (desired : Nat) :
    List UtxoView → Nat → List UtxoView → Nat × List UtxoView
  | [], total, chosen => (total, chosen)
  | u :: rest, total, chosen =>
    let total1 := (total + u.value) % 2 ^ 64
    let chosen1 := chosen ++ [u]
    if desired ≤ total1 then (total1, chosen1)
    else selectUtxos desired rest total1 chosen1

/-- `Vault::createTx_unwrapped` (Vault.cpp:1203): enumerate the
account's UNSPENT outputs (`TxOutView`), shuffle, accumulate greedily,
fail with `AccountInsufficientFunds` when short; when there is change,
fetch the change bin and issue a change script through
`issueAccountBinSigningScript_unwrapped`, append the change output;
shuffle outputs and build an UNSIGNED transaction.  The random shuffles
(seeded from the wall clock in the source) are taken as parameters; the
transaction version and locktime enter only the opaque external
serialization, as do the digests: the constructed object carries opaque
zero hashes. -/
def createTx_unwrapped (shuffleU : List UtxoView → List UtxoView)
    (shuffleO : List TxOutObj → List TxOutObj) (s : VaultState)
    (accountName : String) (txouts0 : List TxOutObj) (fee : Nat)
    (tstamp : Nat) : Except VaultErr (TxObj × VaultState) :=
  let desired := txouts0.foldl (fun a o => (a + o.value) % 2 ^ 64) fee
  match getAccount_unwrapped s accountName with
  | .error e => .error e
  | .ok acct =>
    let utxos : List UtxoView := s.txouts.filterMap (fun o =>
      if o.status == TxOutStatus.UNSPENT then
        match o.signingscriptId.bind (fun sid =>
            s.scripts.find? (fun sc => sc.id == sid)) with
        | some sc =>
          if sc.accountId == acct.id then
            match s.txs.find? (fun t => t.id == o.txId) with
            | some t => some { value := o.value, txHash := t.hash
                               txIndex := o.txindex
                               txinscriptTemplate := sc.txinscriptTemplate }
            | none => none
          else none
        | none => none
      else none)
    let sel := selectUtxos desired (shuffleU utxos) 0 []
    if sel.1 < desired then .error (.accountInsufficientFunds accountName)
    else
      let txins : List TxInObj := sel.2.map (fun u =>
        { outhash := u.txHash, outindex := u.txIndex
          script := u.txinscriptTemplate, seq := 0xffffffff })
      let change := sel.1 - desired
      if 0 < change then
        match getAccountBin_unwrapped s accountName CHANGE_BIN_NAME with
        | .error e => .error e
        | .ok bin =>
          match issueAccountBinSigningScript_unwrapped s bin "" with
          | .error e => .error e
          | .ok (s1, changescript) =>
            let touts := shuffleO (txouts0 ++
              [{ value := change, script := changescript.txoutscript }])
            .ok ({ hash := 0, unsignedHash := 0, status := .UNSIGNED
                   txins := txins, txouts := touts, fee := 0
                   timestamp := tstamp }, s1)
      else
        .ok ({ hash := 0, unsignedHash := 0, status := .UNSIGNED
               txins := txins, txouts := shuffleO txouts0, fee := 0
               timestamp := tstamp }, s)

/-! ## Chain engine -/

/-- The reorg phase of `insertMerkleBlock_unwrapped`
(Vault.cpp:1475-1490): erase every merkle block referencing a header at
or above the new height, null the `blockheader` link of every
transaction pointing at such a header (per-row function below), and
erase those headers. -/
def reorgNullFn (erasedIds : List Nat) (t : StoredTx) : StoredTx :=
  match t.blockheaderId with
  | some hid =>
    if erasedIds.contains hid then { t with blockheaderId := none }
    else t
  | none => t

/-- The ids of the headers a reorg at the given height erases. -/
def reorgErasedIds (s : VaultState) (height : Nat) : List Nat :=
  (s.headers.filter (fun h => decide (height ≤ h.height))).map (fun h => h.id)

/-- The table updates of the reorg phase. -/
def reorgDisconnect (s : VaultState) (height : Nat) : VaultState :=
  let erasedIds := reorgErasedIds s height
  { s with
    merkleblocks :=
      s.merkleblocks.filter (fun m => !(erasedIds.contains m.headerId))
    txs := s.txs.map (reorgNullFn erasedIds)
    headers := s.headers.filter (fun h => decide (h.height < height)) }

/-- The persist-and-link phase of `insertMerkleBlock_unwrapped`
(Vault.cpp:1492-1503): persist the new header and merkle block, then
link every stored transaction whose hash the block lists to the new
header with the sentinel block index `0xffffffff` (per-row function
below). -/
def linkMBFn (hdrId : Nat) (mb : MBObj) (t : StoredTx) : StoredTx :=
  if mb.txhashes.contains t.hash then
    { t with blockheaderId := some hdrId, blockindex := 0xffffffff }
  else t

/-- The table updates of the persist-and-link phase. -/
def persistMB (s1 : VaultState) (mb : MBObj) : VaultState :=
  let hdrId := s1.nextId
  let s2 := { s1 with
    headers := s1.headers ++
      [({ id := hdrId, hash := mb.hash, prevhash := mb.prevhash
          height := mb.height, timestamp := mb.timestamp } : StoredHeader)]
    merkleblocks := s1.merkleblocks ++
      [({ id := s1.nextId + 1, headerId := hdrId
          txhashes := mb.txhashes } : StoredMerkleBlock)]
    nextId := s1.nextId + 2 }
  { s2 with txs := s2.txs.map (linkMBFn hdrId mb) }

/-- `Vault::insertMerkleBlock_unwrapped` (Vault.cpp:1457). `W` is the
`TIME_HORIZON_WINDOW` constant (declared outside `src/`); the orphan
test adds it to the block timestamp in wrapping 32-bit arithmetic. -/
def insertMerkleBlock_unwrapped (W : Nat) (s : VaultState) (mb : MBObj) :
    Bool × VaultState :=
  -- refuse an orphan newer than the sync horizon
  if !(s.headers.any (fun h => h.hash == mb.prevhash)) &&
     decide ((mb.timestamp + W) % 2 ^ 32 > getHorizonTimestamp_unwrapped s) then
    (false, s)
  -- already have this block
  else if s.headers.any (fun h => h.hash == mb.hash) then
    (false, s)
  else
    -- reorg: disconnect all headers at or above the new height
    let s1 :=
      if s.headers.any (fun h => decide (h.height ≥ mb.height)) then
        reorgDisconnect s mb.height
      else s
    (true, updateConfirmations_unwrapped (persistMB s1 mb) none)

/-- Public `Vault::insertMerkleBlock` (Vault.cpp:1447): acquires the
mutex, opens a session and a persistence transaction, and returns the
unwrapped result directly — the source never calls `t.commit()`, so the
ODB transaction rolls back on destruction and the durable state is
unchanged. -/
def insertMerkleBlock (W : Nat) (s : VaultState) (mb : MBObj) :
    Bool × VaultState :=
  ((insertMerkleBlock_unwrapped W s mb).fst, s)

/-! ## Invariant predicates -/

/-- The hash of the transaction containing a stored output. -/
def txHashOfOut (s : VaultState) (o : StoredTxOut) : Option Nat :=
  (s.txs.find? (fun t => t.id == o.txId)).map (fun t => t.hash)

/-- The spent-state invariant exactly as the spec's §8 invariant 1
states it: a stored TxOut is SPENT iff some persisted TxIn with
matching `(outhash, outindex)` exists whose containing transaction's
status is not CONFLICTING. -/
def SpentIffLiveSpender (s : VaultState) : Prop :=
  ∀ o ∈ s.txouts, o.status = TxOutStatus.SPENT ↔
    ∃ i ∈ s.txins, some i.outhash = txHashOfOut s o ∧ i.outindex = o.txindex ∧
      ∃ t ∈ s.txs, t.id = i.txId ∧ t.status ≠ TxStatus.CONFLICTING

instance (s : VaultState) : Decidable (SpentIffLiveSpender s) := by
  unfold SpentIffLiveSpender; infer_instance

/-- The spent-state invariant the code actually maintains: a stored
TxOut is SPENT iff its `spent` back-link is non-null, and the back-link
points at a persisted TxIn with matching `(outhash, outindex)` — the
spending transaction's status is unconstrained. -/
def InvSpent (s : VaultState) : Prop :=
  ∀ o ∈ s.txouts,
    (o.status = TxOutStatus.SPENT ↔ o.spent ≠ none) ∧
    (∀ iid, o.spent = some iid →
      ∃ i ∈ s.txins, i.id = iid ∧ i.outindex = o.txindex ∧
        ∃ t ∈ s.txs, t.id = o.txId ∧ i.outhash = t.hash)

instance (s : VaultState) : Decidable (InvSpent s) := by
  unfold InvSpent; infer_instance

/-- Relational well-formedness maintained by the persistence layer:
fresh-id discipline (all ids and foreign keys are below `nextId`) and
ordered-container discipline (a transaction's outputs appear in the
table in `txindex` order, densely). -/
def WfState (s : VaultState) : Prop :=
  (∀ i ∈ s.txins, i.id < s.nextId ∧ i.txId < s.nextId) ∧
  (∀ o ∈ s.txouts, o.id < s.nextId ∧ o.txId < s.nextId) ∧
  (∀ t ∈ s.txs, t.id < s.nextId) ∧
  (∀ t ∈ s.txs, ∀ k o,
    (s.txouts.filter (fun o2 => o2.txId == t.id)).get? k = some o →
    o.txindex = k)

/-! ## Concrete fixtures -/

/-- A merkle block for an empty vault (no predecessor stored). -/
def c1Block : MBObj :=
  { hash := 101, prevhash := 100, height := 1, timestamp := 5000
    txhashes := [] }

/-- A fully signed 1-of-1 input script. -/
def dsSig : InScript :=
  { form := .BROADCAST, minsigs := 1, pubkeys := [7], sigs := [(7, 70)] }

/-- Base state of the double-spend scenario: one account signing script
(id 1, already USED), one stored parent transaction (id 2, hash 1000)
with a single UNSPENT vault-owned output (id 3, value 100). -/
def dsBase : VaultState :=
  { emptyVault with
    txs := [{ id := 2, hash := 1000, unsignedHash := 1001
              status := .PROPAGATED, blockheaderId := none, blockindex := 0
              fee := 0, timestamp := 0 }]
    txouts := [{ id := 3, txId := 2, txindex := 0, value := 100, script := 500
                 signingscriptId := some 1, sendingAccountId := none
                 spent := none, status := .UNSPENT }]
    scripts := [{ id := 1, accountId := 50, binId := 60, index := 0
                  label := "", txoutscript := 500, txinscriptTemplate := dsSig
                  status := .USED }]
    nextId := 4 }

/-- First spender of the outpoint `(1000, 0)`. -/
def dsT1 : TxObj :=
  { hash := 2000, unsignedHash := 2001, status := .UNSENT
    txins := [{ outhash := 1000, outindex := 0, script := dsSig, seq := 0 }]
    txouts := [{ value := 90, script := 600 }], fee := 0, timestamp := 0 }

/-- Second spender of the same outpoint `(1000, 0)`. -/
def dsT2 : TxObj :=
  { hash := 3000, unsignedHash := 3001, status := .UNSENT
    txins := [{ outhash := 1000, outindex := 0, script := dsSig, seq := 0 }]
    txouts := [{ value := 80, script := 700 }], fee := 0, timestamp := 0 }

/-- The state after inserting `dsT1` into `dsBase`. -/
def dsStep1 : VaultState :=
  (((insertTx_unwrapped dsBase dsT1).toOption).map Prod.snd).getD emptyVault

/-- The state after then inserting `dsT2`. -/
def dsStep2 : VaultState :=
  (((insertTx_unwrapped dsStep1 dsT2).toOption).map Prod.snd).getD emptyVault

/-- State for the reorg scenario: headers at heights 3 and 7, a stored
merkle block for the height-3 header listing transaction hash 77, and a
stored transaction (hash 77) currently linked to the height-7 header. -/
def c6State : VaultState :=
  { emptyVault with
    txs := [{ id := 10, hash := 77, unsignedHash := 78, status := .PROPAGATED
              blockheaderId := some 2, blockindex := 0, fee := 0
              timestamp := 0 }]
    headers := [{ id := 1, hash := 3001, prevhash := 3000, height := 3
                  timestamp := 100 },
                { id := 2, hash := 7001, prevhash := 7000, height := 7
                  timestamp := 200 }]
    merkleblocks := [{ id := 3, headerId := 1, txhashes := [77] },
                     { id := 4, headerId := 2, txhashes := [77] }]
    nextId := 5 }

/-- A merkle block at height 6 building on the height-3 header and not
listing transaction hash 77; inserting it triggers a reorg. -/
def c6MB : MBObj :=
  { hash := 6001, prevhash := 3001, height := 6, timestamp := 300
    txhashes := [] }

/-- State for the create-change scenario: an account with no keychains
(so the pool refill is a no-op), its change bin, an external-bin script
and one UNSPENT output worth 100 received by it. -/
def c5State : VaultState :=
  { emptyVault with
    accounts := [{ id := 1, name := "acct", minsigs := 1
                   keychainNames := [], unusedPoolSize := 0 }]
    bins := [{ id := 2, accountId := 1, accountName := "acct"
               name := CHANGE_BIN_NAME, nextScriptIndex := 0 },
             { id := 4, accountId := 1, accountName := "acct"
               name := "default", nextScriptIndex := 1 }]
    scripts := [{ id := 3, accountId := 1, binId := 4, index := 0
                  label := "", txoutscript := 555, txinscriptTemplate := dsSig
                  status := .ISSUED }]
    txs := [{ id := 5, hash := 888, unsignedHash := 889, status := .PROPAGATED
              blockheaderId := none, blockindex := 0, fee := 0
              timestamp := 0 }]
    txouts := [{ id := 6, txId := 5, txindex := 0, value := 100, script := 555
                 signingscriptId := some 3, sendingAccountId := none
                 spent := none, status := .UNSPENT }]
    nextId := 10 }

/-- State with a single keychain whose chain-code lock key is 42 and
whose private-key lock key is 43. -/
def kcState : VaultState :=
  { emptyVault with
    keychains := [{ name := "kc", hash := 1, chainCodeLockKey := 42
                    privateKeyLockKey := 43 }] }

/-- An unsigned 1-of-1 input script awaiting its signature. -/
def c2Script0 : InScript :=
  { form := SForm.EDIT, minsigs := 1, pubkeys := [7], sigs := [] }

/-- The same input script carrying its signature. -/
def c2Script1 : InScript :=
  { form := SForm.BROADCAST, minsigs := 1, pubkeys := [7]
    sigs := [(7, 99)] }

/-- A stored unsigned transaction awaiting signatures. -/
def c2Stored : StoredTx :=
  { id := 2, hash := 1500, unsignedHash := 1400
    status := TxStatus.UNSIGNED, blockheaderId := none, blockindex := 0
    fee := 0, timestamp := 0 }

/-- The stored transaction's single input row. -/
def c2StoredIn : StoredTxIn :=
  { id := 3, txId := 2, txindex := 0, outhash := 900, outindex := 0
    script := c2Script0, seq := 0 }

/-- A vault holding one unsigned transaction with one input. -/
def c2State : VaultState :=
  { emptyVault with txs := [c2Stored], txins := [c2StoredIn], nextId := 4 }

/-- A fully signed duplicate of the stored transaction (same unsigned
hash, signature present on the input). -/
def c2Incoming : TxObj :=
  { hash := 1500, unsignedHash := 1400, status := TxStatus.UNSIGNED
    txins := [{ outhash := 900, outindex := 0, script := c2Script1
                seq := 0 }]
    txouts := [], fee := 0, timestamp := 0 }

/-- First spender of the unknown outpoint `(999, 0)` (no transaction
with hash 999 is stored); its output pays a vault script so it is
persisted. -/
def c4F1 : TxObj :=
  { hash := 4000, unsignedHash := 4001, status := .PROPAGATED
    txins := [{ outhash := 999, outindex := 0, script := dsSig, seq := 0 }]
    txouts := [{ value := 10, script := 500 }], fee := 0, timestamp := 0 }

/-- Second spender of the same unknown outpoint `(999, 0)`. -/
def c4F2 : TxObj :=
  { hash := 4100, unsignedHash := 4101, status := .PROPAGATED
    txins := [{ outhash := 999, outindex := 0, script := dsSig, seq := 0 }]
    txouts := [{ value := 20, script := 500 }], fee := 0, timestamp := 0 }

/-- The double-spend scenario state with the first spender's stored
status set to `st1` (Vault.cpp promotes conflicting transactions only
when they are not CONFIRMED). -/
def c4AmState (st1 : TxStatus) : VaultState :=
  { dsStep1 with txs := dsStep1.txs.map (fun t =>
      if t.hash == dsT1.hash then { t with status := st1 } else t) }

/-! ## Supporting lemmas -/

/-- On the empty vault a merkle block is always accepted: the horizon is
the `0xffffffff` sentinel, which no wrapped 32-bit sum can exceed. -/
theorem insertMB_empty (W : Nat) (mb : MBObj) :
    insertMerkleBlock_unwrapped W emptyVault mb =
      (true, { emptyVault with
        headers := [{ id := 1, hash := mb.hash, prevhash := mb.prevhash
                      height := mb.height, timestamp := mb.timestamp }]
        merkleblocks := [{ id := 2, headerId := 1, txhashes := mb.txhashes }]
        nextId := 3 }) := by
  have hng : ¬ ((mb.timestamp + W) % 2 ^ 32 >
      getHorizonTimestamp_unwrapped emptyVault) := by
    have h1 : getHorizonTimestamp_unwrapped emptyVault = 4294967295 := rfl
    have h2 : (mb.timestamp + W) % 2 ^ 32 < 2 ^ 32 :=
      Nat.mod_lt _ (by norm_num)
    omega
  have hng2 : ¬ (getHorizonTimestamp_unwrapped emptyVault <
      (mb.timestamp + W) % 4294967296) := by simpa using hng
  unfold insertMerkleBlock_unwrapped
  simp [emptyVault, hng2, updateConfirmations_unwrapped, reorgDisconnect,
    persistMB]
  exact Nat.le_of_not_lt hng2

/-- Looking a freshly stored key up in a runtime unlock map. -/
theorem mapLookup_store (m : List (String × Nat)) (name : String) (key : Nat) :
    mapLookup (mapStore m name key) name = some key := by
  unfold mapLookup mapStore
  induction m with
  | nil => simp
  | cons p rest ih =>
    by_cases hp : p.1 = name
    · simp only [List.filter_cons, hp]
      simp only [bne_self_eq_false, Bool.false_eq_true, if_false]
      exact ih
    · have hbne : (p.1 != name) = true := by simp [hp]
      simp only [List.filter_cons, hbne, if_true, List.cons_append,
        List.find?]
      have hbeq : (p.1 == name) = false := by simp [hp]
      simp_rw [hbeq]
      exact ih

/-- A list is pointwise related to its image under a map. -/
theorem forall2_map_self {α β : Type} (l : List α) (g : α → β)
    (R : α → β → Prop) (h : ∀ x ∈ l, R x (g x)) :
    List.Forall₂ R l (l.map g) := by
  induction l with
  | nil => exact List.Forall₂.nil
  | cons a t ih =>
    exact List.Forall₂.cons (h a (by simp))
      (ih (fun x hx => h x (by simp [hx])))

/-- `reorgNullFn` only touches the blockheader link. -/
theorem reorgNullFn_fields (e : List Nat) (t : StoredTx) :
    (reorgNullFn e t).id = t.id ∧ (reorgNullFn e t).hash = t.hash ∧
    (reorgNullFn e t).status = t.status := by
  unfold reorgNullFn
  rcases t.blockheaderId with _ | hid
  · exact ⟨rfl, rfl, rfl⟩
  · by_cases hc : hid ∈ e <;> simp [hc]

/-- `linkMBFn` only touches the blockheader link and block index. -/
theorem linkMBFn_fields (hdrId : Nat) (mb : MBObj) (t : StoredTx) :
    (linkMBFn hdrId mb t).id = t.id ∧ (linkMBFn hdrId mb t).hash = t.hash ∧
    (linkMBFn hdrId mb t).status = t.status := by
  unfold linkMBFn
  by_cases hc : t.hash ∈ mb.txhashes <;> simp [hc]

/-- `confirmFn` only touches the blockheader link. -/
theorem confirmFn_fields (mbs : List StoredMerkleBlock) (only : Option Nat)
    (t : StoredTx) :
    (confirmFn mbs only t).id = t.id ∧ (confirmFn mbs only t).hash = t.hash ∧
    (confirmFn mbs only t).status = t.status := by
  unfold confirmFn
  split
  · split
    · exact ⟨rfl, rfl, rfl⟩
    · exact ⟨rfl, rfl, rfl⟩
  · exact ⟨rfl, rfl, rfl⟩

/-- On the reorg path (predecessor known, not a duplicate, a stored
header at or above the new height) `insertMerkleBlock_unwrapped`
succeeds and its effect is disconnect, persist-and-link,
confirmations. -/
theorem insertMB_reorg_eq (W : Nat) (s : VaultState) (mb : MBObj)
    (h1 : s.headers.any (fun h => h.hash == mb.prevhash) = true)
    (h2 : s.headers.any (fun h => h.hash == mb.hash) = false)
    (h3 : s.headers.any (fun h => decide (h.height ≥ mb.height)) = true) :
    insertMerkleBlock_unwrapped W s mb =
      (true, updateConfirmations_unwrapped
        (persistMB (reorgDisconnect s mb.height) mb) none) := by
  unfold insertMerkleBlock_unwrapped
  rw [h1, h2, h3]
  simp

/-- `updateStatus0` only touches the status. -/
theorem updateStatus0_fields (tx : TxObj) :
    (tx.updateStatus0).unsignedHash = tx.unsignedHash ∧
    (tx.updateStatus0).hash = tx.hash ∧
    (tx.updateStatus0).txins = tx.txins ∧
    (tx.updateStatus0).txouts = tx.txouts := by
  unfold TxObj.updateStatus0
  split
  · exact ⟨rfl, rfl, rfl, rfl⟩
  · split
    · exact ⟨rfl, rfl, rfl, rfl⟩
    · exact ⟨rfl, rfl, rfl, rfl⟩

/-- An association-list lookup misses when the key is absent. -/
theorem lookup_eq_none_of_not_mem_keys {β : Type} (ps : List (Nat × β))
    (a : Nat) (h : a ∉ ps.map Prod.fst) : ps.lookup a = none := by
  induction ps with
  | nil => rfl
  | cons p rest ih =>
    simp only [List.map_cons, List.mem_cons, not_or] at h
    cases p with
    | mk k w =>
      have hne : (a == k) = false := beq_eq_false_iff_ne.mpr h.1
      simp only [List.lookup]
      rw [hne]
      exact ih h.2

/-- Skipping a head pair whose key differs. -/
theorem lookup_cons_ne {β : Type} (k : Nat) (w : β) (ps : List (Nat × β))
    (a : Nat) (h : k ≠ a) : ((k, w) :: ps).lookup a = ps.lookup a := by
  have hne : (a == k) = false := beq_eq_false_iff_ne.mpr (Ne.symm h)
  simp only [List.lookup]
  rw [hne]

/-- The keys of a positionally built association list are a prefix of
the source ids. -/
theorem map_fst_zipWith_pair {α β : Type} (pv : StoredTxIn → α → β) :
    ∀ (flt : List StoredTxIn) (vals : List α),
    (List.zipWith (fun st v => (st.id, pv st v)) flt vals).map Prod.fst =
      (flt.map (fun i => i.id)).take vals.length := by
  intro flt
  induction flt with
  | nil => intro vals; simp
  | cons st rest ih =>
    intro vals
    cases vals with
    | nil => simp
    | cons v vs => simp [ih vs]

/-- Any key of the filtered positional association list is an id of the
source rows. -/
theorem zip_filter_keys_sub {α β : Type} (pv : StoredTxIn → α → β)
    (q : Nat × β → Bool) (rest : List StoredTxIn) (vs : List α) :
    ∀ pr ∈ (List.zipWith (fun st v => (st.id, pv st v)) rest vs).filter q,
      pr.1 ∈ rest.map (fun i => i.id) := by
  intro pr hpr
  have h1 : pr ∈ List.zipWith (fun st v => (st.id, pv st v)) rest vs :=
    List.mem_of_mem_filter hpr
  have h2 : pr.1 ∈
      (List.zipWith (fun st v => (st.id, pv st v)) rest vs).map Prod.fst :=
    List.mem_map_of_mem _ h1
  rw [map_fst_zipWith_pair] at h2
  exact List.take_subset _ _ h2

/-- Rewriting rows by a positional association-list lookup equals the
positional rewrite, provided ids are unique and the lists align.  The
post-lookup continuation `F` is abstract; it must leave a row unchanged
on a failed lookup. -/
theorem map_lookup_zip_eq {α β : Type} (pv : StoredTxIn → α → β)
    (q : Nat × β → Bool) (F : StoredTxIn → Option β → StoredTxIn)
    (hF : ∀ i, F i none = i) (flt : List StoredTxIn) :
    ∀ (vals : List α), flt.length = vals.length →
    (flt.map (fun i => i.id)).Nodup →
    flt.map (fun i =>
      F i (((List.zipWith (fun st v => (st.id, pv st v)) flt vals).filter
          q).lookup i.id)) =
    List.zipWith (fun st v =>
      if q (st.id, pv st v) then F st (some (pv st v)) else st) flt
      vals := by
  induction flt with
  | nil =>
    intro vals _ _
    simp
  | cons st rest ih =>
    intro vals hlen hnd
    cases vals with
    | nil => simp at hlen
    | cons v vs =>
      have hlen' : rest.length = vs.length := by simpa using hlen
      have hnd0 : (st.id :: rest.map (fun i => i.id)).Nodup := hnd
      have hnd2 := List.nodup_cons.mp hnd0
      have hni : st.id ∉ rest.map (fun i => i.id) := hnd2.1
      have hnd' : (rest.map (fun i => i.id)).Nodup := hnd2.2
      have hzc : List.zipWith (fun st2 v2 => (st2.id, pv st2 v2))
          (st :: rest) (v :: vs) =
          (st.id, pv st v) ::
          List.zipWith (fun st2 v2 => (st2.id, pv st2 v2)) rest vs := rfl
      -- agreement of the lookup map on the tail
      have htail : ∀ i ∈ rest,
          (((List.zipWith (fun st2 v2 => (st2.id, pv st2 v2))
              (st :: rest) (v :: vs)).filter q).lookup i.id) =
          (((List.zipWith (fun st2 v2 => (st2.id, pv st2 v2))
              rest vs).filter q).lookup i.id) := by
        intro i hi
        rw [hzc]
        have hne : st.id ≠ i.id := by
          intro he
          exact hni (he ▸ List.mem_map_of_mem _ hi)
        by_cases hq : q (st.id, pv st v) = true
        · rw [List.filter_cons_of_pos hq]
          exact lookup_cons_ne _ _ _ _ hne
        · rw [List.filter_cons_of_neg (by simpa using hq)]
      by_cases hq : q (st.id, pv st v) = true
      · -- the head pair survives the filter and is found first
        have hhead : (((List.zipWith (fun st2 v2 => (st2.id, pv st2 v2))
            (st :: rest) (v :: vs)).filter q).lookup st.id) =
            some (pv st v) := by
          rw [hzc, List.filter_cons_of_pos hq]
          simp [List.lookup]
        show F st (((List.zipWith (fun st2 v2 => (st2.id, pv st2 v2))
            (st :: rest) (v :: vs)).filter q).lookup st.id) ::
          rest.map (fun i =>
            F i (((List.zipWith (fun st2 v2 => (st2.id, pv st2 v2))
                (st :: rest) (v :: vs)).filter q).lookup i.id)) =
          (if q (st.id, pv st v) = true then F st (some (pv st v)) else st) ::
          List.zipWith (fun st2 v2 =>
            if q (st2.id, pv st2 v2) = true then F st2 (some (pv st2 v2))
            else st2) rest vs
        rw [hhead, if_pos hq]
        congr 1
        calc rest.map (fun i =>
            F i (((List.zipWith (fun st2 v2 => (st2.id, pv st2 v2))
                (st :: rest) (v :: vs)).filter q).lookup i.id))
            = rest.map (fun i =>
              F i (((List.zipWith (fun st2 v2 => (st2.id, pv st2 v2))
                  rest vs).filter q).lookup i.id)) := by
                refine List.map_congr_left ?_
                intro i hi
                rw [htail i hi]
          _ = List.zipWith (fun st2 v2 =>
              if q (st2.id, pv st2 v2) = true then F st2 (some (pv st2 v2))
              else st2) rest vs := ih vs hlen' hnd'
      · -- the head pair is filtered out and the head row is untouched
        have hhead : (((List.zipWith (fun st2 v2 => (st2.id, pv st2 v2))
            (st :: rest) (v :: vs)).filter q).lookup st.id) = none := by
          rw [hzc, List.filter_cons_of_neg (by simpa using hq)]
          refine lookup_eq_none_of_not_mem_keys _ _ ?_
          intro hmem
          rcases List.mem_map.mp hmem with ⟨pr, hpr, hfst⟩
          have := zip_filter_keys_sub pv q rest vs pr hpr
          rw [hfst] at this
          exact hni this
        show F st (((List.zipWith (fun st2 v2 => (st2.id, pv st2 v2))
            (st :: rest) (v :: vs)).filter q).lookup st.id) ::
          rest.map (fun i =>
            F i (((List.zipWith (fun st2 v2 => (st2.id, pv st2 v2))
                (st :: rest) (v :: vs)).filter q).lookup i.id)) =
          (if q (st.id, pv st v) = true then F st (some (pv st v)) else st) ::
          List.zipWith (fun st2 v2 =>
            if q (st2.id, pv st2 v2) = true then F st2 (some (pv st2 v2))
            else st2) rest vs
        rw [hhead, if_neg (by simpa using hq), hF st]
        congr 1
        calc rest.map (fun i =>
            F i (((List.zipWith (fun st2 v2 => (st2.id, pv st2 v2))
                (st :: rest) (v :: vs)).filter q).lookup i.id))
            = rest.map (fun i =>
              F i (((List.zipWith (fun st2 v2 => (st2.id, pv st2 v2))
                  rest vs).filter q).lookup i.id)) := by
                refine List.map_congr_left ?_
                intro i hi
                rw [htail i hi]
          _ = List.zipWith (fun st2 v2 =>
              if q (st2.id, pv st2 v2) = true then F st2 (some (pv st2 v2))
              else st2) rest vs := ih vs hlen' hnd'

/-- Filtering after a predicate-preserving map. -/
theorem filter_map_pres (g : StoredTxIn → StoredTxIn)
    (p : StoredTxIn → Bool) (hg : ∀ i, p (g i) = p i)
    (l : List StoredTxIn) : (l.map g).filter p = (l.filter p).map g := by
  induction l with
  | nil => rfl
  | cons a t ih =>
    by_cases ha : p a = true
    · rw [List.map_cons, List.filter_cons_of_pos (by rw [hg]; exact ha),
        List.filter_cons_of_pos ha, List.map_cons, ih]
    · rw [List.map_cons, List.filter_cons_of_neg (by rw [hg]; simpa using ha),
        List.filter_cons_of_neg (by simpa using ha), ih]

/-- Specialization of `map_lookup_zip_eq` with no filtering. -/
theorem map_lookup_zip_all {α β : Type} (pv : StoredTxIn → α → β)
    (F : StoredTxIn → Option β → StoredTxIn) (hF : ∀ i, F i none = i)
    (flt : List StoredTxIn)
    (vals : List α) (hlen : flt.length = vals.length)
    (hnd : (flt.map (fun i => i.id)).Nodup) :
    flt.map (fun i =>
      F i ((List.zipWith (fun st v => (st.id, pv st v)) flt vals).lookup
          i.id)) =
    List.zipWith (fun st v => F st (some (pv st v))) flt vals := by
  have h := map_lookup_zip_eq pv (fun _ => true) F hF flt vals hlen hnd
  simpa using h

/-- Rows of other transactions are untouched by the positional
rewrite. -/
theorem untouched_lookup_none {α β : Type} (pv : StoredTxIn → α → β)
    (q : Nat × β → Bool) (T : Nat) (l : List StoredTxIn) (vals : List α)
    (hnd : (l.map (fun i => i.id)).Nodup) (i : StoredTxIn) (hi : i ∈ l)
    (hne : i.txId ≠ T) :
    ((List.zipWith (fun st v => (st.id, pv st v))
        (l.filter (fun j => j.txId == T)) vals).filter q).lookup i.id =
      none := by
  refine lookup_eq_none_of_not_mem_keys _ _ ?_
  intro hmem
  rcases List.mem_map.mp hmem with ⟨pr, hpr, hfst⟩
  have hkey := zip_filter_keys_sub pv q _ vals pr hpr
  rw [hfst] at hkey
  rcases List.mem_map.mp hkey with ⟨j, hj, hjid⟩
  have hjl : j ∈ l := List.mem_of_mem_filter hj
  have hjT : (j.txId == T) = true := by
    have := List.mem_filter.mp hj
    exact this.2
  have hij : i = j := List.inj_on_of_nodup_map hnd hi hjl hjid.symm
  rw [hij] at hne
  exact hne (by simpa using hjT)

/-- The ids of the rows of one transaction are unique when all row ids
are. -/
theorem nodup_filter_ids (l : List StoredTxIn) (T : Nat)
    (hnd : (l.map (fun i => i.id)).Nodup) :
    ((l.filter (fun j => j.txId == T)).map (fun i => i.id)).Nodup :=
  List.Nodup.sublist (List.Sublist.map _ (List.filter_sublist l)) hnd

/-- The positional script rewrite never changes a row's owning
transaction id (replace branch shape). -/
theorem match_lookup_txId (L : List (Nat × InScript)) (i : StoredTxIn) :
    (match L.lookup i.id with
      | some sc => ({ i with script := sc } : StoredTxIn)
      | none => i).txId = i.txId := by
  cases L.lookup i.id with
  | none => rfl
  | some sc => rfl

/-- The positional script rewrite never changes a row's owning
transaction id (merge branch shape). -/
theorem match_lookup_txId2 (L : List (Nat × Nat × InScript))
    (i : StoredTxIn) :
    (match L.lookup i.id with
      | some p => ({ i with script := p.2 } : StoredTxIn)
      | none => i).txId = i.txId := by
  cases L.lookup i.id with
  | none => rfl
  | some p => rfl

/-! ## Spent-invariant machinery -/

/-- `setSpent some` writes SPENT together with the back-link and keeps
the identifying fields. -/
theorem setSpent_some (o : StoredTxOut) (iid : Nat) :
    (o.setSpent (some iid)).status = TxOutStatus.SPENT ∧
    (o.setSpent (some iid)).spent = some iid ∧
    (o.setSpent (some iid)).id = o.id ∧
    (o.setSpent (some iid)).txId = o.txId ∧
    (o.setSpent (some iid)).txindex = o.txindex :=
  ⟨rfl, rfl, rfl, rfl, rfl⟩

/-- `setSpent none` clears the status together with the back-link and
keeps the identifying fields. -/
theorem setSpent_none (o : StoredTxOut) :
    (o.setSpent none).status = TxOutStatus.UNSPENT ∧
    (o.setSpent none).spent = none ∧
    (o.setSpent none).id = o.id ∧
    (o.setSpent none).txId = o.txId ∧
    (o.setSpent none).txindex = o.txindex :=
  ⟨rfl, rfl, rfl, rfl, rfl⟩

/-- `InvSpent` transports along table changes that keep every output
row, keep an input row with the same id and outpoint for every input
row, and keep a transaction row with the same id and hash for every
transaction row. -/
theorem InvSpent_transport (s s2 : VaultState)
    (houts : s2.txouts = s.txouts)
    (hins : ∀ i ∈ s.txins, ∃ i2 ∈ s2.txins,
      i2.id = i.id ∧ i2.outindex = i.outindex ∧ i2.outhash = i.outhash)
    (htxs : ∀ t ∈ s.txs, ∃ t2 ∈ s2.txs, t2.id = t.id ∧ t2.hash = t.hash)
    (h : InvSpent s) : InvSpent s2 := by
  intro o ho
  rw [houts] at ho
  obtain ⟨h1, h2⟩ := h o ho
  refine ⟨h1, ?_⟩
  intro iid hsp
  obtain ⟨i, hi, hiid, hidx, t, ht, htid, hhash⟩ := h2 iid hsp
  obtain ⟨i2, hi2, hid2, hidx2, hohash2⟩ := hins i hi
  obtain ⟨t2, ht2, htid2, hth2⟩ := htxs t ht
  exact ⟨i2, hi2, hid2.trans hiid, hidx2.trans hidx, t2, ht2,
    htid2.trans htid, by rw [hohash2, hth2]; exact hhash⟩

/-- `InvSpent` transports along equal spent-relevant tables. -/
theorem InvSpent_eq_tables (s s2 : VaultState)
    (houts : s2.txouts = s.txouts) (hins : s2.txins = s.txins)
    (htxs : s2.txs = s.txs) (h : InvSpent s) : InvSpent s2 :=
  InvSpent_transport s s2 houts
    (fun i hi => ⟨i, by rw [hins]; exact hi, rfl, rfl, rfl⟩)
    (fun t ht => ⟨t, by rw [htxs]; exact ht, rfl, rfl⟩) h

/-- The chain-code try-unlock pass only touches the runtime map. -/
theorem tryUnlockAcct_tables (s : VaultState) (a : StoredAccount) :
    ((tryUnlockAccountChainCodes_unwrapped s a).2).txouts = s.txouts ∧
    ((tryUnlockAccountChainCodes_unwrapped s a).2).txins = s.txins ∧
    ((tryUnlockAccountChainCodes_unwrapped s a).2).txs = s.txs :=
  ⟨rfl, rfl, rfl⟩

/-- Pool generation only touches keys, scripts and the id counter. -/
theorem refillLoop_tables (a : StoredAccount) :
    ∀ (n : Nat) (s : VaultState) (b : StoredBin),
      ((refillLoop a n s b).1).txouts = s.txouts ∧
      ((refillLoop a n s b).1).txins = s.txins ∧
      ((refillLoop a n s b).1).txs = s.txs := by
  intro n
  induction n with
  | zero => exact fun s b => ⟨rfl, rfl, rfl⟩
  | succ m ih =>
    intro s b
    exact ih (newSigningScript s a b).1 (newSigningScript s a b).2

/-- The pool refill only touches bins, keys, scripts, the id counter and
the runtime unlock map. -/
theorem refill_tables (s : VaultState) (binId : Nat) :
    ((refillAccountBinPool_unwrapped s binId).2).txouts = s.txouts ∧
    ((refillAccountBinPool_unwrapped s binId).2).txins = s.txins ∧
    ((refillAccountBinPool_unwrapped s binId).2).txs = s.txs := by
  unfold refillAccountBinPool_unwrapped
  cases hb : s.bins.find? (fun b => b.id == binId) with
  | none => exact ⟨rfl, rfl, rfl⟩
  | some bin =>
    simp only [hb]
    cases ha : s.accounts.find? (fun a => a.id == bin.accountId) with
    | none => exact ⟨rfl, rfl, rfl⟩
    | some acct =>
      simp only [ha]
      by_cases hr : ((tryUnlockAccountChainCodes_unwrapped s
          acct).1).isEmpty = true
      · rw [if_pos hr]
        exact ⟨(refillLoop_tables acct _ _ _).1,
          (refillLoop_tables acct _ _ _).2.1,
          (refillLoop_tables acct _ _ _).2.2⟩
      · rw [if_neg hr]
        exact ⟨rfl, rfl, rfl⟩

/-- Script issuance only touches the scripts table (via the refill). -/
theorem issue_tables (s : VaultState) (bin : StoredBin) (lbl : String)
    (s1 : VaultState) (sc : StoredScript)
    (hok : issueAccountBinSigningScript_unwrapped s bin lbl =
      .ok (s1, sc)) :
    s1.txouts = s.txouts ∧ s1.txins = s.txins ∧ s1.txs = s.txs := by
  unfold issueAccountBinSigningScript_unwrapped at hok
  by_cases hc : bin.isChange = true
  · rw [if_pos hc] at hok
    exact absurd hok (by simp)
  · rw [if_neg hc] at hok
    cases hf : ((refillAccountBinPool_unwrapped s bin.id).2).scripts.filter
        (fun sc2 => sc2.binId == bin.id &&
          sc2.status == ScriptStatus.UNUSED) with
    | nil =>
      simp only [hf] at hok
      exact absurd hok (by simp)
    | cons x xs =>
      simp only [hf, Except.ok.injEq, Prod.mk.injEq] at hok
      obtain ⟨e1, _⟩ := hok
      rw [← e1]
      exact ⟨(refill_tables s bin.id).1, (refill_tables s bin.id).2.1,
        (refill_tables s bin.id).2.2⟩

/-- The positional script rewrite keeps every identifying field of an
input row (replace branch shape). -/
theorem match_lookup_fieldsA (L : List (Nat × InScript)) (i : StoredTxIn) :
    (match L.lookup i.id with
      | some sc => ({ i with script := sc } : StoredTxIn)
      | none => i).id = i.id ∧
    (match L.lookup i.id with
      | some sc => ({ i with script := sc } : StoredTxIn)
      | none => i).outindex = i.outindex ∧
    (match L.lookup i.id with
      | some sc => ({ i with script := sc } : StoredTxIn)
      | none => i).outhash = i.outhash := by
  cases L.lookup i.id with
  | none => exact ⟨rfl, rfl, rfl⟩
  | some sc => exact ⟨rfl, rfl, rfl⟩

/-- The positional script rewrite keeps every identifying field of an
input row (merge branch shape). -/
theorem match_lookup_fieldsB (L : List (Nat × Nat × InScript))
    (i : StoredTxIn) :
    (match L.lookup i.id with
      | some p => ({ i with script := p.2 } : StoredTxIn)
      | none => i).id = i.id ∧
    (match L.lookup i.id with
      | some p => ({ i with script := p.2 } : StoredTxIn)
      | none => i).outindex = i.outindex ∧
    (match L.lookup i.id with
      | some p => ({ i with script := p.2 } : StoredTxIn)
      | none => i).outhash = i.outhash := by
  cases L.lookup i.id with
  | none => exact ⟨rfl, rfl, rfl⟩
  | some p => exact ⟨rfl, rfl, rfl⟩

/-- `insertMerkleBlock_unwrapped` preserves the spent-state invariant:
it never touches outputs or inputs, and its transaction-row rewrites
(reorg disconnect, link, confirmation) keep ids and hashes. -/
theorem InvSpent_insertMB (W : Nat) (s : VaultState) (mb : MBObj)
    (h : InvSpent s) : InvSpent (insertMerkleBlock_unwrapped W s mb).snd := by
  unfold insertMerkleBlock_unwrapped
  by_cases h1 : (!(s.headers.any (fun h2 => h2.hash == mb.prevhash)) &&
      decide ((mb.timestamp + W) % 2 ^ 32 >
        getHorizonTimestamp_unwrapped s)) = true
  · rw [if_pos h1]
    exact h
  · rw [if_neg h1]
    by_cases h2 : (s.headers.any (fun h2 => h2.hash == mb.hash)) = true
    · rw [if_pos h2]
      exact h
    · rw [if_neg h2]
      by_cases h3 : (s.headers.any (fun h2 =>
          decide (h2.height ≥ mb.height))) = true
      · simp only [h3, if_true]
        refine InvSpent_transport s _ rfl
          (fun i hi => ⟨i, hi, rfl, rfl, rfl⟩) ?_ h
        intro t ht
        exact ⟨_, List.mem_map_of_mem _ (List.mem_map_of_mem _
            (List.mem_map_of_mem _ ht)),
          ((confirmFn_fields _ _ _).1).trans
            (((linkMBFn_fields _ _ _).1).trans ((reorgNullFn_fields _ _).1)),
          ((confirmFn_fields _ _ _).2.1).trans
            (((linkMBFn_fields _ _ _).2.1).trans
              ((reorgNullFn_fields _ _).2.1))⟩
      · simp only [h3, if_false]
        refine InvSpent_transport s _ rfl
          (fun i hi => ⟨i, hi, rfl, rfl, rfl⟩) ?_ h
        intro t ht
        exact ⟨_, List.mem_map_of_mem _ (List.mem_map_of_mem _ ht),
          ((confirmFn_fields _ _ _).1).trans ((linkMBFn_fields _ _ _).1),
          ((confirmFn_fields _ _ _).2.1).trans
            ((linkMBFn_fields _ _ _).2.1)⟩

/-- `createTx_unwrapped` preserves the spent-state invariant: a
successful call leaves the spent-relevant tables unchanged (the only
state it may change is the scripts table via change-script issuance). -/
theorem InvSpent_createTx (shuffleU : List UtxoView → List UtxoView)
    (shuffleO : List TxOutObj → List TxOutObj) (s : VaultState)
    (an : String) (touts : List TxOutObj) (fee ts : Nat) (tx : TxObj)
    (s2 : VaultState)
    (hok : createTx_unwrapped shuffleU shuffleO s an touts fee ts =
      .ok (tx, s2)) (h : InvSpent s) : InvSpent s2 := by
  unfold createTx_unwrapped at hok
  dsimp only at hok
  repeat any_goals split at hok
  any_goals exact Except.noConfusion hok
  any_goals (simp only [Except.ok.injEq, Prod.mk.injEq] at hok
             obtain ⟨_, e2⟩ := hok
             rw [← e2]
             exact h)
  rename_i s1 cs hiss
  simp only [Except.ok.injEq, Prod.mk.injEq] at hok
  obtain ⟨_, e2⟩ := hok
  obtain ⟨g1, g2, g3⟩ := issue_tables s _ "" s1 cs hiss
  exact InvSpent_eq_tables s s2 (by rw [← e2]; exact g1)
    (by rw [← e2]; exact g2) (by rw [← e2]; exact g3) h

/-- Unspending the outpoints of one erased input preserves the
spent-state invariant. -/
theorem InvSpent_eraseIn (s : VaultState) (iid : Nat) (h : InvSpent s) :
    InvSpent { s with
      txouts := s.txouts.map (fun o =>
        if o.spent == some iid then o.setSpent none else o),
      txins := s.txins.filter (fun i => !(i.id == iid)) } := by
  intro o2 ho2
  rcases List.mem_map.mp ho2 with ⟨o, ho, heq⟩
  by_cases hc : (o.spent == some iid) = true
  · simp only [hc, if_true] at heq
    rw [← heq]
    constructor
    · simp [StoredTxOut.setSpent]
    · intro j hj
      simp [StoredTxOut.setSpent] at hj
  · simp only [hc, if_false] at heq
    rw [← heq]
    obtain ⟨h1, h2⟩ := h o ho
    refine ⟨h1, ?_⟩
    intro j hj
    obtain ⟨i, hi, hiid, hidx, t, ht, htid, hhash⟩ := h2 j hj
    have hne : j ≠ iid := by
      intro hcontra
      rw [hcontra] at hj
      exact absurd hj (by simpa using hc)
    refine ⟨i, ?_, hiid, hidx, t, ht, htid, hhash⟩
    refine List.mem_filter.mpr ⟨hi, ?_⟩
    simp [hiid, hne]

/-- The erase-inputs fold of `deleteTx_unwrapped` preserves the
spent-state invariant. -/
theorem InvSpent_foldl_eraseIns :
    ∀ (l : List Nat) (s : VaultState), InvSpent s →
      InvSpent (l.foldl (fun (acc : VaultState) iid =>
        { acc with
          txouts := acc.txouts.map (fun o =>
            if o.spent == some iid then o.setSpent none else o),
          txins := acc.txins.filter (fun i => !(i.id == iid)) }) s) := by
  intro l
  induction l with
  | nil => exact fun s h => h
  | cons a t ih =>
    intro s h
    exact ih _ (InvSpent_eraseIn s a h)

/-- Erasing output rows preserves the spent-state invariant. -/
theorem InvSpent_eraseOut (s : VaultState) (p : StoredTxOut → Bool)
    (h : InvSpent s) : InvSpent { s with txouts := s.txouts.filter p } := by
  intro o ho
  exact h o (List.mem_of_mem_filter ho)

/-- The erase-inputs fold only unspends rows: every remaining output
descends from a base row with the same id and owning transaction. -/
theorem foldl_eraseIns_shrink :
    ∀ (l : List Nat) (s : VaultState),
      ∀ o ∈ (l.foldl (fun (acc : VaultState) iid =>
        { acc with
          txouts := acc.txouts.map (fun o =>
            if o.spent == some iid then o.setSpent none else o),
          txins := acc.txins.filter (fun i => !(i.id == iid)) }) s).txouts,
        ∃ o0 ∈ s.txouts, o.id = o0.id ∧ o.txId = o0.txId := by
  intro l
  induction l with
  | nil => intro s o ho; exact ⟨o, ho, rfl, rfl⟩
  | cons a t ih =>
    intro s o ho
    obtain ⟨o1, ho1, e1, e2⟩ := ih _ o ho
    rcases List.mem_map.mp ho1 with ⟨o0, ho0, hf⟩
    by_cases hc : (o0.spent == some a) = true
    · simp only [hc, if_true] at hf
      refine ⟨o0, ho0, ?_, ?_⟩
      · rw [e1, ← hf]
        rfl
      · rw [e2, ← hf]
        rfl
    · simp [hc] at hf
      refine ⟨o0, ho0, ?_, ?_⟩
      · rw [e1, ← hf]
      · rw [e2, ← hf]

/-- `deleteTxOuts` erases the listed outputs and only shrinks the
table. -/
theorem deleteTxOuts_shrink (fuel : Nat)
    (hA : ∀ (s : VaultState) (T : Nat),
      ∀ o ∈ (deleteTxAux fuel s T).txouts,
        ∃ o0 ∈ s.txouts, o.id = o0.id ∧ o.txId = o0.txId) :
    ∀ (l : List Nat) (s : VaultState),
      ∀ o ∈ (deleteTxOuts fuel s l).txouts,
        o.id ∉ l ∧ ∃ o0 ∈ s.txouts, o.id = o0.id ∧ o.txId = o0.txId := by
  intro l
  induction l with
  | nil =>
    intro s o ho
    simp only [deleteTxOuts] at ho
    exact ⟨by simp, o, ho, rfl, rfl⟩
  | cons oid rest ih =>
    intro s o ho
    simp only [deleteTxOuts] at ho
    obtain ⟨hnot, o1, ho1, e1, e2⟩ := ih _ o ho
    have ho1' := List.mem_filter.mp ho1
    have hne : (!(o1.id == oid)) = true := ho1'.2
    have hS1 : ∃ o0 ∈ s.txouts, o1.id = o0.id ∧ o1.txId = o0.txId := by
      have hmem := ho1'.1
      cases hf : s.txouts.find? (fun o2 => o2.id == oid) with
      | none =>
        simp only [hf] at hmem
        exact ⟨o1, hmem, rfl, rfl⟩
      | some ofound =>
        simp only [hf] at hmem
        cases hsp : ofound.spent with
        | none =>
          simp only [hsp] at hmem
          exact ⟨o1, hmem, rfl, rfl⟩
        | some iid =>
          simp only [hsp] at hmem
          cases hfi : s.txins.find? (fun i => i.id == iid) with
          | none =>
            simp only [hfi] at hmem
            exact ⟨o1, hmem, rfl, rfl⟩
          | some spIn =>
            simp only [hfi] at hmem
            exact hA s spIn.txId o1 hmem
    obtain ⟨o0, ho0, f1, f2⟩ := hS1
    refine ⟨?_, o0, ho0, e1.trans f1, e2.trans f2⟩
    intro hmem2
    rcases List.mem_cons.mp hmem2 with he | hm
    · have hcontra : o1.id = oid := by rw [← e1]; exact he
      simp [hcontra] at hne
    · exact hnot hm

/-- `deleteTxAux` only shrinks the output table. -/
theorem deleteTxAux_shrink :
    ∀ (fuel : Nat) (s : VaultState) (T : Nat),
      ∀ o ∈ (deleteTxAux fuel s T).txouts,
        ∃ o0 ∈ s.txouts, o.id = o0.id ∧ o.txId = o0.txId := by
  intro fuel
  induction fuel with
  | zero =>
    intro s T o ho
    simp only [deleteTxAux] at ho
    exact ⟨o, ho, rfl, rfl⟩
  | succ n ih =>
    intro s T o ho
    simp only [deleteTxAux] at ho
    obtain ⟨_, o1, ho1, e1, e2⟩ := deleteTxOuts_shrink n ih _ _ o ho
    obtain ⟨o0, ho0, f1, f2⟩ := foldl_eraseIns_shrink _ s o1 ho1
    exact ⟨o0, ho0, e1.trans f1, e2.trans f2⟩

/-- The final transaction-row erasure of `deleteTx_unwrapped` preserves
the spent-state invariant: every output owned by the erased transaction
is already gone. -/
theorem InvSpent_delAux_core (n : Nat)
    (hShr : ∀ (l : List Nat) (s : VaultState),
      ∀ o ∈ (deleteTxOuts n s l).txouts,
        o.id ∉ l ∧ ∃ o0 ∈ s.txouts, o.id = o0.id ∧ o.txId = o0.txId)
    (s1 : VaultState) (T : Nat)
    (h2 : InvSpent (deleteTxOuts n s1
      ((s1.txouts.filter (fun o => o.txId == T)).map (fun o => o.id)))) :
    InvSpent { (deleteTxOuts n s1 ((s1.txouts.filter
        (fun o => o.txId == T)).map (fun o => o.id))) with
      txs := (deleteTxOuts n s1 ((s1.txouts.filter
        (fun o => o.txId == T)).map (fun o => o.id))).txs.filter
        (fun t => !(t.id == T)) } := by
  intro o ho
  obtain ⟨p1, p2⟩ := h2 o ho
  refine ⟨p1, ?_⟩
  intro j hj
  obtain ⟨i, hi, hiid, hidx, t, ht, htid, hhash⟩ := p2 j hj
  obtain ⟨hnot, o0, ho0, eid, etx⟩ := hShr _ s1 o ho
  have hoT : o.txId ≠ T := by
    intro hT
    refine hnot ?_
    refine List.mem_map.mpr ⟨o0, ?_, eid.symm⟩
    refine List.mem_filter.mpr ⟨ho0, ?_⟩
    simp [← etx, hT]
  refine ⟨i, hi, hiid, hidx, t, ?_, htid, hhash⟩
  refine List.mem_filter.mpr ⟨ht, ?_⟩
  simp [htid, hoT]

/-- `deleteTxOuts` preserves the spent-state invariant, given that the
recursive deletion does. -/
theorem InvSpent_deleteTxOuts (fuel : Nat)
    (hP : ∀ (s : VaultState) (T : Nat), InvSpent s →
      InvSpent (deleteTxAux fuel s T)) :
    ∀ (l : List Nat) (s : VaultState), InvSpent s →
      InvSpent (deleteTxOuts fuel s l) := by
  intro l
  induction l with
  | nil =>
    intro s h
    simpa only [deleteTxOuts] using h
  | cons oid rest ih =>
    intro s h
    have h1 : InvSpent (match s.txouts.find? (fun o => o.id == oid) with
        | none => s
        | some o =>
          match o.spent with
          | none => s
          | some iid =>
            match s.txins.find? (fun i => i.id == iid) with
            | none => s
            | some spendingIn => deleteTxAux fuel s spendingIn.txId) := by
      cases hf : s.txouts.find? (fun o => o.id == oid) with
      | none => exact h
      | some o =>
        show InvSpent (match o.spent with
          | none => s
          | some iid =>
            match s.txins.find? (fun i => i.id == iid) with
            | none => s
            | some spendingIn => deleteTxAux fuel s spendingIn.txId)
        cases o.spent with
        | none => exact h
        | some iid =>
          show InvSpent (match s.txins.find? (fun i => i.id == iid) with
            | none => s
            | some spendingIn => deleteTxAux fuel s spendingIn.txId)
          cases s.txins.find? (fun i => i.id == iid) with
          | none => exact h
          | some spendingIn => exact hP s spendingIn.txId h
    simp only [deleteTxOuts]
    exact ih _ (InvSpent_eraseOut _ _ h1)

/-- `deleteTxAux` preserves the spent-state invariant. -/
theorem InvSpent_deleteTxAux :
    ∀ (fuel : Nat) (s : VaultState) (T : Nat),
      InvSpent s → InvSpent (deleteTxAux fuel s T) := by
  intro fuel
  induction fuel with
  | zero =>
    intro s T h
    simpa only [deleteTxAux] using h
  | succ n ih =>
    intro s T h
    simp only [deleteTxAux]
    exact InvSpent_delAux_core n
      (deleteTxOuts_shrink n (deleteTxAux_shrink n)) _ T
      (InvSpent_deleteTxOuts n ih _ _ (InvSpent_foldl_eraseIns _ s h))

/-- Public `deleteTx` preserves the spent-state invariant. -/
theorem InvSpent_deleteTx (s : VaultState) (h0 : Nat) (s2 : VaultState)
    (hok : deleteTx s h0 = .ok s2) (h : InvSpent s) : InvSpent s2 := by
  unfold deleteTx at hok
  cases hf : s.txs.find? (fun t => t.hash == h0 || t.unsignedHash == h0) with
  | none =>
    simp only [hf] at hok
    exact Except.noConfusion hok
  | some t =>
    simp only [hf, Except.ok.injEq] at hok
    rw [← hok]
    exact InvSpent_deleteTxAux _ s t.id h

/-- Filtering after a predicate-preserving map (output rows). -/
theorem filter_map_presO (g : StoredTxOut → StoredTxOut)
    (p : StoredTxOut → Bool) (hg : ∀ o, p (g o) = p o)
    (l : List StoredTxOut) : (l.map g).filter p = (l.filter p).map g := by
  induction l with
  | nil => rfl
  | cons a t ih =>
    by_cases ha : p a = true
    · rw [List.map_cons, List.filter_cons_of_pos (by rw [hg]; exact ha),
        List.filter_cons_of_pos ha, List.map_cons, ih]
    · rw [List.map_cons, List.filter_cons_of_neg (by rw [hg]; simpa using ha),
        List.filter_cons_of_neg (by simpa using ha), ih]

/-- The dense-position discipline survives a map that keeps owning
transaction and index. -/
theorem dense_map (F : StoredTxOut → StoredTxOut)
    (hFt : ∀ o, (F o).txId = o.txId)
    (hFi : ∀ o, (F o).txindex = o.txindex)
    (cur : List StoredTxOut) (tid k : Nat) (o : StoredTxOut)
    (hD : ∀ k2 o2, (cur.filter (fun o3 => o3.txId == tid)).get? k2 =
      some o2 → o2.txindex = k2)
    (hget : ((cur.map F).filter (fun o3 => o3.txId == tid)).get? k =
      some o) : o.txindex = k := by
  rw [filter_map_presO F (fun o3 => o3.txId == tid)
    (fun o3 => by simp [hFt]) cur, List.get?_map] at hget
  cases hg2 : (cur.filter (fun o3 => o3.txId == tid)).get? k with
  | none =>
    rw [hg2] at hget
    exact Option.noConfusion hget
  | some o2 =>
    rw [hg2] at hget
    have hFo : F o2 = o := by simpa using hget
    rw [← hFo, hFi]
    exact hD k o2 hg2

/-- Row ids survive a map that keeps them. -/
theorem nodup_map_ids (F : StoredTxOut → StoredTxOut)
    (hF : ∀ o, (F o).id = o.id) (l : List StoredTxOut)
    (h : (l.map (fun o => o.id)).Nodup) :
    ((l.map F).map (fun o => o.id)).Nodup := by
  rw [List.map_map]
  have heq : l.map (fun o => (F o).id) = l.map (fun o => o.id) :=
    List.map_congr_left (fun o _ => hF o)
  show (l.map (fun o => (F o).id)).Nodup
  rw [heq]
  exact h

/-- Every future input-row descriptor has its persisted row. -/
theorem pins_newIns (tx : TxObj) (txId : Nat) :
    ∀ p ∈ tx.txins.enum.map (fun q => (q.2, txId + 1 + q.1)),
      ∃ row ∈ tx.txins.enum.map (fun q =>
        ({ id := txId + 1 + q.1, txId := txId, txindex := q.1
           outhash := q.2.outhash, outindex := q.2.outindex
           script := q.2.script, seq := q.2.seq } : StoredTxIn)),
        row.id = p.2 ∧ row.outhash = p.1.outhash ∧
        row.outindex = p.1.outindex := by
  intro p hp
  rcases List.mem_map.mp hp with ⟨q, hq, hpe⟩
  refine ⟨_, List.mem_map_of_mem _ hq, ?_, ?_, ?_⟩ <;> rw [← hpe]

/-- An element of an indexed list is an element of the list. -/
theorem snd_mem_of_mem_enumFrom {α : Type} (L : List α) :
    ∀ (n : Nat) (q : Nat × α), q ∈ L.enumFrom n → q.2 ∈ L := by
  induction L with
  | nil =>
    intro n q hq
    exact absurd hq (List.not_mem_nil q)
  | cons x xs ih =>
    intro n q hq
    simp only [List.enumFrom] at hq
    rcases List.mem_cons.mp hq with h1 | h2
    · rw [h1]
      exact List.mem_cons_self _ _
    · exact List.mem_cons_of_mem _ (ih (n + 1) q h2)

/-- Indexing distributes over a split of the underlying list. -/
theorem enumFrom_append_split {α : Type} (A B : List α) (x : α) :
    ∀ (n : Nat),
      ((A ++ x :: B).enumFrom n) =
        A.enumFrom n ++ (n + A.length, x) ::
          B.enumFrom (n + A.length + 1) := by
  induction A with
  | nil =>
    intro n
    simp [List.enumFrom]
  | cons a A2 ih =>
    intro n
    rw [List.cons_append]
    simp only [List.enumFrom, List.length_cons, List.cons_append]
    rw [ih (n + 1)]
    have h1 : n + 1 + A2.length = n + (A2.length + 1) := by omega
    rw [h1]

/-- The input scan only ever appends to the conflict list. -/
theorem inScan_confl_mono (newTxId : Nat) :
    ∀ (pins : List (TxInObj × Nat)) (acc iacc : InScanAcc),
      insertTxInScan newTxId pins acc = .ok iacc →
      ∃ suf, iacc.conflicts = acc.conflicts ++ suf := by
  intro pins
  induction pins with
  | nil =>
    intro acc iacc hok
    simp only [insertTxInScan, Except.ok.injEq] at hok
    exact ⟨[], by rw [← hok, List.append_nil]⟩
  | cons pr rest ih =>
    obtain ⟨txin, iid⟩ := pr
    intro acc iacc hok
    simp only [insertTxInScan] at hok
    cases hfind : acc.st.txs.find? (fun t => t.hash == txin.outhash) with
    | none =>
      simp only [hfind] at hok
      obtain ⟨suf, hs⟩ := ih _ iacc hok
      exact ⟨suf, hs⟩
    | some spentTx =>
      simp only [hfind] at hok
      cases hget : (acc.st.txouts.filter
          (fun o => o.txId == spentTx.id)).get? txin.outindex with
      | none =>
        simp only [hget] at hok
        exact Except.noConfusion hok
      | some outpoint =>
        simp only [hget] at hok
        have hcont : ∀ (v : Nat) (c : List Nat) (iacc2 : InScanAcc),
            (match acc.st.scripts.find? (fun sc =>
                sc.txoutscript == outpoint.script) with
             | none => insertTxInScan newTxId rest
                 { st := acc.st, sentFromVault := acc.sentFromVault
                   haveAllOutpoints := acc.haveAllOutpoints
                   inputTotal := v, sendingAccount := acc.sendingAccount
                   conflicts := c, spentUpdates := acc.spentUpdates }
             | some sc => insertTxInScan newTxId rest
                 { st := { acc.st with
                     txouts := acc.st.txouts.map (fun (o : StoredTxOut) =>
                       if o.id == outpoint.id then o.setSpent (some iid)
                       else o) }
                   sentFromVault := true
                   haveAllOutpoints := acc.haveAllOutpoints
                   inputTotal := v
                   sendingAccount :=
                     match acc.sendingAccount with
                     | none => some sc.accountId
                     | some a => some a
                   conflicts := c
                   spentUpdates :=
                     if acc.spentUpdates.contains outpoint.id then
                       acc.spentUpdates
                     else acc.spentUpdates ++ [outpoint.id] }) =
              .ok iacc2 →
            ∃ suf, iacc2.conflicts = c ++ suf := by
          intro v c iacc2 hok2
          cases hscr : acc.st.scripts.find? (fun sc =>
              sc.txoutscript == outpoint.script) with
          | none =>
            simp only [hscr] at hok2
            obtain ⟨suf, hs⟩ := ih _ iacc2 hok2
            exact ⟨suf, hs⟩
          | some sc =>
            simp only [hscr] at hok2
            obtain ⟨suf, hs⟩ := ih _ iacc2 hok2
            exact ⟨suf, hs⟩
        cases hsp : outpoint.spent with
        | none =>
          simp only [hsp] at hok
          exact hcont _ _ iacc hok
        | some ctid =>
          simp only [hsp] at hok
          by_cases hct : acc.conflicts.contains
              (match acc.st.txins.find? (fun i => i.id == ctid) with
               | some ci => ci.txId
               | none => newTxId) = true
          · rw [if_pos hct] at hok
            exact hcont _ _ iacc hok
          · rw [if_neg hct] at hok
            obtain ⟨suf, hs⟩ := hcont _ _ iacc hok
            refine ⟨(match acc.st.txins.find? (fun i => i.id == ctid) with
               | some ci => ci.txId
               | none => newTxId) :: suf, ?_⟩
            rw [hs, List.append_assoc]
            rfl

/-- When no stored transaction carries any of the scanned outpoints'
hashes, the input scan resolves nothing: the store, the conflict list,
the sent-from-vault flag and the sending account come out unchanged
(only `have_all_outpoints` may be cleared). -/
theorem inScan_unknown (newTxId : Nat) :
    ∀ (pins : List (TxInObj × Nat)) (acc : InScanAcc),
      (∀ p ∈ pins, acc.st.txs.find? (fun t =>
        t.hash == p.1.outhash) = none) →
      ∃ iacc, insertTxInScan newTxId pins acc = .ok iacc ∧
        iacc.st = acc.st ∧ iacc.conflicts = acc.conflicts ∧
        iacc.sentFromVault = acc.sentFromVault ∧
        iacc.sendingAccount = acc.sendingAccount := by
  intro pins
  induction pins with
  | nil =>
    intro acc hno
    exact ⟨acc, rfl, rfl, rfl, rfl, rfl⟩
  | cons pr rest ih =>
    obtain ⟨txin, iid⟩ := pr
    intro acc hno
    have hh := hno _ (List.mem_cons_self _ _)
    simp only [insertTxInScan, hh]
    obtain ⟨iacc, hs1, hs2, hs3, hs4, hs5⟩ :=
      ih { acc with haveAllOutpoints := false }
        (fun p hp => hno p (List.mem_cons_of_mem _ hp))
    exact ⟨iacc, hs1, hs2, hs3, hs4, hs5⟩

/-- Conflict detection of the input scan (Vault.cpp:1053-1061): when
some scanned input resolves against a stored parent transaction to an
outpoint row whose `spent` back-link points at a persisted input row,
and no input scanned before it spends the same outpoint, the scan
records that input row's transaction in the conflict list. -/
theorem inScan_detect (s : VaultState) (newTxId : Nat) (txin : TxInObj)
    (tp : StoredTx) (o : StoredTxOut) (iid : Nat) (i1 : StoredTxIn)
    (hndtx : (s.txs.map (fun t => t.id)).Nodup)
    (hfind : s.txs.find? (fun t => t.hash == txin.outhash) = some tp)
    (hfindin : s.txins.find? (fun i => i.id == iid) = some i1)
    (hotx : o.txId = tp.id) (hoidx : o.txindex = txin.outindex)
    (hosp : o.spent = some iid) :
    ∀ (pins : List (TxInObj × Nat)) (acc iacc : InScanAcc),
      insertTxInScan newTxId pins acc = .ok iacc →
      acc.st.txs = s.txs →
      acc.st.txins = s.txins →
      (∃ ocur ∈ acc.st.txouts, ocur.id = o.id ∧ ocur.txId = o.txId ∧
        ocur.txindex = o.txindex ∧ ocur.spent = o.spent) →
      (∀ t ∈ s.txs, ∀ k o2,
        (acc.st.txouts.filter (fun r => r.txId == t.id)).get? k =
          some o2 → o2.txindex = k) →
      (acc.st.txouts.map (fun r => r.id)).Nodup →
      (∃ pre j post, pins = pre ++ (txin, j) :: post ∧
        ∀ p ∈ pre, ¬(p.1.outhash = txin.outhash ∧
          p.1.outindex = txin.outindex)) →
      i1.txId ∈ iacc.conflicts := by
  intro pins
  induction pins with
  | nil =>
    intro acc iacc hok h1 h2 h3 h4 h5 hsplit
    obtain ⟨pre, j, post, heq, -⟩ := hsplit
    exact absurd heq (by simp)
  | cons pr rest ih =>
    intro acc iacc hok h1 h2 h3 h4 h5 hsplit
    obtain ⟨pre, j, post, heq, hex⟩ := hsplit
    cases pre with
    | nil =>
      simp only [List.nil_append] at heq
      injection heq with hpr hrest
      obtain ⟨ocur, hocm, hoid, hotx2, hoix2, hosp2⟩ := h3
      rw [hpr] at hok
      simp only [insertTxInScan] at hok
      have hfind2 : acc.st.txs.find? (fun t =>
          t.hash == txin.outhash) = some tp := by
        rw [h1]
        exact hfind
      simp only [hfind2] at hok
      have hocf : ocur ∈ acc.st.txouts.filter
          (fun r => r.txId == tp.id) := by
        refine List.mem_filter.mpr ⟨hocm, ?_⟩
        simp [hotx2, hotx]
      obtain ⟨n, hgn⟩ := List.mem_iff_get?.mp hocf
      have hni : ocur.txindex = n :=
        h4 tp (List.mem_of_find?_eq_some hfind) n ocur hgn
      have hnk : n = txin.outindex := by
        rw [← hni, hoix2, hoidx]
      rw [hnk] at hgn
      simp only [hgn] at hok
      have hsp2 : ocur.spent = some iid := by
        rw [hosp2, hosp]
      simp only [hsp2] at hok
      have hfi2 : acc.st.txins.find? (fun i => i.id == iid) = some i1 := by
        rw [h2]
        exact hfindin
      simp only [hfi2] at hok
      by_cases hct : acc.conflicts.contains i1.txId = true
      · rw [if_pos hct] at hok
        have hmem : i1.txId ∈ acc.conflicts := by
          simpa using hct
        cases hscr : acc.st.scripts.find? (fun sc =>
            sc.txoutscript == ocur.script) with
        | none =>
          simp only [hscr] at hok
          obtain ⟨suf, hs⟩ := inScan_confl_mono newTxId rest _ iacc hok
          rw [hs]
          exact List.mem_append_left _ hmem
        | some sc =>
          simp only [hscr] at hok
          obtain ⟨suf, hs⟩ := inScan_confl_mono newTxId rest _ iacc hok
          rw [hs]
          exact List.mem_append_left _ hmem
      · rw [if_neg hct] at hok
        cases hscr : acc.st.scripts.find? (fun sc =>
            sc.txoutscript == ocur.script) with
        | none =>
          simp only [hscr] at hok
          obtain ⟨suf, hs⟩ := inScan_confl_mono newTxId rest _ iacc hok
          rw [hs]
          exact List.mem_append_left _
            (List.mem_append_right _ (List.mem_singleton_self _))
        | some sc =>
          simp only [hscr] at hok
          obtain ⟨suf, hs⟩ := inScan_confl_mono newTxId rest _ iacc hok
          rw [hs]
          exact List.mem_append_left _
            (List.mem_append_right _ (List.mem_singleton_self _))
    | cons p0 pre2 =>
      obtain ⟨txin0, j0⟩ := p0
      simp only [List.cons_append] at heq
      injection heq with hpr hrest
      have hexp0 : ¬((txin0, j0).1.outhash = txin.outhash ∧
          (txin0, j0).1.outindex = txin.outindex) :=
        hex _ (List.mem_cons_self _ _)
      have hex2 : ∀ p ∈ pre2, ¬(p.1.outhash = txin.outhash ∧
          p.1.outindex = txin.outindex) :=
        fun p hp => hex p (List.mem_cons_of_mem _ hp)
      rw [hpr] at hok
      simp only [insertTxInScan] at hok
      cases hfind0 : acc.st.txs.find? (fun t =>
          t.hash == txin0.outhash) with
      | none =>
        simp only [hfind0] at hok
        exact ih _ iacc hok h1 h2 h3 h4 h5 ⟨pre2, j, post, hrest, hex2⟩
      | some tp0 =>
        simp only [hfind0] at hok
        cases hget0 : (acc.st.txouts.filter
            (fun r => r.txId == tp0.id)).get? txin0.outindex with
        | none =>
          simp only [hget0] at hok
          exact Except.noConfusion hok
        | some outp0 =>
          simp only [hget0] at hok
          obtain ⟨ocur, hocm, hoid, hotx2, hoix2, hosp2⟩ := h3
          have houtp0_mem : outp0 ∈ acc.st.txouts :=
            List.mem_of_mem_filter (List.get?_mem hget0)
          have hneq : ¬ (ocur.id == outp0.id) = true := by
            intro hcc
            have hoo : ocur = outp0 :=
              List.inj_on_of_nodup_map h5 hocm houtp0_mem
                (by simpa using hcc)
            have htp0_mem : tp0 ∈ s.txs := by
              rw [← h1]
              exact List.mem_of_find?_eq_some hfind0
            have htp0_hash : tp0.hash = txin0.outhash := by
              have hp := List.find?_some hfind0
              simpa using hp
            have houtp0_txId : outp0.txId = tp0.id := by
              have hp := (List.mem_filter.mp (List.get?_mem hget0)).2
              simpa using hp
            have houtp0_idx : outp0.txindex = txin0.outindex :=
              h4 tp0 htp0_mem txin0.outindex outp0 hget0
            have htp_mem : tp ∈ s.txs := List.mem_of_find?_eq_some hfind
            have htp_hash : tp.hash = txin.outhash := by
              have hp := List.find?_some hfind
              simpa using hp
            have hid_tp : tp0.id = tp.id := by
              rw [← houtp0_txId, ← hoo, hotx2, hotx]
            have htpe : tp0 = tp :=
              List.inj_on_of_nodup_map hndtx htp0_mem htp_mem
                (by simpa using hid_tp)
            refine hexp0 ⟨?_, ?_⟩
            · rw [← htp0_hash, htpe, htp_hash]
            · rw [← houtp0_idx, ← hoo, hoix2, hoidx]
          have hcont : ∀ (v : Nat) (c : List Nat) (iacc2 : InScanAcc),
              (match acc.st.scripts.find? (fun sc =>
                  sc.txoutscript == outp0.script) with
               | none => insertTxInScan newTxId rest
                   { st := acc.st, sentFromVault := acc.sentFromVault
                     haveAllOutpoints := acc.haveAllOutpoints
                     inputTotal := v, sendingAccount := acc.sendingAccount
                     conflicts := c, spentUpdates := acc.spentUpdates }
               | some sc => insertTxInScan newTxId rest
                   { st := { acc.st with
                       txouts := acc.st.txouts.map (fun (r : StoredTxOut) =>
                         if r.id == outp0.id then r.setSpent (some j0)
                         else r) }
                     sentFromVault := true
                     haveAllOutpoints := acc.haveAllOutpoints
                     inputTotal := v
                     sendingAccount :=
                       match acc.sendingAccount with
                       | none => some sc.accountId
                       | some a => some a
                     conflicts := c
                     spentUpdates :=
                       if acc.spentUpdates.contains outp0.id then
                         acc.spentUpdates
                       else acc.spentUpdates ++ [outp0.id] }) =
                .ok iacc2 →
              i1.txId ∈ iacc2.conflicts := by
            intro v c iacc2 hok2
            cases hscr : acc.st.scripts.find? (fun sc =>
                sc.txoutscript == outp0.script) with
            | none =>
              simp only [hscr] at hok2
              exact ih _ iacc2 hok2 h1 h2
                ⟨ocur, hocm, hoid, hotx2, hoix2, hosp2⟩ h4 h5
                ⟨pre2, j, post, hrest, hex2⟩
            | some sc =>
              simp only [hscr] at hok2
              refine ih _ iacc2 hok2 h1 h2 ?_ ?_ ?_
                ⟨pre2, j, post, hrest, hex2⟩
              · refine ⟨ocur, ?_, hoid, hotx2, hoix2, hosp2⟩
                show ocur ∈ acc.st.txouts.map (fun (r : StoredTxOut) =>
                  if r.id == outp0.id then r.setSpent (some j0) else r)
                have hM : (fun (r : StoredTxOut) =>
                    if r.id == outp0.id then r.setSpent (some j0)
                    else r) ocur = ocur := by
                  simp only []
                  rw [if_neg hneq]
                exact hM ▸ List.mem_map_of_mem _ hocm
              · show ∀ t ∈ s.txs, ∀ k o2,
                  ((acc.st.txouts.map (fun (r : StoredTxOut) =>
                    if r.id == outp0.id then r.setSpent (some j0)
                    else r)).filter (fun r => r.txId == t.id)).get? k =
                    some o2 → o2.txindex = k
                intro t ht k o2 hg
                refine dense_map _ ?_ ?_ acc.st.txouts t.id k o2
                  (fun k2 o3 => h4 t ht k2 o3) hg
                · intro r
                  by_cases hc : (r.id == outp0.id) = true <;>
                    simp [hc, StoredTxOut.setSpent]
                · intro r
                  by_cases hc : (r.id == outp0.id) = true <;>
                    simp [hc, StoredTxOut.setSpent]
              · show ((acc.st.txouts.map (fun (r : StoredTxOut) =>
                    if r.id == outp0.id then r.setSpent (some j0)
                    else r)).map (fun r => r.id)).Nodup
                refine nodup_map_ids _ ?_ acc.st.txouts h5
                intro r
                by_cases hc : (r.id == outp0.id) = true <;>
                  simp [hc, StoredTxOut.setSpent]
          cases hsp0 : outp0.spent with
          | none =>
            simp only [hsp0] at hok
            exact hcont _ _ iacc hok
          | some ctid0 =>
            simp only [hsp0] at hok
            by_cases hct0 : acc.conflicts.contains
                (match acc.st.txins.find? (fun i => i.id == ctid0) with
                 | some ci => ci.txId
                 | none => newTxId) = true
            · rw [if_pos hct0] at hok
              exact hcont _ _ iacc hok
            · rw [if_neg hct0] at hok
              exact hcont _ _ iacc hok

/-- Characterization of the input scan of `insertTx_unwrapped`: the
transaction and input tables are untouched; every output row is either a
base row or a base row marked spent by one of the future input-row ids,
together with the outpoint facts justifying the mark; and when no input
matched a vault script the outputs are untouched. -/
theorem inScan_char (s : VaultState) (newTxId : Nat)
    (P0 : List (TxInObj × Nat)) :
    ∀ (pins : List (TxInObj × Nat)) (acc iacc : InScanAcc),
      insertTxInScan newTxId pins acc = .ok iacc →
      (∀ p ∈ pins, p ∈ P0) →
      acc.st.txs = s.txs →
      acc.st.txins = s.txins →
      (∀ o ∈ acc.st.txouts, o ∈ s.txouts ∨ ∃ o0 ∈ s.txouts, ∃ p ∈ P0,
        o = o0.setSpent (some p.2) ∧ o0.txindex = p.1.outindex ∧
        ∃ t ∈ s.txs, t.hash = p.1.outhash ∧ o0.txId = t.id) →
      (∀ t ∈ s.txs, ∀ k o,
        (acc.st.txouts.filter (fun o2 => o2.txId == t.id)).get? k =
          some o → o.txindex = k) →
      (acc.st.txouts.map (fun o => o.id)).Nodup →
      (acc.sentFromVault = false → acc.st.txouts = s.txouts) →
      iacc.st.txs = s.txs ∧ iacc.st.txins = s.txins ∧
      (∀ o ∈ iacc.st.txouts, o ∈ s.txouts ∨ ∃ o0 ∈ s.txouts, ∃ p ∈ P0,
        o = o0.setSpent (some p.2) ∧ o0.txindex = p.1.outindex ∧
        ∃ t ∈ s.txs, t.hash = p.1.outhash ∧ o0.txId = t.id) ∧
      (iacc.sentFromVault = false → iacc.st.txouts = s.txouts) := by
  intro pins
  induction pins with
  | nil =>
    intro acc iacc hok hsub h1 h2 h3 h4 h5 h6
    simp only [insertTxInScan, Except.ok.injEq] at hok
    rw [← hok]
    exact ⟨h1, h2, h3, h6⟩
  | cons pr rest ih =>
    obtain ⟨txin, iid⟩ := pr
    intro acc iacc hok hsub h1 h2 h3 h4 h5 h6
    have hsubtail : ∀ p ∈ rest, p ∈ P0 :=
      fun p hp => hsub p (List.mem_cons_of_mem _ hp)
    have hhead : (txin, iid) ∈ P0 := hsub _ (List.mem_cons_self _ _)
    simp only [insertTxInScan] at hok
    cases hfind : acc.st.txs.find? (fun t => t.hash == txin.outhash) with
    | none =>
      simp only [hfind] at hok
      exact ih _ iacc hok hsubtail h1 h2 h3 h4 h5 h6
    | some spentTx =>
      simp only [hfind] at hok
      cases hget : (acc.st.txouts.filter
          (fun o => o.txId == spentTx.id)).get? txin.outindex with
      | none =>
        simp only [hget] at hok
        exact Except.noConfusion hok
      | some outpoint =>
        simp only [hget] at hok
        have hstx_mem : spentTx ∈ s.txs := by
          rw [← h1]
          exact List.mem_of_find?_eq_some hfind
        have hstx_hash : spentTx.hash = txin.outhash := by
          have hp := List.find?_some hfind
          simpa using hp
        have houtp_mem : outpoint ∈ acc.st.txouts :=
          List.mem_of_mem_filter (List.get?_mem hget)
        have houtp_txId : outpoint.txId = spentTx.id := by
          have hp := (List.mem_filter.mp (List.get?_mem hget)).2
          simpa using hp
        have houtp_idx : outpoint.txindex = txin.outindex :=
          h4 spentTx hstx_mem txin.outindex outpoint hget
        have hcont : ∀ (v : Nat) (c : List Nat) (iacc2 : InScanAcc),
            (match acc.st.scripts.find? (fun sc =>
                sc.txoutscript == outpoint.script) with
             | none => insertTxInScan newTxId rest
                 { st := acc.st, sentFromVault := acc.sentFromVault
                   haveAllOutpoints := acc.haveAllOutpoints
                   inputTotal := v, sendingAccount := acc.sendingAccount
                   conflicts := c, spentUpdates := acc.spentUpdates }
             | some sc => insertTxInScan newTxId rest
                 { st := { acc.st with
                     txouts := acc.st.txouts.map (fun (o : StoredTxOut) =>
                       if o.id == outpoint.id then o.setSpent (some iid)
                       else o) }
                   sentFromVault := true
                   haveAllOutpoints := acc.haveAllOutpoints
                   inputTotal := v
                   sendingAccount :=
                     match acc.sendingAccount with
                     | none => some sc.accountId
                     | some a => some a
                   conflicts := c
                   spentUpdates :=
                     if acc.spentUpdates.contains outpoint.id then
                       acc.spentUpdates
                     else acc.spentUpdates ++ [outpoint.id] }) =
              .ok iacc2 →
            iacc2.st.txs = s.txs ∧ iacc2.st.txins = s.txins ∧
            (∀ o ∈ iacc2.st.txouts, o ∈ s.txouts ∨
              ∃ o0 ∈ s.txouts, ∃ p ∈ P0,
                o = o0.setSpent (some p.2) ∧ o0.txindex = p.1.outindex ∧
                ∃ t ∈ s.txs, t.hash = p.1.outhash ∧ o0.txId = t.id) ∧
            (iacc2.sentFromVault = false →
              iacc2.st.txouts = s.txouts) := by
          intro v c iacc2 hok2
          cases hscr : acc.st.scripts.find? (fun sc =>
              sc.txoutscript == outpoint.script) with
          | none =>
            simp only [hscr] at hok2
            refine ih _ iacc2 hok2 hsubtail h1 h2 h3 h4 h5 ?_
            intro hf
            exact h6 hf
          | some sc =>
            simp only [hscr] at hok2
            refine ih _ iacc2 hok2 hsubtail h1 h2 ?_ ?_ ?_ ?_
            · show ∀ o ∈ acc.st.txouts.map (fun (o : StoredTxOut) =>
                  if o.id == outpoint.id then o.setSpent (some iid)
                  else o), _
              intro o2 ho2
              rcases List.mem_map.mp ho2 with ⟨o, ho, hFo⟩
              by_cases hid : (o.id == outpoint.id) = true
              · simp only [hid, if_true] at hFo
                have hoo : o = outpoint :=
                  List.inj_on_of_nodup_map h5 ho houtp_mem
                    (by simpa using hid)
                rcases h3 o ho with hbase | ⟨o0, ho0, q, hq, hoe, hidx0,
                    t', ht', hh', htid'⟩
                · refine .inr ⟨o, hbase, (txin, iid), hhead, hFo.symm,
                    ?_, spentTx, hstx_mem, hstx_hash, ?_⟩
                  · rw [hoo]; exact houtp_idx
                  · rw [hoo]; exact houtp_txId
                · refine .inr ⟨o0, ho0, (txin, iid), hhead, ?_, ?_,
                    spentTx, hstx_mem, hstx_hash, ?_⟩
                  · rw [← hFo, hoe]
                    rfl
                  · have he2 : o.txindex = o0.txindex := by rw [hoe]; rfl
                    rw [← he2, hoo]
                    exact houtp_idx
                  · have he2 : o.txId = o0.txId := by rw [hoe]; rfl
                    rw [← he2, hoo]
                    exact houtp_txId
              · simp only [hid, if_false] at hFo
                rw [← hFo]
                exact h3 o ho
            · show ∀ t ∈ s.txs, ∀ k o,
                ((acc.st.txouts.map (fun (o : StoredTxOut) =>
                  if o.id == outpoint.id then o.setSpent (some iid)
                  else o)).filter (fun o2 => o2.txId == t.id)).get? k =
                  some o → o.txindex = k
              intro t ht k o hg
              refine dense_map _ ?_ ?_ acc.st.txouts t.id k o
                (fun k2 o2 => h4 t ht k2 o2) hg
              · intro o
                by_cases hc : (o.id == outpoint.id) = true <;>
                  simp [hc, StoredTxOut.setSpent]
              · intro o
                by_cases hc : (o.id == outpoint.id) = true <;>
                  simp [hc, StoredTxOut.setSpent]
            · show ((acc.st.txouts.map (fun (o : StoredTxOut) =>
                  if o.id == outpoint.id then o.setSpent (some iid)
                  else o)).map (fun o => o.id)).Nodup
              refine nodup_map_ids _ ?_ acc.st.txouts h5
              intro o
              by_cases hc : (o.id == outpoint.id) = true <;>
                simp [hc, StoredTxOut.setSpent]
            · intro hf
              exact Bool.noConfusion hf
        cases hsp : outpoint.spent with
        | none =>
          simp only [hsp] at hok
          exact hcont _ _ iacc hok
        | some ctid =>
          simp only [hsp] at hok
          by_cases hct : acc.conflicts.contains
              (match acc.st.txins.find? (fun i => i.id == ctid) with
               | some ci => ci.txId
               | none => newTxId) = true
          · rw [if_pos hct] at hok
            exact hcont _ _ iacc hok
          · rw [if_neg hct] at hok
            exact hcont _ _ iacc hok

/-- Characterization of the output scan of `insertTx_unwrapped`: the
spent-relevant tables are untouched (only scripts, bins, keys and the
id counter change), and every accumulated new output row either is
untouched (no back-link, UNSPENT) or is back-linked to a persisted
input row spending it (out-of-order arrival), with matching outpoint. -/
theorem outScan_char (s B : VaultState) (txHash newTxId : Nat)
    (sfv : Bool) (sact : Option Nat) :
    ∀ (pouts : List (TxOutObj × Nat × Nat)) (acc : OutScanAcc),
      acc.st.txins = s.txins →
      acc.st.txouts = B.txouts →
      acc.st.txs = B.txs →
      (∀ o ∈ acc.newOuts,
        (o.spent = none ∧ o.status = TxOutStatus.UNSPENT) ∨
        (o.txId = newTxId ∧ ∃ i ∈ s.txins, o.spent = some i.id ∧
          o.status = TxOutStatus.SPENT ∧ i.outindex = o.txindex ∧
          i.outhash = txHash)) →
      (insertTxOutScan txHash newTxId sfv sact pouts acc).st.txins =
        s.txins ∧
      (insertTxOutScan txHash newTxId sfv sact pouts acc).st.txouts =
        B.txouts ∧
      (insertTxOutScan txHash newTxId sfv sact pouts acc).st.txs =
        B.txs ∧
      (∀ o ∈ (insertTxOutScan txHash newTxId sfv sact pouts acc).newOuts,
        (o.spent = none ∧ o.status = TxOutStatus.UNSPENT) ∨
        (o.txId = newTxId ∧ ∃ i ∈ s.txins, o.spent = some i.id ∧
          o.status = TxOutStatus.SPENT ∧ i.outindex = o.txindex ∧
          i.outhash = txHash)) := by
  intro pouts
  induction pouts with
  | nil =>
    intro acc h1 h2 h3 h4
    exact ⟨h1, h2, h3, h4⟩
  | cons pr rest ih =>
    obtain ⟨txout, oid, j⟩ := pr
    intro acc h1 h2 h3 h4
    simp only [insertTxOutScan]
    cases hscr : acc.st.scripts.find? (fun sc =>
        sc.txoutscript == txout.script) with
    | none =>
      simp only [hscr]
      refine ih _ h1 h2 h3 ?_
      intro o ho
      rcases List.mem_append.mp ho with hold | hnew
      · exact h4 o hold
      · have he : o = { id := oid, txId := newTxId, txindex := j
                        value := txout.value, script := txout.script
                        signingscriptId := none, sendingAccountId := sact
                        spent := none, status := .UNSPENT } := by
          simpa using hnew
        rw [he]
        exact .inl ⟨rfl, rfl⟩
    | some sc =>
      simp only [hscr]
      have hnewOuts : ∀ o2 ∈ acc.newOuts ++
          [match acc.st.txins.find? (fun i =>
              i.outhash == txHash && i.outindex == j) with
           | some i => ({ id := oid, txId := newTxId, txindex := j
                          value := txout.value, script := txout.script
                          signingscriptId := some sc.id
                          sendingAccountId := none
                          spent := none
                          status := .UNSPENT } : StoredTxOut).setSpent
                         (some i.id)
           | none => { id := oid, txId := newTxId, txindex := j
                       value := txout.value, script := txout.script
                       signingscriptId := some sc.id
                       sendingAccountId := none
                       spent := none, status := .UNSPENT }],
          (o2.spent = none ∧ o2.status = TxOutStatus.UNSPENT) ∨
          (o2.txId = newTxId ∧ ∃ i ∈ s.txins, o2.spent = some i.id ∧
            o2.status = TxOutStatus.SPENT ∧ i.outindex = o2.txindex ∧
            i.outhash = txHash) := by
        intro o2 ho2
        rcases List.mem_append.mp ho2 with hold | hnew
        · exact h4 o2 hold
        · cases hsl : acc.st.txins.find? (fun i =>
              i.outhash == txHash && i.outindex == j) with
          | none =>
            simp only [hsl] at hnew
            have he : o2 = { id := oid, txId := newTxId, txindex := j
                             value := txout.value, script := txout.script
                             signingscriptId := some sc.id
                             sendingAccountId := none
                             spent := none, status := .UNSPENT } := by
              simpa using hnew
            rw [he]
            exact .inl ⟨rfl, rfl⟩
          | some iFound =>
            simp only [hsl] at hnew
            have hcond := List.find?_some hsl
            have hoidx : iFound.outindex = j := by
              simp only [Bool.and_eq_true, beq_iff_eq] at hcond
              exact hcond.2
            have hohash : iFound.outhash = txHash := by
              simp only [Bool.and_eq_true, beq_iff_eq] at hcond
              exact hcond.1
            have hifm : iFound ∈ s.txins := by
              rw [← h1]
              exact List.mem_of_find?_eq_some hsl
            have he : o2 = ({ id := oid, txId := newTxId, txindex := j
                              value := txout.value
                              script := txout.script
                              signingscriptId := some sc.id
                              sendingAccountId := none
                              spent := none
                              status := .UNSPENT } : StoredTxOut).setSpent
                (some iFound.id) := by
              simpa using hnew
            rw [he]
            exact .inr ⟨rfl, iFound, hifm, rfl, rfl, hoidx, hohash⟩
      cases hst : sc.status with
      | UNUSED =>
        refine ih _ ?_ ?_ ?_ ?_
        · exact ((refill_tables _ _).2.1).trans h1
        · exact ((refill_tables _ _).1).trans h2
        · exact ((refill_tables _ _).2.2).trans h3
        · exact hnewOuts
      | ISSUED =>
        refine ih _ ?_ ?_ ?_ ?_
        · exact h1
        · exact h2
        · exact h3
        · exact hnewOuts
      | USED =>
        refine ih _ ?_ ?_ ?_ ?_
        · exact h1
        · exact h2
        · exact h3
        · exact hnewOuts
      | CHANGE =>
        refine ih _ ?_ ?_ ?_ ?_
        · exact h1
        · exact h2
        · exact h3
        · exact hnewOuts

/-- Assembly of the spent-state invariant for the persisted state of a
new-transaction insertion: base outputs keep their witnesses (possibly
remapped transaction rows), marked outputs point at the freshly
persisted input rows, and new outputs are either clean or point at a
stored out-of-order spender. -/
theorem InvSpent_assemble (s S2 : VaultState) (newTxId txHash : Nat)
    (P0 : List (TxInObj × Nat)) (NEWINS : List StoredTxIn)
    (OUTS NOUTS : List StoredTxOut)
    (hS2outs : S2.txouts = OUTS ++ NOUTS)
    (hS2ins : ∀ i ∈ s.txins, i ∈ S2.txins)
    (hNewIns : ∀ row ∈ NEWINS, row ∈ S2.txins)
    (hS2txs : ∀ t ∈ s.txs, ∃ t2 ∈ S2.txs, t2.id = t.id ∧ t2.hash = t.hash)
    (hNewTx : ∃ tN ∈ S2.txs, tN.id = newTxId ∧ tN.hash = txHash)
    (hOUTS : ∀ o ∈ OUTS, o ∈ s.txouts ∨ ∃ o0 ∈ s.txouts, ∃ p ∈ P0,
      o = o0.setSpent (some p.2) ∧ o0.txindex = p.1.outindex ∧
      ∃ t ∈ s.txs, t.hash = p.1.outhash ∧ o0.txId = t.id)
    (hPN : ∀ p ∈ P0, ∃ row ∈ NEWINS, row.id = p.2 ∧
      row.outhash = p.1.outhash ∧ row.outindex = p.1.outindex)
    (hNOUTS : ∀ o ∈ NOUTS,
      (o.spent = none ∧ o.status = TxOutStatus.UNSPENT) ∨
      (o.txId = newTxId ∧ ∃ i ∈ s.txins, o.spent = some i.id ∧
        o.status = TxOutStatus.SPENT ∧ i.outindex = o.txindex ∧
        i.outhash = txHash))
    (h : InvSpent s) : InvSpent S2 := by
  intro o ho
  rw [hS2outs] at ho
  rcases List.mem_append.mp ho with hold | hnew
  · rcases hOUTS o hold with hbase | ⟨o0, ho0, p, hp, hoe, hidx, t', ht',
        hh', htid'⟩
    · obtain ⟨p1, p2⟩ := h o hbase
      refine ⟨p1, ?_⟩
      intro j hj
      obtain ⟨i, hi, hiid, hidx2, t, ht, htid, hhash⟩ := p2 j hj
      obtain ⟨t2, ht2, e1, e2⟩ := hS2txs t ht
      exact ⟨i, hS2ins i hi, hiid, hidx2, t2, ht2, e1.trans htid,
        by rw [e2]; exact hhash⟩
    · constructor
      · rw [hoe]
        simp [StoredTxOut.setSpent]
      · intro j hj
        rw [hoe] at hj
        simp only [StoredTxOut.setSpent, Option.some.injEq] at hj
        obtain ⟨row, hrow, r1, r2, r3⟩ := hPN p hp
        obtain ⟨t2, ht2, e1, e2⟩ := hS2txs t' ht'
        refine ⟨row, hNewIns row hrow, by rw [r1, hj], ?_, t2, ht2,
          ?_, ?_⟩
        · rw [r3, hoe]
          exact hidx.symm
        · rw [e1, hoe]
          exact htid'.symm
        · rw [r2, e2]
          exact hh'.symm
  · rcases hNOUTS o hnew with ⟨hsp, hsta⟩ | ⟨htxid, i, hi, hsp, hsta,
        hidx, hhash⟩
    · constructor
      · rw [hsta, hsp]
        simp
      · intro j hj
        rw [hsp] at hj
        exact Option.noConfusion hj
    · constructor
      · rw [hsta, hsp]
        simp
      · intro j hj
        rw [hsp] at hj
        obtain ⟨tN, htN, n1, n2⟩ := hNewTx
        have hji : j = i.id := by
          injection hj with hje
          exact hje.symm
        refine ⟨i, hS2ins i hi, hji.symm, hidx, tN, htN, ?_, ?_⟩
        · rw [n1, htxid]
        · rw [n2, hhash]

/-- A confirmation sweep preserves the spent-state invariant: it only
relinks block headers on transaction rows. -/
theorem InvSpent_updateConf (s : VaultState) (only : Option Nat)
    (h : InvSpent s) : InvSpent (updateConfirmations_unwrapped s only) :=
  InvSpent_transport s _ rfl (fun i hi => ⟨i, hi, rfl, rfl, rfl⟩)
    (fun t ht => ⟨_, List.mem_map_of_mem _ ht,
      (confirmFn_fields _ _ t).1, (confirmFn_fields _ _ t).2.1⟩) h

/-- `insertTx_unwrapped` preserves the spent-state invariant on
well-formed stores: duplicate reconciliation only rewrites input
scripts and transaction statuses; a new insertion marks outpoints spent
exactly with the ids of the input rows it persists alongside, and new
outputs are either unspent or back-linked to a stored out-of-order
spender. -/
theorem InvSpent_insertTx (s : VaultState) (tx0 : TxObj) (r : Option Nat)
    (s2 : VaultState) (hwf : WfState s)
    (hnd : (s.txouts.map (fun o => o.id)).Nodup)
    (hok : insertTx_unwrapped s tx0 = .ok (r, s2))
    (h : InvSpent s) : InvSpent s2 := by
  unfold insertTx_unwrapped at hok
  dsimp only at hok
  cases hdup : s.txs.find? (fun t =>
      t.unsignedHash == tx0.updateStatus0.unsignedHash) with
  | some stored =>
    simp only [hdup] at hok
    by_cases hs1 : stored.status = TxStatus.UNSIGNED
    · rw [if_pos hs1] at hok
      by_cases hs2 : tx0.updateStatus0.status ≠ TxStatus.UNSIGNED
      · rw [if_pos hs2] at hok
        simp only [Except.ok.injEq, Prod.mk.injEq] at hok
        obtain ⟨-, e2⟩ := hok
        rw [← e2]
        refine InvSpent_transport s _ rfl ?_ ?_ h
        · intro i hi
          exact ⟨_, List.mem_map_of_mem _ hi,
            (match_lookup_fieldsA _ i).1,
            (match_lookup_fieldsA _ i).2.1,
            (match_lookup_fieldsA _ i).2.2⟩
        · intro t ht
          refine ⟨_, List.mem_map_of_mem _ ht, ?_, ?_⟩
          · by_cases hc : (t.id == stored.id) = true <;> simp [hc]
          · by_cases hc : (t.id == stored.id) = true <;> simp [hc]
      · rw [if_neg hs2] at hok
        split at hok
        · simp only [Except.ok.injEq, Prod.mk.injEq] at hok
          obtain ⟨-, e2⟩ := hok
          rw [← e2]
          exact h
        · simp only [Except.ok.injEq, Prod.mk.injEq] at hok
          obtain ⟨-, e2⟩ := hok
          rw [← e2]
          refine InvSpent_transport s _ rfl ?_
            (fun t ht => ⟨t, ht, rfl, rfl⟩) h
          intro i hi
          exact ⟨_, List.mem_map_of_mem _ hi,
            (match_lookup_fieldsB _ i).1,
            (match_lookup_fieldsB _ i).2.1,
            (match_lookup_fieldsB _ i).2.2⟩
    · rw [if_neg hs1] at hok
      by_cases hs2 : tx0.updateStatus0.status ≠ TxStatus.UNSIGNED
      · rw [if_pos hs2] at hok
        split at hok
        · simp only [Except.ok.injEq, Prod.mk.injEq] at hok
          obtain ⟨-, e2⟩ := hok
          rw [← e2]
          refine InvSpent_transport s _ rfl
            (fun i hi => ⟨i, hi, rfl, rfl, rfl⟩) ?_ h
          intro t ht
          refine ⟨_, List.mem_map_of_mem _ ht, ?_, ?_⟩
          · by_cases hc : (t.id == stored.id) = true <;> simp [hc]
          · by_cases hc : (t.id == stored.id) = true <;> simp [hc]
        · simp only [Except.ok.injEq, Prod.mk.injEq] at hok
          obtain ⟨-, e2⟩ := hok
          rw [← e2]
          exact h
      · rw [if_neg hs2] at hok
        simp only [Except.ok.injEq, Prod.mk.injEq] at hok
        obtain ⟨-, e2⟩ := hok
        rw [← e2]
        exact h
  | none =>
    simp only [hdup] at hok
    cases hscan : insertTxInScan s.nextId
        (tx0.updateStatus0.txins.enum.map (fun p =>
          (p.2, s.nextId + 1 + p.1)))
        { st := s, sentFromVault := false, haveAllOutpoints := true
          inputTotal := 0, sendingAccount := none, conflicts := []
          spentUpdates := [] } with
    | error e =>
      simp only [hscan] at hok
      exact Except.noConfusion hok
    | ok iacc =>
      simp only [hscan] at hok
      obtain ⟨hTxs, hTxins, hBase, hFlag⟩ := inScan_char s s.nextId
        (tx0.updateStatus0.txins.enum.map (fun p =>
          (p.2, s.nextId + 1 + p.1)))
        (tx0.updateStatus0.txins.enum.map (fun p =>
          (p.2, s.nextId + 1 + p.1)))
        _ iacc hscan (fun p hp => hp) rfl rfl (fun o ho => Or.inl ho)
        hwf.2.2.2 hnd (fun _ => rfl)
      obtain ⟨hOins, hOouts, hOtxs, hONew⟩ := outScan_char s iacc.st
        tx0.updateStatus0.hash s.nextId iacc.sentFromVault
        iacc.sendingAccount
        (tx0.updateStatus0.txouts.enum.map (fun p =>
          (p.2, s.nextId + 1 + tx0.updateStatus0.txins.length + p.1,
            p.1)))
        { st := iacc.st, sentToVault := false, outputTotal := 0
          newOuts := [] }
        hTxins rfl rfl (fun o ho => absurd ho (List.not_mem_nil o))
      by_cases hce : iacc.conflicts.isEmpty = true
      · simp only [if_pos hce] at hok
        split at hok
        · simp only [Except.ok.injEq, Prod.mk.injEq] at hok
          obtain ⟨-, e2⟩ := hok
          rw [← e2]
          split
          · refine InvSpent_updateConf _ _ ?_
            exact InvSpent_assemble s _ s.nextId tx0.updateStatus0.hash
              _ _ _ _ rfl
              (fun i hi => List.mem_append_left _ (hOins.symm ▸ hi))
              (fun row hr => List.mem_append_right _ hr)
              (fun t ht => ⟨t, List.mem_append_left _
                ((hOtxs.trans hTxs).symm ▸ ht), rfl, rfl⟩)
              ⟨_, List.mem_append_right _ (List.mem_singleton_self _),
                rfl, rfl⟩
              (fun o ho => hBase o (hOouts ▸ ho))
              (pins_newIns tx0.updateStatus0 s.nextId) hONew h
          · exact InvSpent_assemble s _ s.nextId tx0.updateStatus0.hash
              _ _ _ _ rfl
              (fun i hi => List.mem_append_left _ (hOins.symm ▸ hi))
              (fun row hr => List.mem_append_right _ hr)
              (fun t ht => ⟨t, List.mem_append_left _
                ((hOtxs.trans hTxs).symm ▸ ht), rfl, rfl⟩)
              ⟨_, List.mem_append_right _ (List.mem_singleton_self _),
                rfl, rfl⟩
              (fun o ho => hBase o (hOouts ▸ ho))
              (pins_newIns tx0.updateStatus0 s.nextId) hONew h
        · rename_i hnsv
          have hsf : iacc.sentFromVault = false := by
            simp only [Bool.or_eq_true, not_or, Bool.not_eq_true] at hnsv
            exact hnsv.1
          simp only [Except.ok.injEq, Prod.mk.injEq] at hok
          obtain ⟨-, e2⟩ := hok
          rw [← e2]
          exact InvSpent_eq_tables s _ (hOouts.trans (hFlag hsf)) hOins
            (hOtxs.trans hTxs) h
      · simp only [if_neg hce] at hok
        split at hok
        · simp only [Except.ok.injEq, Prod.mk.injEq] at hok
          obtain ⟨-, e2⟩ := hok
          rw [← e2]
          split
          · refine InvSpent_updateConf _ _ ?_
            refine InvSpent_assemble s _ s.nextId tx0.updateStatus0.hash
              _ _ _ _ rfl
              (fun i hi => List.mem_append_left _ (hOins.symm ▸ hi))
              (fun row hr => List.mem_append_right _ hr) ?_
              ⟨_, List.mem_append_right _ (List.mem_singleton_self _),
                rfl, rfl⟩
              (fun o ho => hBase o (hOouts ▸ ho))
              (pins_newIns tx0.updateStatus0 s.nextId) hONew h
            intro t ht
            refine ⟨_, List.mem_append_left _ (List.mem_map_of_mem _
              ((hOtxs.trans hTxs).symm ▸ ht)), ?_, ?_⟩
            · by_cases hc : (iacc.conflicts.contains t.id &&
                  !(t.status == TxStatus.CONFIRMED)) = true <;>
                first
                | rw [if_pos hc]
                | rw [if_neg hc]
            · by_cases hc : (iacc.conflicts.contains t.id &&
                  !(t.status == TxStatus.CONFIRMED)) = true <;>
                first
                | rw [if_pos hc]
                | rw [if_neg hc]
          · refine InvSpent_assemble s _ s.nextId tx0.updateStatus0.hash
              _ _ _ _ rfl
              (fun i hi => List.mem_append_left _ (hOins.symm ▸ hi))
              (fun row hr => List.mem_append_right _ hr) ?_
              ⟨_, List.mem_append_right _ (List.mem_singleton_self _),
                rfl, rfl⟩
              (fun o ho => hBase o (hOouts ▸ ho))
              (pins_newIns tx0.updateStatus0 s.nextId) hONew h
            intro t ht
            refine ⟨_, List.mem_append_left _ (List.mem_map_of_mem _
              ((hOtxs.trans hTxs).symm ▸ ht)), ?_, ?_⟩
            · by_cases hc : (iacc.conflicts.contains t.id &&
                  !(t.status == TxStatus.CONFIRMED)) = true <;>
                first
                | rw [if_pos hc]
                | rw [if_neg hc]
            · by_cases hc : (iacc.conflicts.contains t.id &&
                  !(t.status == TxStatus.CONFIRMED)) = true <;>
                first
                | rw [if_pos hc]
                | rw [if_neg hc]
        · rename_i hnsv
          have hsf : iacc.sentFromVault = false := by
            simp only [Bool.or_eq_true, not_or, Bool.not_eq_true] at hnsv
            exact hnsv.1
          simp only [Except.ok.injEq, Prod.mk.injEq] at hok
          obtain ⟨-, e2⟩ := hok
          rw [← e2]
          refine InvSpent_transport s _ (hOouts.trans (hFlag hsf))
            (fun i hi => ⟨i, hOins.symm ▸ hi, rfl, rfl, rfl⟩) ?_ h
          intro t ht
          refine ⟨_, List.mem_map_of_mem _
            ((hOtxs.trans hTxs).symm ▸ ht), ?_, ?_⟩
          · by_cases hc : (iacc.conflicts.contains t.id &&
                !(t.status == TxStatus.CONFIRMED)) = true <;>
              first
              | rw [if_pos hc]
              | rw [if_neg hc]
          · by_cases hc : (iacc.conflicts.contains t.id &&
                !(t.status == TxStatus.CONFIRMED)) = true <;>
              first
              | rw [if_pos hc]
              | rw [if_neg hc]

/-- The key loop adds `k` signatures for some `k`, appending exactly one
signature per count; with no additions the script is untouched. -/
theorem signTxKeyLoop_added (s : VaultState) (h : Nat) :
    ∀ (keys : List StoredKey) (script : InScript) (sn sa : Nat)
      (script2 : InScript) (sn2 sa2 : Nat),
      signTxKeyLoop s h keys script sn sa = .ok (script2, sn2, sa2) →
      ∃ k, sa2 = sa + k ∧
        script2.sigs.length = script.sigs.length + k ∧
        (k = 0 → script2 = script) := by
  intro keys
  induction keys with
  | nil =>
    intro script sn sa script2 sn2 sa2 hok
    simp only [signTxKeyLoop, Except.ok.injEq, Prod.mk.injEq] at hok
    obtain ⟨e1, _, e3⟩ := hok
    exact ⟨0, by omega, by simp [e1], fun _ => e1.symm⟩
  | cons key rest ih =>
    intro script sn sa script2 sn2 sa2 hok
    simp only [signTxKeyLoop] at hok
    cases hfind : s.keychains.find? (fun k =>
        k.name == key.rootKeychainName) with
    | none =>
      simp only [hfind] at hok
      exact ih script sn sa script2 sn2 sa2 hok
    | some kc =>
      simp only [hfind] at hok
      cases hpu : tryUnlockKeychainPrivateKey_unwrapped s kc with
      | error e => simp only [hpu] at hok; exact absurd hok (by simp)
      | ok bpu =>
        simp only [hpu] at hok
        cases bpu with
        | false => exact ih script sn sa script2 sn2 sa2 hok
        | true =>
          cases hcc : tryUnlockKeychainChainCode_unwrapped s kc with
          | error e => simp only [hcc] at hok; exact absurd hok (by simp)
          | ok bcc =>
            simp only [hcc] at hok
            cases bcc with
            | false => exact ih script sn sa script2 sn2 sa2 hok
            | true =>
              by_cases hpk : (getPubKeyOf key.privkey != key.pubkey) = true
              · rw [if_pos hpk] at hok
                exact absurd hok (by simp)
              · rw [if_neg hpk] at hok
                by_cases hsn : (sn - 1 == 0) = true
                · rw [if_pos hsn] at hok
                  simp only [Except.ok.injEq, Prod.mk.injEq] at hok
                  obtain ⟨e1, _, e3⟩ := hok
                  refine ⟨1, by omega, ?_, fun hc => absurd hc (by omega)⟩
                  rw [← e1]
                  simp [InScript.addSig]
                · rw [if_neg hsn] at hok
                  obtain ⟨k, hk1, hk2, _⟩ :=
                    ih _ _ _ script2 sn2 sa2 hok
                  refine ⟨k + 1, by omega, ?_,
                    fun hc => absurd hc (by omega)⟩
                  rw [hk2]
                  simp only [InScript.addSig]
                  simp
                  omega

/-- The input loop adds no signature exactly when every input's
signature list is unchanged. -/
theorem signTxInLoop_zero (s : VaultState) (tx : TxObj) :
    ∀ (l : List TxInObj) (idx : Nat) (ins : List TxInObj) (total : Nat),
      signTxInLoop s tx l idx = .ok (ins, total) →
      ((total = 0 → List.Forall₂ (fun (old new : TxInObj) =>
          new.script.sigs = old.script.sigs) l ins) ∧
       (List.Forall₂ (fun (old new : TxInObj) =>
          new.script.sigs = old.script.sigs) l ins → total = 0)) := by
  intro l
  induction l with
  | nil =>
    intro idx ins total hok
    simp only [signTxInLoop, Except.ok.injEq, Prod.mk.injEq] at hok
    obtain ⟨e1, e2⟩ := hok
    constructor
    · intro _
      rw [← e1]
      exact List.Forall₂.nil
    · intro _
      omega
  | cons txin rest ih =>
    intro idx ins total hok
    simp only [signTxInLoop] at hok
    by_cases h0 : (txin.script.sigsneeded == 0) = true
    · rw [if_pos h0] at hok
      cases hrec : signTxInLoop s tx rest (idx + 1) with
      | error e => simp only [hrec] at hok; exact absurd hok (by simp)
      | ok pr =>
        obtain ⟨ins2, t2⟩ := pr
        simp only [hrec, Except.ok.injEq, Prod.mk.injEq] at hok
        obtain ⟨e1, e2⟩ := hok
        obtain ⟨ihA, ihB⟩ := ih (idx + 1) ins2 t2 hrec
        constructor
        · intro htz
          rw [← e1]
          exact List.Forall₂.cons rfl (ihA (by omega))
        · intro hfa
          rw [← e1] at hfa
          cases hfa with
          | cons hhd htl =>
            have := ihB htl
            omega
    · rw [if_neg h0] at hok
      by_cases hpe : txin.script.missingsigs.isEmpty = true
      · rw [if_pos hpe] at hok
        cases hrec : signTxInLoop s tx rest (idx + 1) with
        | error e => simp only [hrec] at hok; exact absurd hok (by simp)
        | ok pr =>
          obtain ⟨ins2, t2⟩ := pr
          simp only [hrec, Except.ok.injEq, Prod.mk.injEq] at hok
          obtain ⟨e1, e2⟩ := hok
          obtain ⟨ihA, ihB⟩ := ih (idx + 1) ins2 t2 hrec
          constructor
          · intro htz
            rw [← e1]
            exact List.Forall₂.cons rfl (ihA (by omega))
          · intro hfa
            rw [← e1] at hfa
            cases hfa with
            | cons hhd htl =>
              have := ihB htl
              omega
      · rw [if_neg hpe] at hok
        by_cases hke : (s.keys.filter (fun k =>
            k.isPrivate && txin.script.missingsigs.contains
              k.pubkey)).isEmpty = true
        · rw [if_pos hke] at hok
          cases hrec : signTxInLoop s tx rest (idx + 1) with
          | error e => simp only [hrec] at hok; exact absurd hok (by simp)
          | ok pr =>
            obtain ⟨ins2, t2⟩ := pr
            simp only [hrec, Except.ok.injEq, Prod.mk.injEq] at hok
            obtain ⟨e1, e2⟩ := hok
            obtain ⟨ihA, ihB⟩ := ih (idx + 1) ins2 t2 hrec
            constructor
            · intro htz
              rw [← e1]
              exact List.Forall₂.cons rfl (ihA (by omega))
            · intro hfa
              rw [← e1] at hfa
              cases hfa with
              | cons hhd htl =>
                have := ihB htl
                omega
        · rw [if_neg hke] at hok
          cases hkl : signTxKeyLoop s (signingHashFor tx idx)
              (s.keys.filter (fun k =>
                k.isPrivate && txin.script.missingsigs.contains k.pubkey))
              txin.script txin.script.sigsneeded 0 with
          | error e => simp only [hkl] at hok; exact absurd hok (by simp)
          | ok tr =>
            obtain ⟨script1, sn1, added⟩ := tr
            simp only [hkl] at hok
            cases hrec : signTxInLoop s tx rest (idx + 1) with
            | error e => simp only [hrec] at hok; exact absurd hok (by simp)
            | ok pr =>
              obtain ⟨ins2, t2⟩ := pr
              simp only [hrec, Except.ok.injEq, Prod.mk.injEq] at hok
              obtain ⟨e1, e2⟩ := hok
              obtain ⟨k, hk1, hk2, hk3⟩ := signTxKeyLoop_added s
                (signingHashFor tx idx) _ txin.script
                txin.script.sigsneeded 0 script1 sn1 added hkl
              obtain ⟨ihA, ihB⟩ := ih (idx + 1) ins2 t2 hrec
              constructor
              · intro htz
                have hadd : added = 0 := by omega
                have hscr : script1 = txin.script := hk3 (by omega)
                rw [← e1]
                refine List.Forall₂.cons ?_ (ihA (by omega))
                show (script1.txinscript _).sigs = txin.script.sigs
                rw [hscr]
                rfl
              · intro hfa
                rw [← e1] at hfa
                cases hfa with
                | cons hhd htl =>
                  have hhd2 : script1.sigs = txin.script.sigs := hhd
                  have hlen := congrArg List.length hhd2
                  simp only [] at hlen
                  have ht2 := ihB htl
                  omega

/-- A fully signed transaction's inputs are all skipped by the input
loop (`continue` at Vault.cpp:1367). -/
theorem signTxInLoop_fullysigned (s : VaultState) (tx : TxObj) :
    ∀ (l : List TxInObj) (idx : Nat),
      (∀ i ∈ l, i.script.sigsneeded = 0) →
      signTxInLoop s tx l idx = .ok (l, 0) := by
  intro l
  induction l with
  | nil => intro idx _; rfl
  | cons txin rest ih =>
    intro idx hall
    have h0 : (txin.script.sigsneeded == 0) = true := by
      simpa using hall txin (by simp)
    have hrec := ih (idx + 1) (fun i hi => hall i (by simp [hi]))
    simp [signTxInLoop, h0, hrec]

/-- Evaluation of `insertTx_unwrapped` on the replace branch
(Vault.cpp:959-975): the stored duplicate is unsigned, the incoming
transaction is signed. -/
theorem insertTx_dup_replace_eval (s : VaultState) (tx0 : TxObj)
    (stored : StoredTx)
    (hfind : s.txs.find? (fun t => t.unsignedHash == tx0.unsignedHash) =
      some stored)
    (hstatus : stored.status = TxStatus.UNSIGNED)
    (hneq : (tx0.updateStatus0).status ≠ TxStatus.UNSIGNED) :
    insertTx_unwrapped s tx0 = .ok (some stored.id,
      { s with
        txins := s.txins.map (fun i =>
          match (List.zipWith (fun (st : StoredTxIn) (inc : TxInObj) =>
              (st.id, inc.script))
              (s.txins.filter (fun i2 => i2.txId == stored.id))
              tx0.txins).lookup i.id with
          | some sc => { i with script := sc }
          | none => i)
        txs := s.txs.map (fun t =>
          if t.id == stored.id then
            { t with status := (tx0.updateStatus0).status } else t) }) := by
  have hfind2 : s.txs.find? (fun t =>
      t.unsignedHash == (tx0.updateStatus0).unsignedHash) = some stored := by
    rw [(updateStatus0_fields tx0).1]
    exact hfind
  have htxins : (tx0.updateStatus0).txins = tx0.txins :=
    (updateStatus0_fields tx0).2.2.1
  simp only [insertTx_unwrapped, hfind2]
  rw [if_pos hstatus, if_pos hneq, htxins]

/-- Evaluation of `insertTx_unwrapped` on the merge branch
(Vault.cpp:976-998): both the stored duplicate and the incoming
transaction are unsigned. -/
theorem insertTx_dup_merge_eval (s : VaultState) (tx0 : TxObj)
    (stored : StoredTx)
    (hfind : s.txs.find? (fun t => t.unsignedHash == tx0.unsignedHash) =
      some stored)
    (hstatus : stored.status = TxStatus.UNSIGNED)
    (heq : (tx0.updateStatus0).status = TxStatus.UNSIGNED) :
    insertTx_unwrapped s tx0 =
      (if ((List.zipWith (fun (st : StoredTxIn) (inc : TxInObj) =>
          (st.id, (st.script.mergesigs inc.script).1,
           ((st.script.mergesigs inc.script).2).txinscript SForm.EDIT))
          (s.txins.filter (fun i2 => i2.txId == stored.id))
          tx0.txins).filter (fun p => decide (0 < p.2.1))).isEmpty then
        .ok (none, s)
      else
        .ok (some stored.id, { s with txins := s.txins.map (fun i =>
          match ((List.zipWith (fun (st : StoredTxIn) (inc : TxInObj) =>
              (st.id, (st.script.mergesigs inc.script).1,
               ((st.script.mergesigs inc.script).2).txinscript SForm.EDIT))
              (s.txins.filter (fun i2 => i2.txId == stored.id))
              tx0.txins).filter (fun p => decide (0 < p.2.1))).lookup i.id with
          | some p => { i with script := p.2 }
          | none => i) })) := by
  have hfind2 : s.txs.find? (fun t =>
      t.unsignedHash == (tx0.updateStatus0).unsignedHash) = some stored := by
    rw [(updateStatus0_fields tx0).1]
    exact hfind
  have htxins : (tx0.updateStatus0).txins = tx0.txins :=
    (updateStatus0_fields tx0).2.2.1
  have hneq : ¬ ((tx0.updateStatus0).status ≠ TxStatus.UNSIGNED) :=
    fun h => h heq
  simp only [insertTx_unwrapped, hfind2]
  rw [if_pos hstatus, if_neg hneq, htxins]

/-! ## Claim theorems -/

/-- C1: the spec says every public write operation commits its
persistence transaction before releasing the global mutex, and in
particular a successful `insertMerkleBlock` leaves the new header and
merkle block durably committed.  The source of `Vault::insertMerkleBlock`
(Vault.cpp:1447-1455) returns the unwrapped result without ever calling
`t.commit()`, so the ODB transaction rolls back on destruction: the call
below succeeds inside the transaction (the header and merkle block are
present in the working state) yet the durable state is bit-identical to
the empty vault.  (`Vault::insertTx` by contrast does commit on
success.)  This theorem evaluates the code at the failing input. -/
theorem c1_insertMerkleBlock_commit_missing (W : Nat) :
    (insertMerkleBlock_unwrapped W emptyVault c1Block).fst = true ∧
    (insertMerkleBlock_unwrapped W emptyVault c1Block).snd.headers =
      [{ id := 1, hash := 101, prevhash := 100, height := 1
         timestamp := 5000 }] ∧
    (insertMerkleBlock_unwrapped W emptyVault c1Block).snd.merkleblocks =
      [{ id := 2, headerId := 1, txhashes := [] }] ∧
    insertMerkleBlock W emptyVault c1Block = (true, emptyVault) := by
  have h := insertMB_empty W c1Block
  refine ⟨?_, ?_, ?_, ?_⟩
  · rw [h]
  · rw [h]
    rfl
  · rw [h]
    rfl
  · unfold insertMerkleBlock
    rw [h]

/-- C5: with a surplus over the requested outputs plus fee, the spec
says `create_tx` succeeds and issues a fresh change script from the
change bin through the normal issuance path.  But
`issueAccountBinSigningScript_unwrapped` (Vault.cpp:770-772) throws
`AccountCannotIssueChangeScript` whenever the bin is the change bin, and
`createTx_unwrapped` (Vault.cpp:1240-1241) calls it on the change bin
whenever the surplus is positive — so any `create_tx` with change fails.
Concretely: one UTXO worth 100, one requested output worth 30, fee 10,
surplus 60 > 0. -/
theorem c5_createTx_change_always_fails :
    0 < 100 - (30 + 10) ∧
    createTx_unwrapped (fun l => l) (fun l => l) c5State "acct"
      [{ value := 30, script := 777 }] 10 0 =
      .error (.accountCannotIssueChangeScript "acct") := by
  constructor
  · decide
  · rfl

/-- C8 counterexample: the claim says an unlock call with a key that
fails decryption verification fails with the corresponding
`…UnlockFailed` error.  In the source (Vault.cpp:507-517) the failing
key is silently ignored: the call returns normally (no error) and merely
skips the caching.  Concretely, keychain `kc` has chain-code lock key 42
and private-key lock key 43; unlocking with key 999 fails verification
on both yet each call returns `.ok` with the state unchanged. -/
theorem c8_counterexample :
    (∃ kc, getKeychain_unwrapped kcState "kc" = .ok kc ∧
      kc.unlockChainCode 999 = false ∧ kc.unlockPrivateKey 999 = false) ∧
    unlockKeychainChainCode kcState "kc" 999 = .ok kcState ∧
    unlockKeychainPrivateKey kcState "kc" 999 = .ok kcState := by
  refine ⟨⟨{ name := "kc", hash := 1, chainCodeLockKey := 42
             privateKeyLockKey := 43 }, rfl, rfl, rfl⟩, rfl, rfl⟩

/-- C8 (amended): an unlock call with a key that fails decryption
verification returns without error and does not cache the key in the
in-memory unlock map (the state, maps included, is unchanged); a key
that verifies is cached. -/
theorem c8_unlock_caching (s : VaultState) (name : String) (key : Nat)
    (kc : StoredKeychain) (hkc : getKeychain_unwrapped s name = .ok kc) :
    (kc.unlockChainCode key = false →
      unlockKeychainChainCode s name key = .ok s) ∧
    (kc.unlockChainCode key = true →
      ∃ s2, unlockKeychainChainCode s name key = .ok s2 ∧
        mapLookup s2.mapChainCodeUnlock name = some key) ∧
    (kc.unlockPrivateKey key = false →
      unlockKeychainPrivateKey s name key = .ok s) ∧
    (kc.unlockPrivateKey key = true →
      ∃ s2, unlockKeychainPrivateKey s name key = .ok s2 ∧
        mapLookup s2.mapPrivateKeyUnlock name = some key) := by
  refine ⟨?_, ?_, ?_, ?_⟩
  · intro hfail
    unfold unlockKeychainChainCode
    rw [hkc]
    simp [hfail]
  · intro hok
    unfold unlockKeychainChainCode
    rw [hkc]
    exact ⟨{ s with mapChainCodeUnlock := mapStore s.mapChainCodeUnlock name key },
      by simp [hok], mapLookup_store s.mapChainCodeUnlock name key⟩
  · intro hfail
    unfold unlockKeychainPrivateKey
    rw [hkc]
    simp [hfail]
  · intro hok
    unfold unlockKeychainPrivateKey
    rw [hkc]
    exact ⟨{ s with mapPrivateKeyUnlock := mapStore s.mapPrivateKeyUnlock name key },
      by simp [hok], mapLookup_store s.mapPrivateKeyUnlock name key⟩

/-- C8 witness: concrete application — the right key (42) is cached,
the wrong key is ignored. -/
theorem c8_unlock_caching_witness :
    unlockKeychainChainCode kcState "kc" 999 = .ok kcState ∧
    ∃ s2, unlockKeychainChainCode kcState "kc" 42 = .ok s2 ∧
      mapLookup s2.mapChainCodeUnlock "kc" = some 42 := by
  have h := c8_unlock_caching kcState "kc" 999
    { name := "kc", hash := 1, chainCodeLockKey := 42, privateKeyLockKey := 43 }
    rfl
  have h42 := c8_unlock_caching kcState "kc" 42
    { name := "kc", hash := 1, chainCodeLockKey := 42, privateKeyLockKey := 43 }
    rfl
  exact ⟨h.1 rfl, h42.2.1 rfl⟩

/-- C9: `getTx_unwrapped` and `deleteTx` resolve a hash against both the
signed transaction hash and the unsigned hash: a stored transaction is
found whenever either hash matches, and `TxNotFound` is raised exactly
when no stored transaction has the hash as either of its two hashes
(Vault.cpp:924-931 and 1261-1274). -/
theorem c9_lookup_both_hashes (s : VaultState) (h : Nat) :
    (∀ t ∈ s.txs, (t.hash = h ∨ t.unsignedHash = h) →
      ∃ t2, getTx_unwrapped s h = .ok t2 ∧ t2 ∈ s.txs ∧
        (t2.hash = h ∨ t2.unsignedHash = h)) ∧
    (getTx_unwrapped s h = .error (.txNotFound h) ↔
      ∀ t ∈ s.txs, t.hash ≠ h ∧ t.unsignedHash ≠ h) ∧
    ((∃ s2, deleteTx s h = .ok s2) ↔
      ∃ t ∈ s.txs, t.hash = h ∨ t.unsignedHash = h) ∧
    (deleteTx s h = .error (.txNotFound h) ↔
      ∀ t ∈ s.txs, t.hash ≠ h ∧ t.unsignedHash ≠ h) := by
  unfold getTx_unwrapped deleteTx
  cases hf : s.txs.find? (fun t => t.hash == h || t.unsignedHash == h) with
  | none =>
    have hall := List.find?_eq_none.mp hf
    refine ⟨?_, ?_, ?_, ?_⟩
    · intro t ht hmatch
      exact absurd (by simpa using hmatch) (by simpa using hall t ht)
    · simp only [true_iff]
      intro t ht
      have := hall t ht
      simp at this
      exact this
    · constructor
      · rintro ⟨s2, hs2⟩
        cases hs2
      · rintro ⟨t, ht, hmatch⟩
        exact absurd (by simpa using hmatch) (by simpa using hall t ht)
    · simp only [true_iff]
      intro t ht
      have := hall t ht
      simp at this
      exact this
  | some t0 =>
    have hmem := List.mem_of_find?_eq_some hf
    have hp := List.find?_some hf
    simp only [Bool.or_eq_true, beq_iff_eq] at hp
    refine ⟨?_, ?_, ?_, ?_⟩
    · intro t ht hmatch
      exact ⟨t0, rfl, hmem, hp⟩
    · constructor
      · intro hcontra
        cases hcontra
      · intro hall
        have := hall t0 hmem
        rcases hp with h1 | h1 <;> simp [h1] at this
    · constructor
      · intro _
        exact ⟨t0, hmem, hp⟩
      · intro _
        exact ⟨_, rfl⟩
    · constructor
      · intro hcontra
        cases hcontra
      · intro hall
        have := hall t0 hmem
        rcases hp with h1 | h1 <;> simp [h1] at this

/-- C9 witness: concrete application at the double-spend base state —
hash 1001 is the unsigned hash of the stored transaction and resolves;
hash 4242 resolves to `TxNotFound` for both operations. -/
theorem c9_lookup_both_hashes_witness :
    (∃ t2, getTx_unwrapped dsBase 1001 = .ok t2 ∧ t2 ∈ dsBase.txs ∧
      (t2.hash = 1001 ∨ t2.unsignedHash = 1001)) ∧
    deleteTx dsBase 4242 = .error (.txNotFound 4242) := by
  constructor
  · exact (c9_lookup_both_hashes dsBase 1001).1
      { id := 2, hash := 1000, unsignedHash := 1001, status := .PROPAGATED
        blockheaderId := none, blockindex := 0, fee := 0, timestamp := 0 }
      (by decide) (Or.inr rfl)
  · exact (c9_lookup_both_hashes dsBase 4242).2.2.2.mpr (by decide)

/-- C10: with no persisted transactions the horizon view is empty and
`getHorizonTimestamp_unwrapped` returns the sentinel `0xffffffff`
(Vault.cpp:72-77); the orphan test of `insertMerkleBlock_unwrapped`
(Vault.cpp:1463-1464) refuses a block with unknown predecessor exactly
when `mb.timestamp + TIME_HORIZON_WINDOW`, computed in wrapping 32-bit
arithmetic, strictly exceeds the horizon; hence on an empty vault an
orphan is refused only if the 32-bit addition overflows (in fact the
wrapped sum can never exceed the sentinel, so the refusal is
impossible). -/
theorem c10_horizon_sentinel :
    (∀ s : VaultState, s.txs = [] →
      getHorizonTimestamp_unwrapped s = 0xffffffff) ∧
    (∀ (W : Nat) (s : VaultState) (mb : MBObj),
      s.headers.any (fun h => h.hash == mb.prevhash) = false →
      s.headers.any (fun h => h.hash == mb.hash) = false →
      ((insertMerkleBlock_unwrapped W s mb).fst = false ↔
        (mb.timestamp + W) % 2 ^ 32 > getHorizonTimestamp_unwrapped s)) ∧
    (∀ (W : Nat) (mb : MBObj),
      (insertMerkleBlock_unwrapped W emptyVault mb).fst = false →
      2 ^ 32 ≤ mb.timestamp + W) := by
  refine ⟨?_, ?_, ?_⟩
  · intro s hs
    unfold getHorizonTimestamp_unwrapped horizonRows
    rw [hs]
    rfl
  · intro W s mb h1 h2
    unfold insertMerkleBlock_unwrapped
    rw [h1, h2]
    by_cases hgt : (mb.timestamp + W) % 2 ^ 32 >
        getHorizonTimestamp_unwrapped s
    · have hgt2 : getHorizonTimestamp_unwrapped s <
          (mb.timestamp + W) % 4294967296 := by simpa using hgt
      simp [hgt, hgt2]
    · have hgt2 : ¬ (getHorizonTimestamp_unwrapped s <
          (mb.timestamp + W) % 4294967296) := by simpa using hgt
      simp [hgt, hgt2]
  · intro W mb hf
    rw [insertMB_empty W mb] at hf
    cases hf

/-- C10 witness: concrete application — the empty vault's horizon is the
sentinel, and the block `c1Block` with unknown predecessor is not
refused on the empty vault (the wrapped sum cannot exceed the
sentinel). -/
theorem c10_horizon_sentinel_witness :
    getHorizonTimestamp_unwrapped emptyVault = 0xffffffff ∧
    ((insertMerkleBlock_unwrapped 21600 emptyVault c1Block).fst = false ↔
      (5000 + 21600) % 2 ^ 32 > getHorizonTimestamp_unwrapped emptyVault) := by
  constructor
  · exact c10_horizon_sentinel.1 emptyVault rfl
  · exact c10_horizon_sentinel.2.1 21600 emptyVault c1Block rfl rfl

/-- C3 counterexample: the claimed invariant — SPENT iff a persisted
TxIn with matching outpoint exists whose transaction is not CONFLICTING
— holds in the base state, yet after two completed `insert_tx`
operations that double-spend outpoint `(1000, 0)` it is violated: the
outpoint's stored TxOut is SPENT while both of its matching persisted
TxIns belong to CONFLICTING transactions (Vault.cpp:1066-1071 overwrite
the `spent` back-link with the conflicting spender; Vault.cpp:1151-1162
demote both spenders to CONFLICTING). -/
theorem c3_counterexample :
    insertTx_unwrapped dsBase dsT1 = .ok (some 4, dsStep1) ∧
    insertTx_unwrapped dsStep1 dsT2 = .ok (some 7, dsStep2) ∧
    SpentIffLiveSpender dsBase ∧
    ¬ SpentIffLiveSpender dsStep2 :=
  ⟨rfl, rfl, by decide, by decide⟩

/-- A positionally indexed list whose entries all carry their own index
as `txindex` is dense in the sense of the ordered-container
discipline. -/
theorem dense_from (L : List StoredTxOut) : ∀ (base : Nat),
    (L.enumFrom base).all (fun q => q.2.txindex == q.1) = true →
    ∀ k o, L.get? k = some o → o.txindex = base + k := by
  induction L with
  | nil =>
    intro base hall k o hk
    exact Option.noConfusion hk
  | cons x xs ih =>
    intro base hall k o hk
    simp only [List.enumFrom, List.all_cons, Bool.and_eq_true,
      beq_iff_eq] at hall
    match k with
    | 0 =>
      have hxo : x = o := by
        injection hk
      rw [← hxo]
      have hx := hall.1
      omega
    | Nat.succ k2 =>
      have hrec := ih (base + 1) hall.2 k2 o hk
      omega

/-- The double-spend base fixture satisfies the relational
well-formedness discipline. -/
theorem wf_dsBase : WfState dsBase := by
  refine ⟨by decide, by decide, by decide, ?_⟩
  intro t ht k o hk
  fin_cases ht
  have hd := dense_from (dsBase.txouts.filter
    (fun o2 => o2.txId == (2 : Nat))) 0 (by decide) k o hk
  simpa using hd

/-- C3 (amended): the spent-state invariant the code actually maintains —
every stored TxOut is SPENT exactly when its spent back-link is set,
and the back-link then points at a persisted TxIn whose
(outhash, outindex) matches the outpoint, the spending transaction's
status being unconstrained — is preserved by every completed vault
write operation: transaction insertion (on a well-formed store with
distinct output-row ids), transaction deletion, merkle-block insertion,
and transaction creation. -/
theorem c3_invspent_amended (s : VaultState) (hwf : WfState s)
    (hnd : (s.txouts.map (fun o => o.id)).Nodup) (h : InvSpent s) :
    (∀ tx0 r s2, insertTx_unwrapped s tx0 = .ok (r, s2) → InvSpent s2) ∧
    (∀ h0 s2, deleteTx s h0 = .ok s2 → InvSpent s2) ∧
    (∀ W mb, InvSpent (insertMerkleBlock_unwrapped W s mb).snd) ∧
    (∀ shuffleU shuffleO an touts fee ts tx s2,
      createTx_unwrapped shuffleU shuffleO s an touts fee ts =
        .ok (tx, s2) → InvSpent s2) :=
  ⟨fun tx0 r s2 hok => InvSpent_insertTx s tx0 r s2 hwf hnd hok h,
   fun h0 s2 hok => InvSpent_deleteTx s h0 s2 hok h,
   fun W mb => InvSpent_insertMB W s mb h,
   fun shuffleU shuffleO an touts fee ts tx s2 hok =>
     InvSpent_createTx shuffleU shuffleO s an touts fee ts tx s2 hok h⟩

/-- C3 amended-theorem witness: the double-spend base store is
well-formed, has distinct output-row ids and satisfies the spent-state
invariant, and the completed insertion of the first spender preserves
the invariant. -/
theorem c3_invspent_amended_witness :
    WfState dsBase ∧ (dsBase.txouts.map (fun o => o.id)).Nodup ∧
    InvSpent dsBase ∧ InvSpent dsStep1 :=
  ⟨wf_dsBase, by decide, by decide,
    (c3_invspent_amended dsBase wf_dsBase (by decide) (by decide)).1
      dsT1 (some 4) dsStep1 rfl⟩

/-- C6 counterexample: transaction 77 referenced the disconnected
height-7 header, is not listed by the newly inserted height-6 block, yet
after the reorg its `blockheader` link is not null — the confirmation
pass relinked it through the surviving height-3 merkle block that also
lists it (Vault.cpp:1505, `updateConfirmations_unwrapped` joins against
every stored merkle block, not only the newly connected one). -/
theorem c6_counterexample :
    (insertMerkleBlock_unwrapped 21600 c6State c6MB).fst = true ∧
    (∃ h0 ∈ c6State.headers, c6MB.height ≤ h0.height) ∧
    ¬ (∀ t ∈ c6State.txs,
        (∃ h0 ∈ c6State.headers, t.blockheaderId = some h0.id ∧
          c6MB.height ≤ h0.height) →
        ∀ t2 ∈ (insertMerkleBlock_unwrapped 21600 c6State c6MB).snd.txs,
          t2.id = t.id →
          (t2.blockheaderId = none ∨
           (c6MB.txhashes.contains t2.hash = true ∧
            t2.blockheaderId = some c6State.nextId))) :=
  ⟨by decide, by decide, by decide⟩

/-- C6 (amended): for every `insert_merkle_block` call that triggers a
reorg at height `H = mb.height` (some stored header has height ≥ H,
the predecessor is known and the block is not a duplicate), the call
succeeds and afterwards: no stored header has height ≥ H except the
newly inserted one; every merkle block referencing an erased header is
erased; and, row by row, every transaction that referenced a
disconnected header ends with a null blockheader link unless its hash
is listed in some stored merkle block (the newly inserted one or a
surviving older one), in which case it is linked to that block's
header. -/
theorem c6_reorg_amended (W : Nat) (s : VaultState) (mb : MBObj)
    (hwfm : ∀ m ∈ s.merkleblocks, m.id < s.nextId)
    (h1 : s.headers.any (fun h => h.hash == mb.prevhash) = true)
    (h2 : s.headers.any (fun h => h.hash == mb.hash) = false)
    (h3 : s.headers.any (fun h => decide (h.height ≥ mb.height)) = true) :
    (insertMerkleBlock_unwrapped W s mb).fst = true ∧
    (∀ h0 ∈ (insertMerkleBlock_unwrapped W s mb).snd.headers,
      mb.height ≤ h0.height →
      h0 = { id := s.nextId, hash := mb.hash, prevhash := mb.prevhash
             height := mb.height, timestamp := mb.timestamp }) ∧
    (∀ m ∈ s.merkleblocks,
      (∃ h0 ∈ s.headers, h0.id = m.headerId ∧ mb.height ≤ h0.height) →
      m ∉ (insertMerkleBlock_unwrapped W s mb).snd.merkleblocks) ∧
    List.Forall₂ (fun t t2 =>
      t2.id = t.id ∧ t2.hash = t.hash ∧
      ((∃ h0 ∈ s.headers, t.blockheaderId = some h0.id ∧
          mb.height ≤ h0.height) →
        (t2.blockheaderId = none ∨
         ∃ m ∈ (insertMerkleBlock_unwrapped W s mb).snd.merkleblocks,
           m.txhashes.contains t2.hash = true ∧
           t2.blockheaderId = some m.headerId)))
      s.txs (insertMerkleBlock_unwrapped W s mb).snd.txs := by
  rw [insertMB_reorg_eq W s mb h1 h2 h3]
  refine ⟨rfl, ?_, ?_, ?_⟩
  · -- headers clause
    intro h0 hmem hge
    have hmem2 : h0 ∈ s.headers.filter (fun h => decide (h.height < mb.height))
        ++ [({ id := s.nextId, hash := mb.hash, prevhash := mb.prevhash
               height := mb.height, timestamp := mb.timestamp } : StoredHeader)] :=
      hmem
    rcases List.mem_append.mp hmem2 with hl | hr
    · exfalso
      have hlt := (List.mem_filter.mp hl).2
      simp at hlt
      omega
    · simpa using hr
  · -- merkle block clause
    intro m hm hex hcontra
    have hcontra2 : m ∈ s.merkleblocks.filter (fun m2 =>
        !((reorgErasedIds s mb.height).contains m2.headerId)) ++
        [({ id := s.nextId + 1, headerId := s.nextId
            txhashes := mb.txhashes } : StoredMerkleBlock)] := hcontra
    rcases List.mem_append.mp hcontra2 with hl | hr
    · have hkeep := (List.mem_filter.mp hl).2
      rcases hex with ⟨h0, hh0, hid, hge⟩
      have hmemE : m.headerId ∈ reorgErasedIds s mb.height := by
        unfold reorgErasedIds
        refine List.mem_map.mpr ⟨h0, ?_, hid⟩
        exact List.mem_filter.mpr ⟨hh0, by simpa using hge⟩
      simp at hkeep
      exact hkeep hmemE
    · have hlt : m.id < s.nextId := hwfm m hm
      have hme : m = { id := s.nextId + 1, headerId := s.nextId
                       txhashes := mb.txhashes } := by simpa using hr
      rw [hme] at hlt
      simp at hlt
  · -- transaction clause
    have htxs : (updateConfirmations_unwrapped
        (persistMB (reorgDisconnect s mb.height) mb) none).txs =
        s.txs.map (fun t =>
          confirmFn (updateConfirmations_unwrapped
              (persistMB (reorgDisconnect s mb.height) mb) none).merkleblocks
            none
            (linkMBFn s.nextId mb (reorgNullFn (reorgErasedIds s mb.height) t))) := by
      show ((s.txs.map (reorgNullFn (reorgErasedIds s mb.height))).map
        (linkMBFn s.nextId mb)).map _ = _
      rw [List.map_map, List.map_map]
      rfl
    rw [htxs]
    refine forall2_map_self _ _ _ ?_
    intro t ht
    obtain ⟨hid1, hhash1, _⟩ :=
      reorgNullFn_fields (reorgErasedIds s mb.height) t
    obtain ⟨hid2, hhash2, _⟩ :=
      linkMBFn_fields s.nextId mb (reorgNullFn (reorgErasedIds s mb.height) t)
    obtain ⟨hid3, hhash3, _⟩ := confirmFn_fields
      (updateConfirmations_unwrapped
        (persistMB (reorgDisconnect s mb.height) mb) none).merkleblocks none
      (linkMBFn s.nextId mb (reorgNullFn (reorgErasedIds s mb.height) t))
    refine ⟨by rw [hid3, hid2, hid1], by rw [hhash3, hhash2, hhash1], ?_⟩
    rintro ⟨h0, hh0, hbh, hge⟩
    have hmemE : h0.id ∈ reorgErasedIds s mb.height := by
      unfold reorgErasedIds
      refine List.mem_map.mpr ⟨h0, ?_, rfl⟩
      exact List.mem_filter.mpr ⟨hh0, by simpa using hge⟩
    have e1 : reorgNullFn (reorgErasedIds s mb.height) t =
        { t with blockheaderId := none } := by
      unfold reorgNullFn
      rw [hbh]
      simp [hmemE]
    rw [e1]
    by_cases hl : t.hash ∈ mb.txhashes
    · have e2 : linkMBFn s.nextId mb { t with blockheaderId := none } =
          { t with blockheaderId := some s.nextId
                   blockindex := 4294967295 } := by
        unfold linkMBFn
        simp [hl]
      rw [e2]
      have e3 : confirmFn (updateConfirmations_unwrapped
          (persistMB (reorgDisconnect s mb.height) mb) none).merkleblocks none
          { t with blockheaderId := some s.nextId
                   blockindex := 4294967295 } =
          { t with blockheaderId := some s.nextId
                   blockindex := 4294967295 } := by
        unfold confirmFn
        simp
      rw [e3]
      right
      have hmbs : (updateConfirmations_unwrapped
          (persistMB (reorgDisconnect s mb.height) mb) none).merkleblocks =
          s.merkleblocks.filter (fun m2 =>
            !((reorgErasedIds s mb.height).contains m2.headerId)) ++
          [({ id := s.nextId + 1, headerId := s.nextId
              txhashes := mb.txhashes } : StoredMerkleBlock)] := rfl
      refine ⟨{ id := s.nextId + 1, headerId := s.nextId
                txhashes := mb.txhashes }, ?_, by simpa using hl, rfl⟩
      rw [hmbs]
      exact List.mem_append.mpr (Or.inr (by simp))
    · have e2 : linkMBFn s.nextId mb { t with blockheaderId := none } =
          { t with blockheaderId := none } := by
        unfold linkMBFn
        simp [hl]
      rw [e2]
      rcases hf : (updateConfirmations_unwrapped
          (persistMB (reorgDisconnect s mb.height) mb) none).merkleblocks.find?
          (fun mb2 => decide (t.hash ∈ mb2.txhashes)) with _ | m
      · have e3 : confirmFn (updateConfirmations_unwrapped
            (persistMB (reorgDisconnect s mb.height) mb) none).merkleblocks none
            { t with blockheaderId := none } =
            { t with blockheaderId := none } := by
          unfold confirmFn
          simp [hf]
        rw [e3]
        left
        rfl
      · have hmem := List.mem_of_find?_eq_some hf
        have hcont := List.find?_some hf
        have e3 : confirmFn (updateConfirmations_unwrapped
            (persistMB (reorgDisconnect s mb.height) mb) none).merkleblocks none
            { t with blockheaderId := none } =
            { t with blockheaderId := some m.headerId } := by
          unfold confirmFn
          simp [hf]
        rw [e3]
        right
        exact ⟨m, hmem, by simpa using hcont, rfl⟩

/-- C6 witness: concrete application at the reorg fixture. -/
theorem c6_reorg_amended_witness :
    (insertMerkleBlock_unwrapped 21600 c6State c6MB).fst = true :=
  (c6_reorg_amended 21600 c6State c6MB (by decide) (by decide) (by decide)
    (by decide)).1

/-- C2: duplicate reconciliation of `insert_tx` by unsigned hash
(Vault.cpp:950-1024).  When the stored duplicate `S` is UNSIGNED and the
incoming transaction is not, every stored input's script is overwritten
with the corresponding incoming input's script, `S`'s status is updated
to the incoming status and `S` is returned.  When both are UNSIGNED,
signatures are merged input by input; `S` is returned iff at least one
new signature was added, the updated inputs being rewritten in EDIT
form and the others kept; otherwise nothing is returned and the store
is unchanged. -/
theorem c2_insertTx_duplicate_reconcile (s : VaultState) (tx0 : TxObj)
    (stored : StoredTx)
    (hfind : s.txs.find? (fun t => t.unsignedHash == tx0.unsignedHash) =
      some stored)
    (hnd : (s.txins.map (fun i => i.id)).Nodup)
    (hstatus : stored.status = TxStatus.UNSIGNED)
    (hlen : (s.txins.filter (fun i2 => i2.txId == stored.id)).length =
      tx0.txins.length) :
    ((tx0.updateStatus0).status ≠ TxStatus.UNSIGNED →
      ∃ s2, insertTx_unwrapped s tx0 = .ok (some stored.id, s2) ∧
        s2.txins.filter (fun i2 => i2.txId == stored.id) =
          List.zipWith (fun (st : StoredTxIn) (inc : TxInObj) =>
            { st with script := inc.script })
            (s.txins.filter (fun i2 => i2.txId == stored.id)) tx0.txins ∧
        (∀ i ∈ s.txins, i.txId ≠ stored.id → i ∈ s2.txins) ∧
        (∀ t ∈ s.txs, t.id = stored.id →
          { t with status := (tx0.updateStatus0).status } ∈ s2.txs) ∧
        (∀ t ∈ s.txs, t.id ≠ stored.id → t ∈ s2.txs) ∧
        s2.txouts = s.txouts) ∧
    ((tx0.updateStatus0).status = TxStatus.UNSIGNED →
      ((∀ n ∈ List.zipWith (fun (st : StoredTxIn) (inc : TxInObj) =>
            (st.script.mergesigs inc.script).1)
            (s.txins.filter (fun i2 => i2.txId == stored.id)) tx0.txins,
          n = 0) →
        insertTx_unwrapped s tx0 = .ok (none, s)) ∧
      ((∃ n ∈ List.zipWith (fun (st : StoredTxIn) (inc : TxInObj) =>
            (st.script.mergesigs inc.script).1)
            (s.txins.filter (fun i2 => i2.txId == stored.id)) tx0.txins,
          0 < n) →
        ∃ s2, insertTx_unwrapped s tx0 = .ok (some stored.id, s2) ∧
          s2.txins.filter (fun i2 => i2.txId == stored.id) =
            List.zipWith (fun (st : StoredTxIn) (inc : TxInObj) =>
              if 0 < (st.script.mergesigs inc.script).1 then
                { st with script :=
                  ((st.script.mergesigs inc.script).2).txinscript SForm.EDIT }
              else st)
              (s.txins.filter (fun i2 => i2.txId == stored.id)) tx0.txins ∧
          (∀ i ∈ s.txins, i.txId ≠ stored.id → i ∈ s2.txins) ∧
          s2.txs = s.txs ∧ s2.txouts = s.txouts)) := by
  constructor
  · -- replace branch
    intro hneq
    have hgA : ∀ i : StoredTxIn,
        ((match (List.zipWith (fun (st : StoredTxIn) (inc : TxInObj) =>
            (st.id, inc.script))
            (s.txins.filter (fun i2 => i2.txId == stored.id))
            tx0.txins).lookup i.id with
          | some sc => ({ i with script := sc } : StoredTxIn)
          | none => i).txId == stored.id) = (i.txId == stored.id) := by
      intro i
      rw [match_lookup_txId]
    refine ⟨_, insertTx_dup_replace_eval s tx0 stored hfind hstatus hneq,
      ?_, ?_, ?_, ?_, rfl⟩
    · exact (filter_map_pres
        (fun i => match (List.zipWith (fun (st : StoredTxIn)
            (inc : TxInObj) => (st.id, inc.script))
            (s.txins.filter (fun i2 => i2.txId == stored.id))
            tx0.txins).lookup i.id with
          | some sc => { i with script := sc }
          | none => i)
        (fun i2 => i2.txId == stored.id) hgA s.txins).trans
        (map_lookup_zip_all (fun st inc => inc.script)
          (fun i o => match o with
            | some sc => { i with script := sc }
            | none => i)
          (fun _ => rfl) _ tx0.txins hlen
          (nodup_filter_ids s.txins stored.id hnd))
    · intro i hi hne
      have hnone := untouched_lookup_none
        (fun (st : StoredTxIn) (inc : TxInObj) => inc.script)
        (fun _ => true) stored.id s.txins tx0.txins hnd i hi hne
      have hnone2 : (List.zipWith (fun (st : StoredTxIn) (inc : TxInObj) =>
          (st.id, inc.script))
          (s.txins.filter (fun i2 => i2.txId == stored.id))
          tx0.txins).lookup i.id = none := by simpa using hnone
      refine List.mem_map.mpr ⟨i, hi, ?_⟩
      simp only [hnone2]
    · intro t ht hid
      refine List.mem_map.mpr ⟨t, ht, ?_⟩
      have hbeq : (t.id == stored.id) = true := by simpa using hid
      simp [hbeq]
    · intro t ht hid
      refine List.mem_map.mpr ⟨t, ht, ?_⟩
      have hbeq : (t.id == stored.id) = false := by simpa using hid
      simp [hbeq]
  · -- merge branch
    intro heq
    have heval := insertTx_dup_merge_eval s tx0 stored hfind hstatus heq
    constructor
    · intro hz
      rw [heval]
      have hnil : ((List.zipWith (fun (st : StoredTxIn) (inc : TxInObj) =>
          (st.id, (st.script.mergesigs inc.script).1,
           ((st.script.mergesigs inc.script).2).txinscript SForm.EDIT))
          (s.txins.filter (fun i2 => i2.txId == stored.id))
          tx0.txins).filter (fun p => decide (0 < p.2.1))) = [] := by
        refine List.filter_eq_nil_iff.mpr ?_
        intro p hp
        have hproj : p.2.1 ∈ (List.zipWith (fun (st : StoredTxIn)
            (inc : TxInObj) =>
            (st.id, (st.script.mergesigs inc.script).1,
             ((st.script.mergesigs inc.script).2).txinscript SForm.EDIT))
            (s.txins.filter (fun i2 => i2.txId == stored.id))
            tx0.txins).map (fun p2 => p2.2.1) :=
          List.mem_map_of_mem _ hp
        rw [List.map_zipWith] at hproj
        have h0 := hz _ hproj
        simp [h0]
      rw [hnil]
      rfl
    · intro hex
      rw [heval]
      have hne : ((List.zipWith (fun (st : StoredTxIn) (inc : TxInObj) =>
          (st.id, (st.script.mergesigs inc.script).1,
           ((st.script.mergesigs inc.script).2).txinscript SForm.EDIT))
          (s.txins.filter (fun i2 => i2.txId == stored.id))
          tx0.txins).filter (fun p => decide (0 < p.2.1))) ≠ [] := by
        rcases hex with ⟨n, hn, hpos⟩
        have hn2 : n ∈ (List.zipWith (fun (st : StoredTxIn)
            (inc : TxInObj) =>
            (st.id, (st.script.mergesigs inc.script).1,
             ((st.script.mergesigs inc.script).2).txinscript SForm.EDIT))
            (s.txins.filter (fun i2 => i2.txId == stored.id))
            tx0.txins).map (fun p2 => p2.2.1) := by
          rw [List.map_zipWith]
          exact hn
        rcases List.mem_map.mp hn2 with ⟨p, hp, hproj⟩
        refine List.ne_nil_of_mem (a := p) ?_
        refine List.mem_filter.mpr ⟨hp, ?_⟩
        show decide (0 < p.2.1) = true
        rw [hproj]
        simpa using hpos
      have hempty : ((List.zipWith (fun (st : StoredTxIn) (inc : TxInObj) =>
          (st.id, (st.script.mergesigs inc.script).1,
           ((st.script.mergesigs inc.script).2).txinscript SForm.EDIT))
          (s.txins.filter (fun i2 => i2.txId == stored.id))
          tx0.txins).filter (fun p => decide (0 < p.2.1))).isEmpty =
          false := List.isEmpty_eq_false.mpr hne
      rw [hempty]
      have hgB : ∀ i : StoredTxIn,
          ((match ((List.zipWith (fun (st : StoredTxIn) (inc : TxInObj) =>
              (st.id, (st.script.mergesigs inc.script).1,
               ((st.script.mergesigs inc.script).2).txinscript SForm.EDIT))
              (s.txins.filter (fun i2 => i2.txId == stored.id))
              tx0.txins).filter (fun (p : Nat × Nat × InScript) =>
                decide (0 < p.2.1))).lookup i.id
            with
            | some p => ({ i with script := p.2 } : StoredTxIn)
            | none => i).txId == stored.id) = (i.txId == stored.id) := by
        intro i
        rw [match_lookup_txId2]
      have hfunB : (fun (st : StoredTxIn) (v : TxInObj) =>
          if decide (0 < (st.script.mergesigs v.script).1) = true then
            ({ st with script :=
              ((st.script.mergesigs v.script).2).txinscript SForm.EDIT } :
              StoredTxIn)
          else st) = (fun (st : StoredTxIn) (v : TxInObj) =>
          if 0 < (st.script.mergesigs v.script).1 then
            ({ st with script :=
              ((st.script.mergesigs v.script).2).txinscript SForm.EDIT } :
              StoredTxIn)
          else st) := by
        funext st v
        by_cases hc : 0 < (st.script.mergesigs v.script).1
        · rw [if_pos (decide_eq_true hc), if_pos hc]
        · rw [if_neg (by simpa using hc), if_neg hc]
      have hzipB : List.zipWith (fun (st : StoredTxIn) (v : TxInObj) =>
          if decide (0 < (st.script.mergesigs v.script).1) = true then
            ({ st with script :=
              ((st.script.mergesigs v.script).2).txinscript SForm.EDIT } :
              StoredTxIn)
          else st)
          (s.txins.filter (fun i2 => i2.txId == stored.id)) tx0.txins =
        List.zipWith (fun (st : StoredTxIn) (v : TxInObj) =>
          if 0 < (st.script.mergesigs v.script).1 then
            ({ st with script :=
              ((st.script.mergesigs v.script).2).txinscript SForm.EDIT } :
              StoredTxIn)
          else st)
          (s.txins.filter (fun i2 => i2.txId == stored.id)) tx0.txins := by
        rw [hfunB]
      refine ⟨_, rfl, ?_, ?_, rfl, rfl⟩
      · exact (filter_map_pres
          (fun i => match ((List.zipWith (fun (st : StoredTxIn)
              (inc : TxInObj) =>
              (st.id, (st.script.mergesigs inc.script).1,
               ((st.script.mergesigs inc.script).2).txinscript SForm.EDIT))
              (s.txins.filter (fun i2 => i2.txId == stored.id))
              tx0.txins).filter (fun p => decide (0 < p.2.1))).lookup i.id
            with
            | some p => { i with script := p.2 }
            | none => i)
          (fun i2 => i2.txId == stored.id) hgB s.txins).trans
          ((map_lookup_zip_eq (fun (st : StoredTxIn) (inc : TxInObj) =>
              ((st.script.mergesigs inc.script).1,
               ((st.script.mergesigs inc.script).2).txinscript SForm.EDIT))
            (fun p => decide (0 < p.2.1))
            (fun i o => match o with
              | some p => { i with script := p.2 }
              | none => i)
            (fun _ => rfl)
            _ tx0.txins hlen (nodup_filter_ids s.txins stored.id hnd)).trans
            hzipB)
      · intro i hi hne2
        have hnone := untouched_lookup_none
          (fun (st : StoredTxIn) (inc : TxInObj) =>
            ((st.script.mergesigs inc.script).1,
             ((st.script.mergesigs inc.script).2).txinscript SForm.EDIT))
          (fun p => decide (0 < p.2.1)) stored.id s.txins tx0.txins hnd i hi
          hne2
        have hnone2 : ((List.zipWith (fun (st : StoredTxIn)
            (inc : TxInObj) =>
            (st.id, (st.script.mergesigs inc.script).1,
             ((st.script.mergesigs inc.script).2).txinscript SForm.EDIT))
            (s.txins.filter (fun i2 => i2.txId == stored.id))
            tx0.txins).filter (fun p => decide (0 < p.2.1))).lookup i.id =
            none := hnone
        refine List.mem_map.mpr ⟨i, hi, ?_⟩
        simp only [hnone2]

/-- C7: `signTx` returns false if and only if no signatures were added
across all inputs — equivalently, every input's signature list is
unchanged — and otherwise recomputes the transaction's status
(`tx->updateStatus()` at Vault.cpp:1424) and returns true; signing a
fully signed transaction again is an exact no-op that returns false
(Vault.cpp:1367,1422). -/
theorem c7_signTx_false_iff_no_sigs (s : VaultState) (tx : TxObj)
    (b : Bool) (tx2 : TxObj)
    (hok : signTx_unwrapped s tx = .ok (b, tx2)) :
    (b = false ↔ List.Forall₂ (fun (old new : TxInObj) =>
        new.script.sigs = old.script.sigs) tx.txins tx2.txins) ∧
    (b = false → tx2 = { tx with txins := tx2.txins }) ∧
    (b = true → tx2 =
      ({ tx with txins := tx2.txins } : TxObj).updateStatus0) ∧
    ((∀ i ∈ tx.txins, i.script.sigsneeded = 0) →
      b = false ∧ tx2 = tx) := by
  simp only [signTx_unwrapped] at hok
  cases hloop : signTxInLoop s tx tx.txins 0 with
  | error e => simp only [hloop] at hok; exact absurd hok (by simp)
  | ok pr =>
    obtain ⟨ins, total⟩ := pr
    simp only [hloop] at hok
    obtain ⟨hzA, hzB⟩ := signTxInLoop_zero s tx tx.txins 0 ins total hloop
    by_cases ht : (total == 0) = true
    · rw [if_pos ht] at hok
      simp only [Except.ok.injEq, Prod.mk.injEq] at hok
      obtain ⟨e1, e2⟩ := hok
      have htz : total = 0 := by simpa using ht
      refine ⟨?_, ?_, ?_, ?_⟩
      · constructor
        · intro _
          rw [← e2]
          exact hzA htz
        · intro _
          exact e1.symm
      · intro _
        rw [← e2]
      · intro hb
        rw [← e1] at hb
        simp at hb
      · intro hfull
        have h2 := signTxInLoop_fullysigned s tx tx.txins 0 hfull
        rw [hloop] at h2
        simp only [Except.ok.injEq, Prod.mk.injEq] at h2
        obtain ⟨g1, _⟩ := h2
        refine ⟨e1.symm, ?_⟩
        rw [← e2, g1]
    · rw [if_neg ht] at hok
      simp only [Except.ok.injEq, Prod.mk.injEq] at hok
      obtain ⟨e1, e2⟩ := hok
      have htnz : total ≠ 0 := by simpa using ht
      have htxins : tx2.txins = ins := by
        rw [← e2]
        exact ((updateStatus0_fields _).2.2.1 : _)
      refine ⟨?_, ?_, ?_, ?_⟩
      · constructor
        · intro hb
          rw [← e1] at hb
          simp at hb
        · intro hfa
          rw [htxins] at hfa
          exact absurd (hzB hfa) htnz
      · intro hb
        rw [← e1] at hb
        simp at hb
      · intro _
        rw [← e2, (updateStatus0_fields _).2.2.1]
      · intro hfull
        have h2 := signTxInLoop_fullysigned s tx tx.txins 0 hfull
        rw [hloop] at h2
        simp only [Except.ok.injEq, Prod.mk.injEq] at h2
        exact absurd h2.2 htnz

/-- Witness: re-signing the already fully signed `c2Incoming` is a
no-op returning false. -/
theorem c7_signTx_false_iff_no_sigs_witness :
    signTx_unwrapped emptyVault c2Incoming = .ok (false, c2Incoming) ∧
    (false = false ↔ List.Forall₂ (fun (old new : TxInObj) =>
        new.script.sigs = old.script.sigs) c2Incoming.txins
        c2Incoming.txins) :=
  ⟨rfl, (c7_signTx_false_iff_no_sigs emptyVault c2Incoming false
    c2Incoming rfl).1⟩

/-- Witness: inserting a fully signed duplicate of a stored unsigned
transaction replaces the stored input scripts and updates the status. -/
theorem c2_insertTx_duplicate_reconcile_witness :
    ∃ s2, insertTx_unwrapped c2State c2Incoming =
        .ok (some c2Stored.id, s2) ∧
      s2.txins.filter (fun i2 => i2.txId == c2Stored.id) =
        List.zipWith (fun (st : StoredTxIn) (inc : TxInObj) =>
          { st with script := inc.script })
          (c2State.txins.filter (fun i2 => i2.txId == c2Stored.id))
          c2Incoming.txins ∧
      (∀ i ∈ c2State.txins, i.txId ≠ c2Stored.id → i ∈ s2.txins) ∧
      (∀ t ∈ c2State.txs, t.id = c2Stored.id →
        { t with status := (c2Incoming.updateStatus0).status } ∈ s2.txs) ∧
      (∀ t ∈ c2State.txs, t.id ≠ c2Stored.id → t ∈ s2.txs) ∧
      s2.txouts = c2State.txouts :=
  (c2_insertTx_duplicate_reconcile c2State c2Incoming c2Stored rfl
    (by decide) rfl rfl).1 (by decide)

/-- C4 counterexample: the claim promises conflict detection for every
pair of transactions spending the same outpoint, but
`Vault::insertTx_unwrapped` (Vault.cpp:1040-1046) skips the double-spend
check entirely when no stored transaction has the outpoint's hash
(`have_all_outpoints = false; continue`), and the check itself relies on
the outpoint's `spent` back-link (Vault.cpp:1055-1061), which is only
set when the outpoint belongs to a vault signing script.  Here two
persisted transactions spend the same unknown outpoint `(999, 0)` and
both end PROPAGATED — neither is CONFLICTING. -/
theorem c4_counterexample :
    ∃ s1 s2,
      insertTx_unwrapped dsBase c4F1 = .ok (some 4, s1) ∧
      insertTx_unwrapped s1 c4F2 = .ok (some 7, s2) ∧
      (∃ t1 ∈ s2.txs, t1.hash = c4F1.hash ∧
        t1.status = TxStatus.PROPAGATED) ∧
      (∃ t2 ∈ s2.txs, t2.hash = c4F2.hash ∧
        t2.status = TxStatus.PROPAGATED) :=
  ⟨_, _, rfl, rfl, by decide, by decide⟩

/-- The double-spend scenario state with the first spender stored as
SENT satisfies the relational well-formedness discipline. -/
theorem wf_c4Am : WfState (c4AmState TxStatus.SENT) := by
  refine ⟨by decide, by decide, by decide, ?_⟩
  intro t ht k o hk
  fin_cases ht
  · have hd := dense_from _ 0 (by decide) k o hk
    simpa using hd
  · have hd := dense_from _ 0 (by decide) k o hk
    simpa using hd

/-- C4 amended: conflict detection is driven by the outpoint's recorded
`spent` back-link, not by the pair of spenders.  General positive half:
on any well-formed store, whenever the insert of a new transaction
completes returning a stored transaction and one of its inputs — the
first of its inputs spending that outpoint — resolves against a stored
parent transaction to an outpoint row whose `spent` back-link points at
a persisted input of a stored transaction T1, the new transaction is
stored CONFLICTING and T1 is promoted to CONFLICTING unless it was
CONFIRMED, in which case T1's row is unchanged (Vault.cpp:1053-1061,
1151-1162).  General negative half: when no stored transaction carries
the outpoint hash of any input, nothing is detected — every stored
transaction keeps its status and the new transaction, if stored, keeps
its computed status (Vault.cpp:1040-1046 skip the check when the parent
is unknown; the back-link is only ever written for outpoints of vault
signing scripts, so such double spends go undetected). -/
theorem c4_conflict_amended (s : VaultState) (tx0 : TxObj)
    (hwf : WfState s)
    (hnd : (s.txouts.map (fun r => r.id)).Nodup)
    (hndtx : (s.txs.map (fun t => t.id)).Nodup)
    (hdup : s.txs.find? (fun t =>
      t.unsignedHash == tx0.updateStatus0.unsignedHash) = none) :
    (∀ (txin : TxInObj) (A B : List TxInObj) (tp t1 : StoredTx)
       (o : StoredTxOut) (iid : Nat) (i1 : StoredTxIn) (rid : Nat)
       (s2 : VaultState),
       tx0.updateStatus0.txins = A ++ txin :: B →
       (∀ p ∈ A, ¬(p.outhash = txin.outhash ∧
         p.outindex = txin.outindex)) →
       s.txs.find? (fun t => t.hash == txin.outhash) = some tp →
       o ∈ s.txouts → o.txId = tp.id → o.txindex = txin.outindex →
       o.spent = some iid →
       s.txins.find? (fun i => i.id == iid) = some i1 →
       t1 ∈ s.txs → i1.txId = t1.id →
       insertTx_unwrapped s tx0 = .ok (some rid, s2) →
       rid = s.nextId ∧
       (∃ t2 ∈ s2.txs, t2.id = s.nextId ∧ t2.hash = tx0.hash ∧
         t2.status = TxStatus.CONFLICTING) ∧
       (t1.status ≠ TxStatus.CONFIRMED →
         ∃ t1r ∈ s2.txs, t1r.id = t1.id ∧ t1r.hash = t1.hash ∧
           t1r.status = TxStatus.CONFLICTING) ∧
       (t1.status = TxStatus.CONFIRMED →
         ∃ t1r ∈ s2.txs, t1r.id = t1.id ∧ t1r.hash = t1.hash ∧
           t1r.status = t1.status)) ∧
    (∀ (r : Option Nat) (s2 : VaultState),
       (∀ p ∈ tx0.updateStatus0.txins, s.txs.find? (fun t =>
         t.hash == p.outhash) = none) →
       insertTx_unwrapped s tx0 = .ok (r, s2) →
       (∀ t ∈ s.txs, ∃ t2 ∈ s2.txs, t2.id = t.id ∧ t2.hash = t.hash ∧
         t2.status = t.status) ∧
       (∀ rid, r = some rid → rid = s.nextId ∧
         ∃ t2 ∈ s2.txs, t2.id = s.nextId ∧ t2.hash = tx0.hash ∧
           t2.status = tx0.updateStatus0.status)) := by
  constructor
  · intro txin A B tp t1 o iid i1 rid s2 hsplit hfirst hfind ho hotx
      hoidx hosp hfindin ht1 hid1 hok
    unfold insertTx_unwrapped at hok
    dsimp only at hok
    simp only [hdup] at hok
    cases hscan : insertTxInScan s.nextId
        (tx0.updateStatus0.txins.enum.map (fun p =>
          (p.2, s.nextId + 1 + p.1)))
        { st := s, sentFromVault := false, haveAllOutpoints := true
          inputTotal := 0, sendingAccount := none, conflicts := []
          spentUpdates := [] } with
    | error e =>
      simp only [hscan] at hok
      exact Except.noConfusion hok
    | ok iacc =>
      simp only [hscan] at hok
      have hpins : (tx0.updateStatus0.txins.enum.map (fun p =>
          (p.2, s.nextId + 1 + p.1))) =
          ((A.enumFrom 0).map (fun p => (p.2, s.nextId + 1 + p.1))) ++
          (txin, s.nextId + 1 + (0 + A.length)) ::
          ((B.enumFrom (0 + A.length + 1)).map (fun p =>
            (p.2, s.nextId + 1 + p.1))) := by
        have he : tx0.updateStatus0.txins.enum =
            (A ++ txin :: B).enumFrom 0 := by
          rw [hsplit]
          rfl
        rw [he, enumFrom_append_split, List.map_append, List.map_cons]
      have hexpre : ∀ p ∈ ((A.enumFrom 0).map (fun p =>
          (p.2, s.nextId + 1 + p.1))),
          ¬(p.1.outhash = txin.outhash ∧
            p.1.outindex = txin.outindex) := by
        intro p hp
        rcases List.mem_map.mp hp with ⟨q, hq, hpe⟩
        have hq2 : q.2 ∈ A := snd_mem_of_mem_enumFrom A 0 q hq
        rw [← hpe]
        exact hfirst q.2 hq2
      have htid : i1.txId ∈ iacc.conflicts :=
        inScan_detect s s.nextId txin tp o iid i1 hndtx hfind hfindin
          hotx hoidx hosp _ _ iacc hscan rfl rfl
          ⟨o, ho, rfl, rfl, rfl, rfl⟩ hwf.2.2.2 hnd
          ⟨_, _, _, hpins, hexpre⟩
      have htid2 : t1.id ∈ iacc.conflicts := hid1 ▸ htid
      obtain ⟨hTxs, hTxins, hBase, hFlag⟩ := inScan_char s s.nextId
        (tx0.updateStatus0.txins.enum.map (fun p =>
          (p.2, s.nextId + 1 + p.1)))
        (tx0.updateStatus0.txins.enum.map (fun p =>
          (p.2, s.nextId + 1 + p.1)))
        _ iacc hscan (fun p hp => hp) rfl rfl (fun o2 ho2 => Or.inl ho2)
        hwf.2.2.2 hnd (fun _ => rfl)
      obtain ⟨hOins, hOouts, hOtxs, hONew⟩ := outScan_char s iacc.st
        tx0.updateStatus0.hash s.nextId iacc.sentFromVault
        iacc.sendingAccount
        (tx0.updateStatus0.txouts.enum.map (fun p =>
          (p.2, s.nextId + 1 + tx0.updateStatus0.txins.length + p.1,
            p.1)))
        { st := iacc.st, sentToVault := false, outputTotal := 0
          newOuts := [] }
        hTxins rfl rfl (fun o2 ho2 => absurd ho2 (List.not_mem_nil o2))
      have hce : ¬ iacc.conflicts.isEmpty = true := by
        intro hh
        rw [List.isEmpty_iff.mp hh] at htid
        exact absurd htid (List.not_mem_nil _)
      simp only [if_neg hce] at hok
      split at hok
      · split at hok
        · simp only [Except.ok.injEq, Prod.mk.injEq] at hok
          obtain ⟨e1, e2⟩ := hok
          have hrid : rid = s.nextId := by
            injection e1 with e1h
            exact e1h.symm
          rw [← e2]
          refine ⟨hrid, ?_, ?_, ?_⟩
          · refine ⟨_, List.mem_map_of_mem _ (List.mem_append_right _
              (List.mem_singleton_self _)), ?_, ?_, ?_⟩
            · exact (confirmFn_fields _ _ _).1
            · exact ((confirmFn_fields _ _ _).2.1).trans
                (updateStatus0_fields tx0).2.1
            · exact (confirmFn_fields _ _ _).2.2
          · intro hne
            have hcond : (iacc.conflicts.contains t1.id &&
                !(t1.status == TxStatus.CONFIRMED)) = true := by
              rw [Bool.and_eq_true]
              constructor
              · simpa using htid2
              · simp [hne]
            refine ⟨_, List.mem_map_of_mem _ (List.mem_append_left _
              (List.mem_map_of_mem _ ((hOtxs.trans hTxs).symm ▸ ht1))),
              ?_, ?_, ?_⟩
            · refine ((confirmFn_fields _ _ _).1).trans ?_
              rw [if_pos hcond]
            · refine ((confirmFn_fields _ _ _).2.1).trans ?_
              rw [if_pos hcond]
            · refine ((confirmFn_fields _ _ _).2.2).trans ?_
              rw [if_pos hcond]
          · intro hceq
            have hcond : ¬ (iacc.conflicts.contains t1.id &&
                !(t1.status == TxStatus.CONFIRMED)) = true := by
              simp [hceq]
            refine ⟨_, List.mem_map_of_mem _ (List.mem_append_left _
              (List.mem_map_of_mem _ ((hOtxs.trans hTxs).symm ▸ ht1))),
              ?_, ?_, ?_⟩
            · refine ((confirmFn_fields _ _ _).1).trans ?_
              rw [if_neg hcond]
            · refine ((confirmFn_fields _ _ _).2.1).trans ?_
              rw [if_neg hcond]
            · refine ((confirmFn_fields _ _ _).2.2).trans ?_
              rw [if_neg hcond]
        · rename_i hdec
          exact absurd (by decide) hdec
      · simp only [Except.ok.injEq, Prod.mk.injEq] at hok
        exact Option.noConfusion hok.1
  · intro r s2 hunk hok
    unfold insertTx_unwrapped at hok
    dsimp only at hok
    simp only [hdup] at hok
    have hmap : ∀ p ∈ (tx0.updateStatus0.txins.enum.map (fun q =>
        (q.2, s.nextId + 1 + q.1))),
        s.txs.find? (fun t => t.hash == p.1.outhash) = none := by
      intro p hp
      rcases List.mem_map.mp hp with ⟨q, hq, hpe⟩
      have hq2 : q.2 ∈ tx0.updateStatus0.txins :=
        snd_mem_of_mem_enumFrom _ 0 q hq
      rw [← hpe]
      exact hunk q.2 hq2
    obtain ⟨iacc, hscan, hst, hcf, hsv, hsa⟩ := inScan_unknown s.nextId
      (tx0.updateStatus0.txins.enum.map (fun q =>
        (q.2, s.nextId + 1 + q.1)))
      { st := s, sentFromVault := false, haveAllOutpoints := true
        inputTotal := 0, sendingAccount := none, conflicts := []
        spentUpdates := [] } hmap
    simp only [hscan] at hok
    have htxseq : iacc.st.txs = s.txs := by
      rw [hst]
    have hinseq : iacc.st.txins = s.txins := by
      rw [hst]
    obtain ⟨hOins, hOouts, hOtxs, hONew⟩ := outScan_char s iacc.st
      tx0.updateStatus0.hash s.nextId iacc.sentFromVault
      iacc.sendingAccount
      (tx0.updateStatus0.txouts.enum.map (fun p =>
        (p.2, s.nextId + 1 + tx0.updateStatus0.txins.length + p.1,
          p.1)))
      { st := iacc.st, sentToVault := false, outputTotal := 0
        newOuts := [] }
      hinseq rfl rfl (fun o2 ho2 => absurd ho2 (List.not_mem_nil o2))
    have hce : iacc.conflicts.isEmpty = true := by
      rw [hcf]
      rfl
    simp only [if_pos hce] at hok
    split at hok
    · split at hok
      · simp only [Except.ok.injEq, Prod.mk.injEq] at hok
        obtain ⟨e1, e2⟩ := hok
        rw [← e2]
        constructor
        · intro t ht
          refine ⟨_, List.mem_map_of_mem _ (List.mem_append_left _
            ((hOtxs.trans htxseq).symm ▸ ht)), ?_, ?_, ?_⟩
          · exact (confirmFn_fields _ _ _).1
          · exact (confirmFn_fields _ _ _).2.1
          · exact (confirmFn_fields _ _ _).2.2
        · intro rid hr
          rw [← e1] at hr
          have hrid : rid = s.nextId := by
            injection hr with hr2
            exact hr2.symm
          refine ⟨hrid, _, List.mem_map_of_mem _ (List.mem_append_right _
            (List.mem_singleton_self _)), ?_, ?_, ?_⟩
          · exact (confirmFn_fields _ _ _).1
          · exact ((confirmFn_fields _ _ _).2.1).trans
              (updateStatus0_fields tx0).2.1
          · exact (confirmFn_fields _ _ _).2.2
      · simp only [Except.ok.injEq, Prod.mk.injEq] at hok
        obtain ⟨e1, e2⟩ := hok
        rw [← e2]
        constructor
        · intro t ht
          exact ⟨t, List.mem_append_left _
            ((hOtxs.trans htxseq).symm ▸ ht), rfl, rfl, rfl⟩
        · intro rid hr
          rw [← e1] at hr
          have hrid : rid = s.nextId := by
            injection hr with hr2
            exact hr2.symm
          refine ⟨hrid, _, List.mem_append_right _
            (List.mem_singleton_self _), rfl, ?_, rfl⟩
          exact (updateStatus0_fields tx0).2.1
    · simp only [Except.ok.injEq, Prod.mk.injEq] at hok
      obtain ⟨e1, e2⟩ := hok
      rw [← e2]
      constructor
      · intro t ht
        exact ⟨t, (hOtxs.trans htxseq).symm ▸ ht, rfl, rfl, rfl⟩
      · intro rid hr
        rw [← e1] at hr
        exact Option.noConfusion hr

/-- Witness: the amended conflict behaviour at concrete inputs.
Positive half: the second double-spender of the vault-owned, back-linked
outpoint `(1000, 0)` is stored CONFLICTING and the SENT first spender is
promoted.  Negative half: inserting a spender of the unknown outpoint
`(999, 0)` into the base store changes no stored status and stores the
new transaction PROPAGATED. -/
theorem c4_conflict_amended_witness :
    (∃ s2, insertTx_unwrapped (c4AmState TxStatus.SENT) dsT2 =
        .ok (some 7, s2) ∧
      (∃ t2 ∈ s2.txs, t2.id = 7 ∧ t2.hash = dsT2.hash ∧
        t2.status = TxStatus.CONFLICTING) ∧
      (∃ t1r ∈ s2.txs, t1r.id = 4 ∧ t1r.hash = 2000 ∧
        t1r.status = TxStatus.CONFLICTING)) ∧
    (∃ s1, insertTx_unwrapped dsBase c4F1 = .ok (some 4, s1) ∧
      (∀ t ∈ dsBase.txs, ∃ t2 ∈ s1.txs, t2.id = t.id ∧
        t2.hash = t.hash ∧ t2.status = t.status) ∧
      (∃ t2 ∈ s1.txs, t2.id = 4 ∧ t2.hash = c4F1.hash ∧
        t2.status = TxStatus.PROPAGATED)) := by
  constructor
  · obtain ⟨hrid, hC1, hC2, -⟩ :=
      (c4_conflict_amended (c4AmState TxStatus.SENT) dsT2 wf_c4Am
        (by decide) (by decide) (by decide)).1
        { outhash := 1000, outindex := 0, script := dsSig, seq := 0 }
        [] []
        { id := 2, hash := 1000, unsignedHash := 1001
          status := .PROPAGATED, blockheaderId := none, blockindex := 0
          fee := 0, timestamp := 0 }
        { id := 4, hash := 2000, unsignedHash := 2001
          status := .SENT, blockheaderId := none, blockindex := 0
          fee := 10, timestamp := 0 }
        { id := 3, txId := 2, txindex := 0, value := 100, script := 500
          signingscriptId := some 1, sendingAccountId := none
          spent := some 5, status := .SPENT }
        5
        { id := 5, txId := 4, txindex := 0, outhash := 1000
          outindex := 0, script := dsSig, seq := 0 }
        7 _ rfl (fun p hp => absurd hp (List.not_mem_nil p))
        rfl (by decide) rfl rfl rfl rfl (by decide) rfl rfl
    exact ⟨_, rfl, hC1, hC2 (by decide)⟩
  · obtain ⟨hrows, hnew⟩ :=
      (c4_conflict_amended dsBase c4F1 wf_dsBase (by decide) (by decide)
        (by decide)).2 (some 4) _ (by decide) rfl
    obtain ⟨hrid4, hnewrow⟩ := hnew 4 rfl
    exact ⟨_, rfl, hrows, hnewrow⟩

end CoinDBVault
